import Mathlib

/-!
QuickFIX field convertors: a shallow embedding of `src/C++/FieldConvertors.h`.

Byte strings are lists of bytes; a `std::string` read through `c_str()` is the
list followed by a NUL terminator.  C `int` is a 32-bit two's complement
integer, `unsigned` is arithmetic modulo `2^32`, `char` is a signed byte.
-/

namespace FIX

/-- A byte of a `std::string` (its bit pattern, 0..255). -/
abbrev Byte := Fin 256

/-- Modelled from the spec: `String::c_str`, `String::length` and `String::size`
(declared in FixString.h, which is not among the sources) are those of
`std::string`.  This is the byte at offset `i` of `c_str()`: the string's byte,
or the NUL terminator once `i` reaches the length. -/
def cAt (s : List Byte) (i : Nat) : Byte := s.getD i 0

/-- Integer promotion of a (signed) `char`. -/
def charToInt (b : Byte) : Int := if b.val < 128 then (b.val : Int) else (b.val : Int) - 256

/-- Conversion of an `int` expression to `unsigned` (value modulo `2^32`). -/
def toUnsigned (z : Int) : Nat := (z % 4294967296).toNat

/-- Conversion of an unsigned 32-bit pattern to `int` (two's complement). -/
def toInt32 (n : Nat) : Int :=
  if n % 4294967296 < 2147483648 then ((n % 4294967296 : Nat) : Int)
  else ((n % 4294967296 : Nat) : Int) - 4294967296

/-- The values an `int` can hold. -/
def isInt32 (z : Int) : Prop := -2147483648 ≤ z ∧ z < 2147483648

instance (z : Int) : Decidable (isInt32 z) := by unfold isInt32; infer_instance

/-- The bytes of an ASCII literal. -/
def ascii (s : String) : List Byte := s.toList.map (fun c => Fin.ofNat c.toNat)

/-- Modelled from the spec: `Util::Char::isdigit` (declared in Utility.h, which is
not among the sources) is the locale-free test for a decimal digit `'0'..'9'`. -/
def isdigit (b : Byte) : Bool := decide (48 ≤ b.val) && decide (b.val ≤ 57)

namespace IntConvertor

/-- The expression `c = *str - '0'` with `c` unsigned. -/
def digitOf (s : List Byte) (p : Nat) : Nat := toUnsigned (charToInt (cAt s p) - 48)

/-- The statement `x += c * k` for `int x`, `unsigned c`: computed in `unsigned`
and converted back to `int`. -/
def addMul (x : Int) (c k : Nat) : Int := toInt32 ((toUnsigned x + (c * k) % 4294967296) % 4294967296)

/-- The statement `result = !neg ? x : -x`. -/
def signed (neg : Nat) (x : Int) : Int := if neg = 0 then x else toInt32 (toUnsigned (-x))

/-- Label `case 1` of the switch in `parse`. -/
def case1 (s : List Byte) (neg p : Nat) (x : Int) : Option Int :=
  let c := digitOf s p
  if c < 10 then some (signed neg (addMul x c 1)) else none

/-- Label `case 2`, falling through to `case 1`. -/
def case2 (s : List Byte) (neg p : Nat) (x : Int) : Option Int :=
  let c := digitOf s p
  if c < 10 then case1 s neg (p + 1) (addMul x c 10) else none

/-- Label `case 3`. -/
def case3 (s : List Byte) (neg p : Nat) (x : Int) : Option Int :=
  let c := digitOf s p
  if c < 10 then case2 s neg (p + 1) (addMul x c 100) else none

/-- Label `case 4`. -/
def case4 (s : List Byte) (neg p : Nat) (x : Int) : Option Int :=
  let c := digitOf s p
  if c < 10 then case3 s neg (p + 1) (addMul x c 1000) else none

/-- Label `case 5`. -/
def case5 (s : List Byte) (neg p : Nat) (x : Int) : Option Int :=
  let c := digitOf s p
  if c < 10 then case4 s neg (p + 1) (addMul x c 10000) else none

/-- Label `case 6`. -/
def case6 (s : List Byte) (neg p : Nat) (x : Int) : Option Int :=
  let c := digitOf s p
  if c < 10 then case5 s neg (p + 1) (addMul x c 100000) else none

/-- Label `case 7`. -/
def case7 (s : List Byte) (neg p : Nat) (x : Int) : Option Int :=
  let c := digitOf s p
  if c < 10 then case6 s neg (p + 1) (addMul x c 1000000) else none

/-- Label `case 8`. -/
def case8 (s : List Byte) (neg p : Nat) (x : Int) : Option Int :=
  let c := digitOf s p
  if c < 10 then case7 s neg (p + 1) (addMul x c 10000000) else none

/-- Label `case 9`. -/
def case9 (s : List Byte) (neg p : Nat) (x : Int) : Option Int :=
  let c := digitOf s p
  if c < 10 then case8 s neg (p + 1) (addMul x c 100000000) else none

/-- Label `case 10`: here the source assigns `x = c * 1000000000`. -/
def case10 (s : List Byte) (neg p : Nat) (_x : Int) : Option Int :=
  let c := digitOf s p
  if c < 10 then case9 s neg (p + 1) (toInt32 ((c * 1000000000) % 4294967296)) else none

/-- `IntConvertor::parse(const S& value, T& result)` with `T = int`:
`some result` when it returns true, `none` when it returns false. -/
def parse (s : List Byte) : Option Int :=
  let neg : Nat := if cAt s 0 = 45 then 1 else 0
  let str := neg
  match s.length - neg with
  | 10 => case10 s neg str 0
  | 9 => case9 s neg str 0
  | 8 => case8 s neg str 0
  | 7 => case7 s neg str 0
  | 6 => case6 s neg str 0
  | 5 => case5 s neg str 0
  | 4 => case4 s neg str 0
  | 3 => case3 s neg str 0
  | 2 => case2 s neg str 0
  | 1 => case1 s neg str 0
  | _ => none

/-- The bitwise complement `~value` of an `int`. -/
def bitNot (z : Int) : Int := -z - 1

/-- Addition of two `int`s, taken modulo `2^32`. -/
def addInt (a b : Int) : Int := toInt32 (toUnsigned (a + b))

/-- The loop `do { v = u / 10; *p++ = (char)('0' + (u - v * 10)); } while( (u = v) );`
of `Proxy::generate`: the bytes it stores, in buffer order (lowest digit first). -/
def generateLoop (u : Nat) : List Byte :=
  let v := u / 10
  let ch : Byte := Fin.ofNat ((48 + (u - v * 10) % 4294967296) % 4294967296)
  if h : v ≠ 0 then
    have : u / 10 < u := Nat.div_lt_self (by omega) (by decide)
    ch :: generateLoop v
  else [ch]
termination_by u

/-- `IntConvertor::Proxy::generate` (the generic branch of the `#if`): the
buffer cells written, and the returned count. -/
def generate (value : Int) : List Byte × Nat :=
  let u : Nat := toUnsigned (if value < 0 then addInt (bitNot value) 1 else value)
  let digits := generateLoop u
  let buf := digits ++ [45]
  (buf, digits.length + (if value < 0 then 1 else 0))

/-- Modelled from the spec: `Util::CharBuffer::reverse_iterator` (declared in
Utility.h, which is not among the sources) is the standard reverse iterator over
`char*`, so the string built from `reverse_iterator(buf + n)` to
`reverse_iterator(buf)` holds `buf[n-1], ..., buf[0]`. -/
def reverseRange (buf : List Byte) (n : Nat) : List Byte := (buf.take n).reverse

/-- `IntConvertor::Proxy::convert_to` (generic branch): the string built from
the reverse iterators over `buf[0 .. generate(buf))`. -/
def convert_to (value : Int) : List Byte :=
  let r := generate value
  reverseRange r.1 r.2

/-- `IntConvertor::convert(int value)`. -/
def convert (value : Int) : List Byte := convert_to value

/-- `IntConvertor::MaxValueSize`, the size of the buffer `generate` writes to:
`std::numeric_limits<int>::digits10 + 2`. -/
def MaxValueSize : Nat := 9 + 2

end IntConvertor

namespace PositiveIntConvertor

/-- The expression `c = *str - '0'` with `c` unsigned. -/
def digitOf (s : List Byte) (p : Nat) : Nat := toUnsigned (charToInt (cAt s p) - 48)

/-- The statement `x += c * k` for `int x`, `unsigned c`. -/
def addMul (x : Int) (c k : Nat) : Int := toInt32 ((toUnsigned x + (c * k) % 4294967296) % 4294967296)

/-- Label `case 1` of the switch in `parse`: `result = x`. -/
def case1 (s : List Byte) (p : Nat) (x : Int) : Option Int :=
  let c := digitOf s p
  if c < 10 then some (addMul x c 1) else none

/-- Label `case 2`, falling through to `case 1`. -/
def case2 (s : List Byte) (p : Nat) (x : Int) : Option Int :=
  let c := digitOf s p
  if c < 10 then case1 s (p + 1) (addMul x c 10) else none

/-- Label `case 3`. -/
def case3 (s : List Byte) (p : Nat) (x : Int) : Option Int :=
  let c := digitOf s p
  if c < 10 then case2 s (p + 1) (addMul x c 100) else none

/-- Label `case 4`. -/
def case4 (s : List Byte) (p : Nat) (x : Int) : Option Int :=
  let c := digitOf s p
  if c < 10 then case3 s (p + 1) (addMul x c 1000) else none

/-- Label `case 5`. -/
def case5 (s : List Byte) (p : Nat) (x : Int) : Option Int :=
  let c := digitOf s p
  if c < 10 then case4 s (p + 1) (addMul x c 10000) else none

/-- Label `case 6`. -/
def case6 (s : List Byte) (p : Nat) (x : Int) : Option Int :=
  let c := digitOf s p
  if c < 10 then case5 s (p + 1) (addMul x c 100000) else none

/-- Label `case 7`. -/
def case7 (s : List Byte) (p : Nat) (x : Int) : Option Int :=
  let c := digitOf s p
  if c < 10 then case6 s (p + 1) (addMul x c 1000000) else none

/-- Label `case 8`. -/
def case8 (s : List Byte) (p : Nat) (x : Int) : Option Int :=
  let c := digitOf s p
  if c < 10 then case7 s (p + 1) (addMul x c 10000000) else none

/-- Label `case 9`. -/
def case9 (s : List Byte) (p : Nat) (x : Int) : Option Int :=
  let c := digitOf s p
  if c < 10 then case8 s (p + 1) (addMul x c 100000000) else none

/-- Label `case 10`: here the source assigns `x = c * 1000000000`. -/
def case10 (s : List Byte) (p : Nat) (_x : Int) : Option Int :=
  let c := digitOf s p
  if c < 10 then case9 s (p + 1) (toInt32 ((c * 1000000000) % 4294967296)) else none

/-- `PositiveIntConvertor::parse(const S& value, T& result)` with `T = int`:
`some result` when it returns true, `none` when it returns false. -/
def parse (s : List Byte) : Option Int :=
  match s.length with
  | 10 => case10 s 0 0
  | 9 => case9 s 0 0
  | 8 => case8 s 0 0
  | 7 => case7 s 0 0
  | 6 => case6 s 0 0
  | 5 => case5 s 0 0
  | 4 => case4 s 0 0
  | 3 => case3 s 0 0
  | 2 => case2 s 0 0
  | 1 => case1 s 0 0
  | _ => none

end PositiveIntConvertor

/-- The C library function `strspn(s, accept)` on a NUL-terminated string: the
length of the longest prefix of `s` made of bytes of `accept`; the scan stops at
the terminator. -/
def strspn : List Byte → List Byte → Nat
  | [], _ => 0
  | b :: t, accept => if b ≠ 0 ∧ b ∈ accept then strspn t accept + 1 else 0

namespace CheckSumConvertor

/-- Conversion of an `int` to `unsigned char`. -/
def toUChar (z : Int) : Nat := (z % 256).toNat

/-- Conversion of an `int` to `char` when stored in a string. -/
def toByte (z : Int) : Byte := Fin.ofNat (z % 256).toNat

/-- `CheckSumConvertor::convert(int value)`: `some` of the three bytes of `buf`,
or `none` when `FieldConvertError` is thrown. -/
def convert (value : Int) : Option (List Byte) :=
  let v : Nat := toUChar value
  if value - (v : Int) = 0 then
    let n : Nat := toUChar ((v : Int) / 100)
    let buf0 := toByte (48 + (n : Int))
    let v : Nat := toUChar ((v : Int) - (n : Int) * 100)
    let n : Nat := toUChar ((v : Int) / 10)
    let buf1 := toByte (48 + (n : Int))
    let v : Nat := toUChar ((v : Int) - (n : Int) * 10)
    let buf2 := toByte (48 + (v : Int))
    some [buf0, buf1, buf2]
  else none

/-- `CheckSumConvertor::parse(const S& value, int& result)`. -/
def parse (s : List Byte) : Option Int := PositiveIntConvertor.parse s

/-- `CheckSumConvertor::validate`:
`strspn(s, "0123456789") == 3 && s[0] < 3`. -/
def validate (s : List Byte) : Bool :=
  decide (strspn s (ascii "0123456789") = 3) && decide (charToInt (cAt s 0) < 3)

end CheckSumConvertor

namespace DoubleConvertor

/-- Advancing `p` over a run of digits of the NUL-terminated string: the
effect of `if( isdigit(*p) ) { while( isdigit(*++p) ); }`.  The first argument
is the part of the string from offset `p` on; the result is the first offset at
or after `p` whose byte is not a digit (the terminator is not a digit). -/
def skipDigits : List Byte → Nat → Nat
  | [], p => p
  | b :: t, p => if isdigit b then skipDigits t (p + 1) else p

/-- The arguments with which `parse` calls `parse_verified( pv, p, pdot ? pdot : p )`,
as offsets into the string, and the sign it applies to the value. -/
structure Verified where
  positive : Bool
  pv : Nat
  e : Nat
  pdot : Nat
deriving DecidableEq

/-- `DoubleConvertor::parse(const S& value, double& result)`: `some` when it
returns true, with the arguments of the `parse_verified` call that computes the
result; `none` when it returns false. -/
def parse (s : List Byte) : Option Verified :=
  let p := 0
  if cAt s p ≠ 0 then
    let positive : Bool := decide (cAt s p ≠ 45)
    let p := if positive then p else p + 1
    if positive || decide (cAt s p ≠ 0) then
      let pv := p
      let p := skipDigits (s.drop p) p
      let hasDot : Bool := decide (cAt s p = 46)
      let pdot := p
      let p := if hasDot then skipDigits (s.drop (p + 1)) (p + 1) else p
      if cAt s p = 0 ∧ p - pv > (if hasDot then 1 else 0) then
        some ⟨positive, pv, p, if hasDot then pdot else p⟩
      else none
    else none
  else none

end DoubleConvertor

namespace BoolConvertor

/-- `BoolConvertor::parse(const S& value, bool& result)`: `some result` when it
returns true, `none` when it returns false. -/
def parse (s : List Byte) : Option Bool :=
  if s.length = 1 then
    let c := cAt s 0
    let result : Bool := decide (c = 89) && decide (c ≠ 78)
    if result || decide (c = 78) then some result else none
  else none

/-- `BoolConvertor::convert(bool value)`. -/
def convert (value : Bool) : List Byte :=
  let ch : Byte := if value then 89 else 78
  List.replicate 1 ch

/-- `BoolConvertor::validate`. -/
def validate (s : List Byte) : Bool :=
  decide (s.length = 1) && (decide (cAt s 0 = 89) || decide (cAt s 0 = 78))

end BoolConvertor

/-- The number a string of decimal digits denotes. -/
def decimalValue (ds : List Byte) : Nat := ds.foldl (fun a c => a * 10 + (c.val - 48)) 0

/-- The canonical decimal text of a natural number: its digits, most
significant first, with no leading zero, and the single digit `0` for zero. -/
def canonicalDecimal (n : Nat) : List Byte :=
  if n = 0 then [48] else ((Nat.digits 10 n).reverse).map (fun d => Fin.ofNat (48 + d))

namespace CharConvertor

/-- `CharConvertor::parse(const S& value, char& result)`: `some result` when it
returns true, `none` when it returns false. -/
def parse (s : List Byte) : Option Byte :=
  if s.length = 1 then some (cAt s 0) else none

/-- `CharConvertor::convert(char value)`. -/
def convert (value : Byte) : List Byte :=
  if value ≠ 0 then List.replicate 1 value else []

/-- `CharConvertor::validate`:
`String::size(value) == 1 && s[0] > 32 && s[0] < 127`. -/
def validate (s : List Byte) : Bool :=
  decide (s.length = 1) && decide (charToInt (cAt s 0) > 32) && decide (charToInt (cAt s 0) < 127)

end CharConvertor

namespace UtcConvertorBase

/-- The expression `v = *p - '0'` with `p` a `const unsigned char*` and `v` an
`unsigned char`, for the byte at offset `p`. -/
def digitAt (s : List Byte) (p : Nat) : Nat := ((((cAt s p).val : Int) - 48) % 256).toNat

/-- What `parse_date` leaves behind: its return value, the advanced pointer and
the three `int` outputs. -/
structure Date where
  valid : Bool
  p : Nat
  year : Int
  mon : Int
  mday : Int
deriving DecidableEq

/-- `UtcConvertorBase::parse_date(p, year, mon, mday)` on the string `s` with
`p` at offset `p`. -/
def parse_date (s : List Byte) (p : Nat) : Date :=
  let v := digitAt s p
  let valid := decide (v < 10)
  let year : Int := v
  let v := digitAt s (p + 1)
  let valid := valid && decide (v < 10)
  let year := 10 * year + v
  let v := digitAt s (p + 2)
  let valid := valid && decide (v < 10)
  let year := 10 * year + v
  let v := digitAt s (p + 3)
  let valid := valid && decide (v < 10)
  let year := 10 * year + v
  let v := digitAt s (p + 4)
  let valid := valid && decide (v < 10)
  let mon : Int := v
  let v := digitAt s (p + 5)
  let valid := valid && decide (v < 10)
  let mon := 10 * mon + v
  let valid := valid && (decide (mon ≥ 1) && decide (mon ≤ 12))
  let v := digitAt s (p + 6)
  let valid := valid && decide (v < 10)
  let mday : Int := v
  let v := digitAt s (p + 7)
  let valid := valid && decide (v < 10)
  let mday := 10 * mday + v
  ⟨valid && (decide (mday ≥ 1) && decide (mday ≤ 31)), p + 8, year, mon, mday⟩

/-- What `parse_time` leaves behind: its return value, the advanced pointer and
the three `int` outputs. -/
structure Time where
  valid : Bool
  p : Nat
  hour : Int
  min : Int
  sec : Int
deriving DecidableEq

/-- `UtcConvertorBase::parse_time(p, hour, min, sec)`.  In
`valid = valid && ( *p++ == ':' )` the pointer only advances when `valid` holds
(short-circuit evaluation). -/
def parse_time (s : List Byte) (p : Nat) : Time :=
  let v := digitAt s p
  let valid := decide (v < 10)
  let hour : Int := v
  let v := digitAt s (p + 1)
  let valid := valid && decide (v < 10)
  let hour := 10 * hour + v
  let valid := valid && decide (hour < 24)
  let p := p + 2
  let colon := valid && decide (cAt s p = 58)
  let p := if valid then p + 1 else p
  let valid := colon
  let v := digitAt s p
  let valid := valid && decide (v < 10)
  let min : Int := v
  let v := digitAt s (p + 1)
  let valid := valid && decide (v < 10)
  let min := 10 * min + v
  let valid := valid && decide (min < 60)
  let p := p + 2
  let colon := valid && decide (cAt s p = 58)
  let p := if valid then p + 1 else p
  let valid := colon
  let v := digitAt s p
  let valid := valid && decide (v < 10)
  let sec : Int := v
  let v := digitAt s (p + 1)
  let valid := valid && decide (v < 10)
  let sec := 10 * sec + v
  ⟨valid && decide (sec < 60), p + 2, hour, min, sec⟩

/-- What `parse_msec` leaves behind. -/
structure Msec where
  valid : Bool
  p : Nat
  millis : Int
deriving DecidableEq

/-- `UtcConvertorBase::parse_msec(p, millis)`. -/
def parse_msec (s : List Byte) (p : Nat) : Msec :=
  let valid := decide (cAt s p = 46)
  let v := digitAt s (p + 1)
  let valid := valid && decide (v < 10)
  let millis : Int := v
  let v := digitAt s (p + 2)
  let valid := valid && decide (v < 10)
  let millis := 10 * millis + v
  let v := digitAt s (p + 3)
  let valid := valid && decide (v < 10)
  let millis := 10 * millis + v
  ⟨valid, p + 4, millis⟩

end UtcConvertorBase

/-- How a call that may throw ends: normally with a value, by throwing
`FieldConvertError`, or by reading outside the table `padded_numbers`
(behaviour the language leaves undefined). -/
inductive Outcome (α : Type) where
  | ok (a : α)
  | throwsFieldConvertError
  | outsideTable
deriving DecidableEq

/-- Modelled from the spec: `IntConvertor::padded_numbers[100]`, whose
initialiser is outside the sources; its declaration says
`string representations of "00" to "99"`.  Entry `i` is the two characters of
`i`; there is no entry for `i >= 100`. -/
def padded_numbers (i : Nat) : Option (List Byte) :=
  if i < 100 then some [Fin.ofNat (48 + i / 10), Fin.ofNat (48 + i % 10)] else none

/-- The arguments of the `UtcTimeStamp (hour, min, sec, millis, mday, mon, year)`
constructor call, and equally the values `getYMD` and `getHMS` hand out. -/
structure Components where
  hour : Int
  min : Int
  sec : Int
  millis : Int
  mday : Int
  mon : Int
  year : Int
deriving DecidableEq

namespace UtcTimeStampConvertor

/-- `UtcTimeStampConvertor::generate(result, value, showMilliseconds)`, with
`value` given by the components `getYMD` and `getHMS` return: the bytes appended
to `result`. -/
def generate (value : Components) (showMilliseconds : Bool) : Outcome (List Byte) :=
  if toUnsigned value.year < 10000 then
    match padded_numbers (toUnsigned value.year / 100),
        padded_numbers (toUnsigned value.year % 100),
        padded_numbers (toUnsigned value.mon),
        padded_numbers (toUnsigned value.mday),
        padded_numbers (toUnsigned value.hour),
        padded_numbers (toUnsigned value.min),
        padded_numbers (toUnsigned value.sec) with
    | some yh, some yl, some mo, some dd, some hh, some mi, some ss =>
      let buffer := yh ++ yl ++ mo ++ dd ++ [45] ++ hh ++ [58] ++ mi ++ [58] ++ ss
      if showMilliseconds then
        match padded_numbers (toUnsigned value.millis % 100) with
        | some ms =>
          let buffer := buffer ++ [46] ++
            [Fin.ofNat ((48 + toUnsigned value.millis / 100) % 4294967296)] ++ ms
          Outcome.ok (buffer.take 21)
        | none => Outcome.outsideTable
      else Outcome.ok (buffer.take 17)
    | _, _, _, _, _, _, _ => Outcome.outsideTable
  else Outcome.throwsFieldConvertError

/-- `UtcTimeStampConvertor::parse(str, end, utc)` on the bytes of `s`: the
returned flag, and the value assigned to `utc` (`none` when `utc` is left
untouched). -/
def parse (s : List Byte) : Bool × Option Components :=
  let sz := s.length
  let haveMilliseconds := decide (sz = 21)
  if haveMilliseconds || decide (sz = 17) then
    let d := UtcConvertorBase.parse_date s 0
    let valid := d.valid
    let p := d.p
    let dash := valid && decide (cAt s p = 45)
    let p := if valid then p + 1 else p
    let valid := dash
    let t : UtcConvertorBase.Time :=
      if valid then UtcConvertorBase.parse_time s p else ⟨false, p, 0, 0, 0⟩
    let p := t.p
    let valid := valid && t.valid
    let m : UtcConvertorBase.Msec :=
      if haveMilliseconds && valid then UtcConvertorBase.parse_msec s p else ⟨valid, p, 0⟩
    let valid := if haveMilliseconds then valid && m.valid else valid
    (valid, some ⟨t.hour, t.min, t.sec, m.millis, d.mday, d.mon, d.year⟩)
  else (false, none)

/-- `UtcTimeStampConvertor::validate`. -/
def validate (s : List Byte) : Bool :=
  let sz := s.length
  let haveMilliseconds := decide (sz = 21)
  if haveMilliseconds || decide (sz = 17) then
    let d := UtcConvertorBase.parse_date s 0
    let valid := d.valid
    let p := d.p
    let dash := valid && decide (cAt s p = 45)
    let p := if valid then p + 1 else p
    let valid := dash
    let t : UtcConvertorBase.Time :=
      if valid then UtcConvertorBase.parse_time s p else ⟨false, p, 0, 0, 0⟩
    let p := t.p
    let valid := valid && t.valid
    valid && (!haveMilliseconds || (UtcConvertorBase.parse_msec s p).valid)
  else false

end UtcTimeStampConvertor

namespace UtcTimeOnlyConvertor

/-- `UtcTimeOnlyConvertor::validate`. -/
def validate (s : List Byte) : Bool :=
  let sz := s.length
  let haveMilliseconds := decide (sz = 12)
  if haveMilliseconds || decide (sz = 8) then
    let t := UtcConvertorBase.parse_time s 0
    let valid := t.valid
    let p := t.p
    valid && (!haveMilliseconds || (UtcConvertorBase.parse_msec s p).valid)
  else false

end UtcTimeOnlyConvertor

namespace UtcDateConvertor

/-- `UtcDateConvertor::validate`: `(sz == 8) && parse_date(p, year, mon, mday)`. -/
def validate (s : List Byte) : Bool :=
  let sz := s.length
  decide (sz = 8) && (UtcConvertorBase.parse_date s 0).valid

end UtcDateConvertor

/-- The number the two bytes at offsets `i`, `i + 1` spell when both are digits. -/
def num2 (s : List Byte) (i : Nat) : Nat :=
  10 * ((cAt s i).val - 48) + ((cAt s (i + 1)).val - 48)

/-- All the listed offsets of the string hold decimal digits. -/
def digitsAt (s : List Byte) (offsets : List Nat) : Bool :=
  offsets.all (fun i => isdigit (cAt s i))

/-- The layout `YYYYMMDD` with month 1..12 and day 1..31, in the words of the specification. -/
def isUtcDateText (s : List Byte) : Prop :=
  s.length = 8 ∧ digitsAt s [0, 1, 2, 3, 4, 5, 6, 7] = true ∧
    1 ≤ num2 s 4 ∧ num2 s 4 ≤ 12 ∧ 1 ≤ num2 s 6 ∧ num2 s 6 ≤ 31

/-- The layout `HH:MM:SS` or `HH:MM:SS.sss` with hour 0..23, minute and second
0..59, in the words of the specification. -/
def isUtcTimeOnlyText (s : List Byte) : Prop :=
  (s.length = 8 ∨ s.length = 12) ∧ digitsAt s [0, 1, 3, 4, 6, 7] = true ∧
    cAt s 2 = 58 ∧ cAt s 5 = 58 ∧
    (s.length = 12 → cAt s 8 = 46 ∧ digitsAt s [9, 10, 11] = true) ∧
    num2 s 0 ≤ 23 ∧ num2 s 3 ≤ 59 ∧ num2 s 6 ≤ 59

/-- The layout `YYYYMMDD-HH:MM:SS` or `YYYYMMDD-HH:MM:SS.sss` with month 1..12,
day 1..31, hour 0..23, minute and second 0..59, in the words of the specification. -/
def isUtcTimeStampText (s : List Byte) : Prop :=
  (s.length = 17 ∨ s.length = 21) ∧
    digitsAt s [0, 1, 2, 3, 4, 5, 6, 7, 9, 10, 12, 13, 15, 16] = true ∧
    cAt s 8 = 45 ∧ cAt s 11 = 58 ∧ cAt s 14 = 58 ∧
    (s.length = 21 → cAt s 17 = 46 ∧ digitsAt s [18, 19, 20] = true) ∧
    1 ≤ num2 s 4 ∧ num2 s 4 ≤ 12 ∧ 1 ≤ num2 s 6 ∧ num2 s 6 ≤ 31 ∧
    num2 s 9 ≤ 23 ∧ num2 s 12 ≤ 59 ∧ num2 s 15 ≤ 59

namespace CharBuffer

/-- Modelled from the spec: `Util::CharBuffer::find(char, const Fixed<8>&)`
(declared in Utility.h, which is not among the sources) gives the index of the
first byte of the fixed buffer equal to `v`, and the size of the buffer when no
byte is. -/
def find (v : Byte) (b : List Byte) : Nat := b.indexOf v

/-- Modelled from the spec: `Util::CharBuffer::memmem(hay, n, needle, k)`
(declared in Utility.h, which is not among the sources) is the usual `memmem`:
the offset of the first occurrence of `needle` in `hay`, `none` for a null
result. -/
def memmem : List Byte → List Byte → Option Nat
  | [], needle => if needle = [] then some 0 else none
  | b :: t, needle =>
    if needle.isPrefixOf (b :: t) then some 0 else (memmem t needle).map (fun i => i + 1)

/-- Modelled from the spec: `Util::CharBuffer::find(const Fixed<4>&, msg, size)`
(declared in Utility.h, which is not among the sources) searches the `size`
bytes of `msg` for the four bytes of the fixed buffer, like `memmem`. -/
def findIn (v : List Byte) (msg : List Byte) : Option Nat := memmem msg v

end CharBuffer

/-- The C library function `memchr(p, c, n)` over the `n` bytes `l` starting at
`p`: the offset from `p` of the first byte equal to `c`, `none` for a null
result. -/
def memchr : List Byte → Byte → Option Nat
  | [], _ => none
  | b :: t, c => if b = c then some 0 else (memchr t c).map (fun i => i + 1)

namespace Message

/-- How a call of a function declared to throw ends. -/
inductive Result (α : Type) where
  | value (a : α)
  | throwsInvalidMessage
  | throwsMessageParseError
deriving DecidableEq

/-- The byte `msg[i]` for a raw buffer of `msg.length` bytes: inside the buffer
the byte stored there, past its end whatever the memory after it holds
(`beyond`). -/
def memAt (msg : List Byte) (beyond : Nat → Byte) (i : Nat) : Byte :=
  msg.getD i (beyond (i - msg.length))

/-- The admin type table `{ '0', '1', '3', '2', '4', '5', 'A', '\0' }`. -/
def adminTable : List Byte := [48, 49, 51, 50, 52, 53, 65, 0]

/-- `Message::isAdminMsg(const char* msg, std::size_t size)`, the buffer being
the `size = msg.length` bytes of `msg`. -/
def isAdminMsg (msg : List Byte) (beyond : Nat → Byte) : Result Bool :=
  let size := msg.length
  if size > 5 then
    let b := adminTable
    let v : List Byte := [1, 51, 53, 61]
    match CharBuffer.findIn v msg with
    | some p =>
      Result.value (decide (memAt msg beyond (p + 5) = 1) &&
        decide (CharBuffer.find (memAt msg beyond (p + 4)) b < 7))
    | none => Result.value false
  else Result.throwsInvalidMessage

/-- `Message::isAdminMsgTypeValue(const char* value)` on the NUL-terminated
string whose bytes before the terminator are `value`. -/
def isAdminMsgTypeValue (value : List Byte) : Bool :=
  let b := adminTable
  let sym := cAt value 0
  decide (sym ≠ 0) && decide (cAt value 1 = 0) && decide (CharBuffer.find sym b < 7)

/-- Modelled from the spec: the `ApplVerID_*` and `BeginString_*` constants
(defined in the generated value headers, which are not among the sources),
taken as parameters. -/
structure Values where
  ApplVerID_FIX40 : List Byte
  ApplVerID_FIX41 : List Byte
  ApplVerID_FIX42 : List Byte
  ApplVerID_FIX43 : List Byte
  ApplVerID_FIX44 : List Byte
  ApplVerID_FIX50 : List Byte
  ApplVerID_FIX50SP1 : List Byte
  ApplVerID_FIX50SP2 : List Byte
  BeginString_FIX40 : List Byte
  BeginString_FIX41 : List Byte
  BeginString_FIX42 : List Byte
  BeginString_FIX43 : List Byte
  BeginString_FIX44 : List Byte
  BeginString_FIX50 : List Byte

/-- The constants as the FIX standard assigns them: ApplVerID `2`..`9` for
FIX40..FIX50SP2 and the BeginStrings `FIX.4.0`..`FIX.5.0`. -/
def standardValues : Values :=
  { ApplVerID_FIX40 := ascii "2", ApplVerID_FIX41 := ascii "3", ApplVerID_FIX42 := ascii "4",
    ApplVerID_FIX43 := ascii "5", ApplVerID_FIX44 := ascii "6", ApplVerID_FIX50 := ascii "7",
    ApplVerID_FIX50SP1 := ascii "8", ApplVerID_FIX50SP2 := ascii "9",
    BeginString_FIX40 := ascii "FIX.4.0", BeginString_FIX41 := ascii "FIX.4.1",
    BeginString_FIX42 := ascii "FIX.4.2", BeginString_FIX43 := ascii "FIX.4.3",
    BeginString_FIX44 := ascii "FIX.4.4", BeginString_FIX50 := ascii "FIX.5.0" }

/-- The eight ApplVerID constants `toBeginString` compares with, in the order of
its tests. -/
def applVerIDs (k : Values) : List (List Byte) :=
  [k.ApplVerID_FIX40, k.ApplVerID_FIX41, k.ApplVerID_FIX42, k.ApplVerID_FIX43,
    k.ApplVerID_FIX44, k.ApplVerID_FIX50, k.ApplVerID_FIX50SP1, k.ApplVerID_FIX50SP2]

/-- `Message::toBeginString(const ApplVerID& applVerID)`. -/
def toBeginString (k : Values) (applVerID : List Byte) : List Byte :=
  if applVerID = k.ApplVerID_FIX40 then k.BeginString_FIX40
  else if applVerID = k.ApplVerID_FIX41 then k.BeginString_FIX41
  else if applVerID = k.ApplVerID_FIX42 then k.BeginString_FIX42
  else if applVerID = k.ApplVerID_FIX43 then k.BeginString_FIX43
  else if applVerID = k.ApplVerID_FIX44 then k.BeginString_FIX44
  else if applVerID = k.ApplVerID_FIX50 then k.BeginString_FIX50
  else if applVerID = k.ApplVerID_FIX50SP1 then k.BeginString_FIX50
  else if applVerID = k.ApplVerID_FIX50SP2 then k.BeginString_FIX50
  else []

end Message

/-- `identifyType(const char* message, std::size_t length)`: the bytes of the
returned MsgType, or the exception thrown. -/
def identifyType (message : List Byte) : Message.Result (List Byte) :=
  match CharBuffer.memmem message [1, 51, 53, 61] with
  | some p =>
    let p := p + 4
    match memchr (message.drop p) 1 with
    | some e => Message.Result.value ((message.drop p).take e)
    | none => Message.Result.throwsMessageParseError
  | none => Message.Result.throwsMessageParseError

/-- The component ranges of a well-formed timestamp: year 0..9999, month 1..12,
day 1..31, hour 0..23, minute and second 0..59, millisecond 0..999. -/
def inTimeStampRange (c : Components) : Prop :=
  (0 ≤ c.year ∧ c.year ≤ 9999) ∧ (1 ≤ c.mon ∧ c.mon ≤ 12) ∧ (1 ≤ c.mday ∧ c.mday ≤ 31) ∧
    (0 ≤ c.hour ∧ c.hour ≤ 23) ∧ (0 ≤ c.min ∧ c.min ≤ 59) ∧ (0 ≤ c.sec ∧ c.sec ≤ 59) ∧
    (0 ≤ c.millis ∧ c.millis ≤ 999)

instance (c : Components) : Decidable (inTimeStampRange c) := by
  unfold inTimeStampRange; infer_instance

namespace IntConvertor

/-- The fall-through chain of the switch as a recursion over the bytes that
remain to be read: `chain l neg x` is what label `case l.length` computes from
accumulator `x` when the bytes from `str` on are `l`. -/
def chain : List Byte → Nat → Int → Option Int
  | [], neg, x => some (signed neg x)
  | b :: t, neg, x =>
    let c := toUnsigned (charToInt b - 48)
    if c < 10 then chain t neg (addMul x c (10 ^ t.length)) else none

end IntConvertor

namespace DoubleConvertor

/-- The part of `parse` after the sign has been consumed, with `pv` the offset
of the first byte after the sign (a restatement of the tail of `parse`, used
to reason about both sign branches at once). -/
def body (s : List Byte) (positive : Bool) (pv : Nat) : Option Verified :=
  let p := skipDigits (s.drop pv) pv
  let hasDot : Bool := decide (cAt s p = 46)
  let pdot := p
  let p := if hasDot then skipDigits (s.drop (p + 1)) (p + 1) else p
  if cAt s p = 0 ∧ p - pv > (if hasDot then 1 else 0) then
    some ⟨positive, pv, p, if hasDot then pdot else p⟩
  else none

/-- The shape of a decimal number without its sign: a possibly empty run of
digits, then optionally a `.` followed by a possibly empty run of digits, with
at least one digit overall. -/
def isUnsignedDecimal (r : List Byte) : Prop :=
  ∃ ip dot fp : List Byte, r = ip ++ dot ++ fp ∧ (∀ b ∈ ip, isdigit b = true) ∧
    ((dot = [] ∧ fp = []) ∨ dot = [46]) ∧ (∀ b ∈ fp, isdigit b = true) ∧
    1 ≤ ip.length + fp.length

end DoubleConvertor

/-! ## Integer validation and pointer-range parsing -/

namespace IntConvertor

/-- `IntConvertor::parse(const char* str, const char* end, T& result)` with
`T = int`, on the range that holds the bytes of `s` (`end - str = s.length`,
`*end` being the terminator of the string the range comes from).  Its switch has
the same ten labels as the string overload. -/
def parseRange (s : List Byte) : Option Int :=
  let neg : Nat := if cAt s 0 = 45 then 1 else 0
  let str := neg
  match s.length - str with
  | 10 => case10 s neg str 0
  | 9 => case9 s neg str 0
  | 8 => case8 s neg str 0
  | 7 => case7 s neg str 0
  | 6 => case6 s neg str 0
  | 5 => case5 s neg str 0
  | 4 => case4 s neg str 0
  | 3 => case3 s neg str 0
  | 2 => case2 s neg str 0
  | 1 => case1 s neg str 0
  | _ => none

/-- `IntConvertor::validate`:
`strspn(s + negative, "0123456789") == (String::size(value) - negative)`. -/
def validate (s : List Byte) : Bool :=
  let negative : Nat := if cAt s 0 = 45 then 1 else 0
  decide (strspn (s.drop negative) (ascii "0123456789") = s.length - negative)

end IntConvertor

/-! ## Memory store, dictionary provider and message status -/

/-- Addition of two `int`s (also `+=` and `++`), taken modulo `2^32`. -/
def addInt32 (a b : Int) : Int := toInt32 (toUnsigned (a + b))

/-- The store's message log `std::map < int, std::string >`, as its entries. -/
abbrev Messages := List (Int × List Byte)

/-- The state of a `MemoryStore`: its three members and the creation time of
the `MessageStore` base (`UtcTimeStamp::m_value`, kept as a number). -/
structure MemoryStore where
  m_messages : Messages
  m_nextSenderMsgSeqNum : Int
  m_nextTargetMsgSeqNum : Int
  m_creationTime : Int
deriving DecidableEq

namespace MemoryStore

/-- `MemoryStore::MemoryStore()`; `now` is the time the default-constructed
`m_creationTime` of the base class takes. -/
def new (now : Int) : MemoryStore :=
  { m_messages := [], m_nextSenderMsgSeqNum := 1, m_nextTargetMsgSeqNum := 1,
    m_creationTime := now }

/-- `MemoryStore::getNextSenderMsgSeqNum`. -/
def getNextSenderMsgSeqNum (s : MemoryStore) : Int := s.m_nextSenderMsgSeqNum

/-- `MemoryStore::getNextTargetMsgSeqNum`. -/
def getNextTargetMsgSeqNum (s : MemoryStore) : Int := s.m_nextTargetMsgSeqNum

/-- `MessageStore::getCreationTime`. -/
def getCreationTime (s : MemoryStore) : Int := s.m_creationTime

/-- `MemoryStore::setNextSenderMsgSeqNum`. -/
def setNextSenderMsgSeqNum (s : MemoryStore) (value : Int) : MemoryStore :=
  { s with m_nextSenderMsgSeqNum := value }

/-- `MemoryStore::setNextTargetMsgSeqNum`. -/
def setNextTargetMsgSeqNum (s : MemoryStore) (value : Int) : MemoryStore :=
  { s with m_nextTargetMsgSeqNum := value }

/-- `MemoryStore::incrNextSenderMsgSeqNum`: `++m_nextSenderMsgSeqNum`. -/
def incrNextSenderMsgSeqNum (s : MemoryStore) : MemoryStore :=
  { s with m_nextSenderMsgSeqNum := addInt32 s.m_nextSenderMsgSeqNum 1 }

/-- `MemoryStore::incrNextTargetMsgSeqNum`: `++m_nextTargetMsgSeqNum`. -/
def incrNextTargetMsgSeqNum (s : MemoryStore) : MemoryStore :=
  { s with m_nextTargetMsgSeqNum := addInt32 s.m_nextTargetMsgSeqNum 1 }

/-- `MessageStore::setCreationTime`. -/
def setCreationTime (s : MemoryStore) (creationTime : Int) : MemoryStore :=
  { s with m_creationTime := creationTime }

/-- `MemoryStore::reset`; `now` is the value of the `UtcTimeStamp()` it
constructs. -/
def reset (s : MemoryStore) (now : Int) : MemoryStore :=
  let s := { s with m_nextSenderMsgSeqNum := 1 }
  let s := { s with m_nextTargetMsgSeqNum := 1 }
  let s := { s with m_messages := [] }
  setCreationTime s now

end MemoryStore

/-- The state of a `DataDictionaryProvider` over dictionaries of type `D`: the
two maps from the string of a BeginString or ApplVerID to the dictionary the
shared pointer stored there points to, and the member `emptyDataDictionary`. -/
structure DataDictionaryProvider (D : Type) where
  m_transportDictionaries : List Byte → Option D
  m_applicationDictionaries : List Byte → Option D
  emptyDataDictionary : D

namespace DataDictionaryProvider

/-- How a lookup declared `throw( DataDictionaryNotFound )` ends. -/
inductive Lookup (D : Type) where
  | returns (d : D)
  | throwsDataDictionaryNotFound

/-- `DataDictionaryProvider::getSessionDataDictionary(beginString)`. -/
def getSessionDataDictionary {D : Type} (p : DataDictionaryProvider D)
    (beginString : List Byte) : Lookup D :=
  match p.m_transportDictionaries beginString with
  | some d => Lookup.returns d
  | none => Lookup.returns p.emptyDataDictionary

/-- `DataDictionaryProvider::getApplicationDataDictionary(applVerID)`. -/
def getApplicationDataDictionary {D : Type} (p : DataDictionaryProvider D)
    (applVerID : List Byte) : Lookup D :=
  match p.m_applicationDictionaries applVerID with
  | some d => Lookup.returns d
  | none => Lookup.returns p.emptyDataDictionary

/-- `DataDictionaryProvider::addTransportDataDictionary(beginString, pDD)`:
`m_transportDictionaries[beginString] = pDD`. -/
def addTransportDataDictionary {D : Type} (p : DataDictionaryProvider D)
    (beginString : List Byte) (pDD : D) : DataDictionaryProvider D :=
  { p with m_transportDictionaries :=
      fun k => if k = beginString then some pDD else p.m_transportDictionaries k }

/-- `DataDictionaryProvider::addApplicationDataDictionary(applVerID, pDD)`:
`m_applicationDictionaries[applVerID] = pDD`. -/
def addApplicationDataDictionary {D : Type} (p : DataDictionaryProvider D)
    (applVerID : List Byte) (pDD : D) : DataDictionaryProvider D :=
  { p with m_applicationDictionaries :=
      fun k => if k = applVerID then some pDD else p.m_applicationDictionaries k }

end DataDictionaryProvider

namespace Message

/-- The enumerator `tag_out_of_order` of `status_type`. -/
def tag_out_of_order : Nat := 0

/-- The enumerator `invalid_tag_format` of `status_type`. -/
def invalid_tag_format : Nat := 1

/-- The enumerator `incorrect_data_format` of `status_type`. -/
def incorrect_data_format : Nat := 2

/-- `Message::getStatusBit(bit)`: `(m_status & (1 << bit)) != 0`, on the bit
pattern of `m_status`. -/
def getStatusBit (m_status : Nat) (bit : Nat) : Bool := (m_status &&& (1 <<< bit)) != 0

/-- `Message::hasValidStructure(int& field)` for a message whose members
`m_status` (as its bit pattern) and `m_status_data` are given: the value
returned and the content of `field` afterwards.  The assignment
`field = m_status_data` narrows an `intptr_t` to `int`. -/
def hasValidStructure (m_status : Nat) (m_status_data : Int) (field : Int) : Bool × Int :=
  if getStatusBit m_status tag_out_of_order then
    (false, toInt32 (toUnsigned m_status_data))
  else (true, field)

end Message

/-! ## Fields, field maps and message totals -/

/-- Reduction of an integer to the `int` with the same 32-bit pattern. -/
def wrap32 (z : Int) : Int := toInt32 (toUnsigned z)

namespace FIELD

/-- Modelled from the spec: the tag numbers `FIELD::BeginString` (8),
`FIELD::BodyLength` (9), `FIELD::CheckSum` (10), `FIELD::MsgType` (35),
`FIELD::SenderCompID` (49) and `FIELD::TargetCompID` (56), whose header is not
among the sources; the wire format names them `8=`, `9=`, `10=`, `35=`, `49=`,
`56=`. -/
def BeginString : Int := 8

/-- See `FIELD.BeginString`. -/
def BodyLength : Int := 9

/-- See `FIELD.BeginString`. -/
def CheckSum : Int := 10

/-- See `FIELD.BeginString`. -/
def MsgType : Int := 35

/-- See `FIELD.BeginString`. -/
def SenderCompID : Int := 49

/-- See `FIELD.BeginString`. -/
def TargetCompID : Int := 56

end FIELD

/-- Modelled from the spec: `FieldBase` (Field.h, not among the sources).  A
field is a tag and the raw bytes of its value; it is serialized as the decimal
tag, `=`, the value and SOH, and carries the length and the byte sum of that
text. -/
structure FieldBase where
  tag : Int
  value : List Byte
deriving DecidableEq

namespace FieldBase

/-- Modelled from the spec: the serialized field `tag=value<SOH>` (Field.h, not
among the sources). -/
def serialized (f : FieldBase) : List Byte := IntConvertor.convert f.tag ++ [61] ++ f.value ++ [1]

/-- Modelled from the spec: `FieldBase::getLength()`, the length of the
serialized field. -/
def getLength (f : FieldBase) : Int := (f.serialized.length : Int)

/-- Modelled from the spec: `FieldBase::getTotal()`, the sum of the bytes of the
serialized field. -/
def getTotal (f : FieldBase) : Int := (((f.serialized.map (fun b => b.val)).sum : Nat) : Int)

end FieldBase

/-- Modelled from the spec: the three orderings a `FieldMap` of a message can
have (`message_order`, MessageSorters.h, not among the sources). -/
inductive message_order where
  | header
  | trailer
  | normal
deriving DecidableEq

/-- The array `headerOrder` of Message.h. -/
def headerOrder : List Int := [FIELD.BeginString, FIELD.BodyLength, FIELD.MsgType]

namespace message_order

/-- Modelled from the spec: the comparison of `message_order` (MessageSorters.h,
not among the sources).  In a header the tags of `headerOrder` come first, in
that order; in a trailer `CheckSum` comes last; otherwise tags ascend. -/
def before (o : message_order) (a b : Int) : Bool :=
  match o with
  | header =>
    decide (headerOrder.indexOf a < headerOrder.indexOf b) ||
      (decide (headerOrder.indexOf a = headerOrder.indexOf b) && decide (a < b))
  | trailer =>
    if a = FIELD.CheckSum then false else if b = FIELD.CheckSum then true else decide (a < b)
  | normal => decide (a < b)

end message_order

/-- Modelled from the spec: `FieldMap` (FieldMap.h, not among the sources).  The
fields in the order `begin()` .. `end()` iterates them, the fields of all the
repeating groups `g_begin()` .. `g_end()` hold, nested ones included, and the
ordering of the map. -/
structure FieldMap where
  fields : List FieldBase
  groupFields : List FieldBase
  order : message_order
deriving DecidableEq

namespace FieldMap

/-- Modelled from the spec: `FieldMap::calculateTotal(checkSumField)`, the sum
of `getTotal()` over the fields other than `checkSumField` and over the groups,
accumulated in an `int`. -/
def calculateTotal (m : FieldMap) (checkSumField : Int) : Int :=
  let result := (m.fields.filter (fun f => f.tag ≠ checkSumField)).foldl
    (fun r f => addInt32 r f.getTotal) 0
  m.groupFields.foldl (fun r f => addInt32 r f.getTotal) result

/-- Modelled from the spec: the lookup behind `FieldMap::getField` and
`isSetField`: the field stored under the tag, if any. -/
def find (m : FieldMap) (tag : Int) : Option FieldBase :=
  m.fields.find? (fun f => decide (f.tag = tag))

/-- Modelled from the spec: insertion of a field at the place the ordering of
the map gives it. -/
def insertOrdered (o : message_order) (f : FieldBase) : List FieldBase → List FieldBase
  | [] => [f]
  | g :: t => if o.before f.tag g.tag then f :: g :: t else g :: insertOrdered o f t

/-- Modelled from the spec: `Sequence::set_in_ordered(map, field)` (not among
the sources) stores the field in the map: a field already stored under the tag
is replaced (a second set-operation replaces the prior value), otherwise the
field is inserted where the ordering of the map puts it.  The iterator it
returns points to the stored field, which is `field` itself. -/
def set_in_ordered (m : FieldMap) (f : FieldBase) : FieldMap :=
  if m.fields.any (fun g => decide (g.tag = f.tag)) then
    { m with fields := m.fields.map (fun g => if g.tag = f.tag then f else g) }
  else { m with fields := insertOrdered m.order f m.fields }

end FieldMap

/-- The members of a `Message`: header, body (the `FieldMap` base) and trailer,
the status word as its bit pattern, and the status data. -/
structure Message where
  m_header : FieldMap
  body : FieldMap
  m_trailer : FieldMap
  m_status : Nat
  m_status_data : Int
deriving DecidableEq

namespace Message

/-- The expression `x & 255` on an `int`. -/
def and255 (x : Int) : Int := ((toUnsigned x &&& 255 : Nat) : Int)

/-- `Message::checkSum(checkSumField)`. -/
def checkSum (msg : Message) (checkSumField : Int) : Int :=
  and255 (addInt32 (addInt32 (msg.m_header.calculateTotal checkSumField)
    (msg.body.calculateTotal checkSumField)) (msg.m_trailer.calculateTotal checkSumField))

/-- The members `m_length` and `m_prefix` of a `FieldCounter`; its tags
`bodyLengthTag` and `checkSumTag` are `FIELD::BodyLength` and `FIELD::CheckSum`
in the constructor modelled here. -/
structure FieldCounter where
  m_length : Int
  m_prefix : Int
deriving DecidableEq

namespace FieldCounter

/-- Modelled from the spec: `FieldCounter::countGroups(g_begin(), g_end())`
(declared in Message.h, defined outside the sources): the serialized length of
all repeating groups of the map. -/
def countGroups (fields : FieldMap) : Int :=
  fields.groupFields.foldl (fun r f => addInt32 r f.getLength) 0

/-- `FieldCounter::countHeader(const FieldMap& fields)`. -/
def countHeader (c : FieldCounter) (fields : FieldMap) : FieldCounter :=
  let c : FieldCounter :=
    match fields.fields with
    | [] => c
    | first :: rest =>
      let r : FieldCounter × List FieldBase :=
        if first.tag = FIELD.BeginString then
          let c := { c with m_prefix := first.getLength }
          match rest with
          | [] => (c, [])
          | second :: rest2 =>
            if second.tag = FIELD.BodyLength then (c, rest2) else (c, second :: rest2)
        else
          if first.tag = FIELD.BodyLength then (c, rest) else (c, first :: rest)
      let c := r.fst
      { c with m_length := r.snd.foldl (fun l f => addInt32 l f.getLength) c.m_length }
  { c with m_length := addInt32 c.m_length (countGroups fields) }

/-- `FieldCounter::countBody(const FieldMap& fields)`. -/
def countBody (fields : FieldMap) : Int :=
  let result := fields.fields.foldl (fun r f => addInt32 r f.getLength) 0
  addInt32 result (countGroups fields)

/-- `FieldCounter::countTrailer(const FieldMap& fields)`. -/
def countTrailer (c : FieldCounter) (fields : FieldMap) : FieldCounter :=
  let n := fields.fields.foldl
    (fun l f => if f.tag ≠ FIELD.CheckSum then addInt32 l f.getLength else l) c.m_length
  let c : FieldCounter := { c with m_length := n }
  { c with m_length := addInt32 c.m_length (countGroups fields) }

/-- `FieldCounter::FieldCounter(const Message& msg)`. -/
def ofMessage (msg : Message) : FieldCounter :=
  let c : FieldCounter := { m_length := 0, m_prefix := 0 }
  let c := countHeader c msg.m_header
  let c := { c with m_length := addInt32 c.m_length (countBody msg.body) }
  countTrailer c msg.m_trailer

/-- `FieldCounter::getBodyLength`. -/
def getBodyLength (c : FieldCounter) : Int := c.m_length

/-- `FieldCounter::getBeginStringLength`. -/
def getBeginStringLength (c : FieldCounter) : Int := c.m_prefix

end FieldCounter

/-- The list without its first field when that field has the given tag. -/
def dropLeading (tag : Int) : List FieldBase → List FieldBase
  | [] => []
  | f :: t => if f.tag = tag then t else f :: t

/-- A header iterates in canonical order: `BeginString` first and `BodyLength`
next, each when present, and nowhere else. -/
def canonicalHeader (h : FieldMap) : Bool :=
  (dropLeading FIELD.BodyLength (dropLeading FIELD.BeginString h.fields)).all
    (fun f => decide (f.tag ≠ FIELD.BeginString) && decide (f.tag ≠ FIELD.BodyLength))

/-- The sum of the serialized lengths of a list of fields. -/
def lengthSum (l : List FieldBase) : Int := (l.map FieldBase.getLength).sum

/-- The sum of the byte sums of a list of fields. -/
def totalSum (l : List FieldBase) : Int := (l.map FieldBase.getTotal).sum

end Message

/-! ## Session identifiers -/

/-- Modelled from the spec: `SessionID` (SessionID.h, not among the sources) is
the tuple `(BeginString, SenderCompID, TargetCompID, Qualifier)`, here with the
strings of the three fields. -/
structure SessionID where
  beginString : List Byte
  senderCompID : List Byte
  targetCompID : List Byte
  qualifier : List Byte
deriving DecidableEq

namespace SessionID

/-- Modelled from the spec: `SessionID::getBeginString()`, the BeginString field. -/
def getBeginString (s : SessionID) : FieldBase := ⟨FIELD.BeginString, s.beginString⟩

/-- Modelled from the spec: `SessionID::getSenderCompID()`, the SenderCompID field. -/
def getSenderCompID (s : SessionID) : FieldBase := ⟨FIELD.SenderCompID, s.senderCompID⟩

/-- Modelled from the spec: `SessionID::getTargetCompID()`, the TargetCompID field. -/
def getTargetCompID (s : SessionID) : FieldBase := ⟨FIELD.TargetCompID, s.targetCompID⟩

end SessionID

namespace Message

/-- How a call declared `throw( FieldNotFound )` ends. -/
inductive Found (α : Type) where
  | returns (a : α)
  | throwsFieldNotFound
deriving DecidableEq

/-- Modelled from the spec: `FieldMap::getField(field)` (FieldMap.h, not among
the sources) fills the field from the one stored under its tag and throws
`FieldNotFound` when the map has none. -/
def getField (m : FieldMap) (tag : Int) : Found (List Byte) :=
  match m.find tag with
  | some f => Found.returns f.value
  | none => Found.throwsFieldNotFound

/-- `Message::getSessionID(qualifier)`. -/
def getSessionID (msg : Message) (qualifier : List Byte) : Found SessionID :=
  match getField msg.m_header FIELD.BeginString with
  | Found.throwsFieldNotFound => Found.throwsFieldNotFound
  | Found.returns beginString =>
    match getField msg.m_header FIELD.SenderCompID with
    | Found.throwsFieldNotFound => Found.throwsFieldNotFound
    | Found.returns senderCompID =>
      match getField msg.m_header FIELD.TargetCompID with
      | Found.throwsFieldNotFound => Found.throwsFieldNotFound
      | Found.returns targetCompID =>
        Found.returns ⟨beginString, senderCompID, targetCompID, qualifier⟩

/-- `Message::setSessionID(sessionID)`. -/
def setSessionID (msg : Message) (sessionID : SessionID) : Message :=
  let msg := { msg with m_header := msg.m_header.set_in_ordered sessionID.getBeginString }
  let msg := { msg with m_header := msg.m_header.set_in_ordered sessionID.getSenderCompID }
  { msg with m_header := msg.m_header.set_in_ordered sessionID.getTargetCompID }

end Message

/-! ## Serialization to a buffer -/

namespace Message

end Message

namespace Message

/-- A heartbeat message as an example state: header `8=FIX.4.2`, `9=0`, `35=0`,
`49=A`, `56=B`, body `112=x`, trailer `10=000`, no repeating groups. -/
def heartbeat : Message :=
  { m_header := ⟨[⟨8, ascii "FIX.4.2"⟩, ⟨9, ascii "0"⟩, ⟨35, ascii "0"⟩, ⟨49, ascii "A"⟩,
      ⟨56, ascii "B"⟩], [], message_order.header⟩,
    body := ⟨[⟨112, ascii "x"⟩], [], message_order.normal⟩,
    m_trailer := ⟨[⟨10, ascii "000"⟩], [], message_order.trailer⟩,
    m_status := 0,
    m_status_data := 0 }

end Message

/-! ## Decimal validation, pointer-range parsing and scaling -/

namespace DoubleConvertor

/-- `DoubleConvertor::validate`:
`strspn(s + negative, "0123456789.") == (String::size(value) - negative)`. -/
def validate (s : List Byte) : Bool :=
  let negative : Nat := if cAt s 0 = 45 then 1 else 0
  decide (strspn (s.drop negative) (ascii "0123456789.") = s.length - negative)

/-- The loop `while( p < end && Util::Char::isdigit(*p++) );` of the
pointer-range overload.  The first argument holds the bytes from offset `p` up
to `end`; the result is the offset at which the loop leaves `p`.  The increment
belongs to the tested expression, so `p` also steps over the byte that fails
the digit test. -/
def scanDigits : List Byte → Nat → Nat
  | [], p => p
  | b :: t, p => if isdigit b then scanDigits t (p + 1) else p + 1

/-- `DoubleConvertor::parse(const char* str, const char* end, double& result)`
on the range that holds the bytes of `s` (`str` at offset 0, `end` at offset
`s.length`, where the terminator of the string the range comes from is read):
`some` when it returns true, with the arguments of the `parse_verified` call,
`none` when it returns false. -/
def parseRange (s : List Byte) : Option Verified :=
  let e := s.length
  let p := 0
  if cAt s p ≠ 0 then
    let positive : Bool := decide (cAt s p ≠ 45)
    let p := if positive then p else p + 1
    if positive || decide (cAt s p ≠ 0) then
      let pdot := e
      let pv := p
      let p := scanDigits (s.drop p) p
      let dot : Bool := decide (p < e) && decide (cAt s p = 46)
      let pdot := if dot then p else pdot
      let p := if dot then scanDigits (s.drop (p + 1)) (p + 1) else p
      if p = e ∧ p - pv > (if pdot ≠ e then 1 else 0) then
        some ⟨positive, pv, e, pdot⟩
      else none
    else none
  else none

/-- A factor `parse_verified` multiplies into `scale`: an entry of the table
`m_mul1`, an entry of the table `m_mul8`, or the literal `1E64`. -/
inductive Factor where
  | mul1 (index : Nat)
  | mul8 (index : Nat)
  | e64
deriving DecidableEq

namespace Factor

/-- Modelled from the spec: the power of ten a factor stands for, with the
contents of the tables (initialised outside the sources) taken as
`m_mul1[i] = 10^(i+1)` and `m_mul8[i] = 10^(8(i+1))`. -/
def exponent : Factor → Nat
  | mul1 i => i + 1
  | mul8 i => 8 * (i + 1)
  | e64 => 64

/-- The index of a table factor lies inside the 8 entries of its table. -/
def inTable : Factor → Bool
  | mul1 i => decide (i < 8)
  | mul8 i => decide (i < 8)
  | e64 => true

end Factor

/-- Subtraction of two `unsigned` values, modulo `2^32`. -/
def subU32 (a b : Nat) : Nat := (a % 4294967296 + 4294967296 - b % 4294967296) % 4294967296

/-- The loop `do { scale *= 1E64; } while( (exp -= 64) > 64 );` run for at most
`fuel` rounds: the number of rounds and the value of `exp` it leaves, `none`
when the rounds given do not suffice. -/
def loop64 : Nat → Nat → Option (Nat × Nat)
  | 0, _ => none
  | fuel + 1, exp =>
    let exp := subU32 exp 64
    if exp > 64 then (loop64 fuel exp).map (fun r => (r.fst + 1, r.snd)) else some (1, exp)

/-- The factors `parse_verified` multiplies into `scale` for the value `exp`
holds after the clamp to 308, in the order of the multiplications. -/
def scaleFactors (exp : Nat) : Option (List Factor) :=
  if exp ≤ 8 then some [Factor.mul1 (subU32 exp 1)]
  else if exp ≤ 64 then
    let first := Factor.mul8 (subU32 (exp >>> 3) 1)
    let exp := exp &&& 7
    if exp ≠ 0 then some [first, Factor.mul1 (subU32 exp 1)] else some [first]
  else
    match loop64 exp exp with
    | none => none
    | some r =>
      let factors := List.replicate r.fst Factor.e64
      let exp := r.snd
      let big : Bool := decide (exp > 8)
      let factors := if big then factors ++ [Factor.mul8 (subU32 (exp >>> 3) 1)] else factors
      let exp := if big then exp &&& 7 else exp
      some (if exp ≠ 0 then factors ++ [Factor.mul1 (subU32 exp 1)] else factors)

/-- What a run of `parse_verified` reads and multiplies: the bytes consumed
before the decimal point, the bytes consumed after it, and the factors of
`scale` (none when the function returns `value` unscaled). -/
structure Scaling where
  intDigits : Nat
  fracDigits : Nat
  factors : List Factor
deriving DecidableEq

/-- `DoubleConvertor::parse_verified(b, e, pdot)` with the three pointers as
offsets: the digits it consumes and the factors of its divisor; the
floating-point value itself is not computed.  `none` only when `loop64` is given
too few rounds. -/
def parse_verified (b e pdot : Nat) : Option Scaling :=
  let intDigits := pdot - b
  let b := if b < pdot then pdot else b
  let b := b + 1
  if b < e then
    let exp := (e - b) % 4294967296
    let clamp : Bool := decide (exp > 308)
    let exp := if clamp then 308 else exp
    let e := if clamp then b + 308 else e
    (scaleFactors exp).map (fun factors => ⟨intDigits, e - b, factors⟩)
  else some ⟨intDigits, 0, []⟩

end DoubleConvertor

/-! ## Parsing of UTC times and dates -/

namespace UtcTimeOnlyConvertor

/-- `UtcTimeOnlyConvertor::parse(str, end, utc)` on the bytes of `s`: the
returned flag, and the arguments `(hour, min, sec, millis)` of the value
assigned to `utc` (`none` when `utc` is left untouched). -/
def parse (s : List Byte) : Bool × Option (Int × Int × Int × Int) :=
  let sz := s.length
  let haveMilliseconds := decide (sz = 12)
  if haveMilliseconds || decide (sz = 8) then
    let t := UtcConvertorBase.parse_time s 0
    let valid := t.valid
    let p := t.p
    let m : UtcConvertorBase.Msec :=
      if haveMilliseconds && valid then UtcConvertorBase.parse_msec s p else ⟨valid, p, 0⟩
    let valid := if haveMilliseconds then valid && m.valid else valid
    (valid, some (t.hour, t.min, t.sec, m.millis))
  else (false, none)

end UtcTimeOnlyConvertor

namespace UtcDateConvertor

/-- `UtcDateConvertor::parse(str, end, utc)` on the bytes of `s`: the returned
flag, and the arguments `(mday, mon, year)` of the value assigned to `utc`
(`none` when `utc` is left untouched). -/
def parse (s : List Byte) : Bool × Option (Int × Int × Int) :=
  let sz := s.length
  if sz = 8 then
    let d := UtcConvertorBase.parse_date s 0
    (d.valid, some (d.mday, d.mon, d.year))
  else (false, none)

end UtcDateConvertor

/-! ## Message classification, versions, counters and status -/

namespace Message

/-- `Message::isAdmin()`: `isAdminMsgType` of the MsgType field of the header,
false when the header has none. -/
def isAdmin (msg : Message) : Bool :=
  match msg.m_header.find FIELD.MsgType with
  | some msgType => isAdminMsgTypeValue msgType.value
  | none => false

/-- `Message::isApp()`: the negation of `isAdminMsgType` of the MsgType field of
the header, false when the header has none. -/
def isApp (msg : Message) : Bool :=
  match msg.m_header.find FIELD.MsgType with
  | some msgType => !isAdminMsgTypeValue msgType.value
  | none => false

/-- `Message::toApplVerID(const BeginString& value)`. -/
def toApplVerID (k : Values) (value : List Byte) : List Byte :=
  if value = k.BeginString_FIX40 then k.ApplVerID_FIX40
  else if value = k.BeginString_FIX41 then k.ApplVerID_FIX41
  else if value = k.BeginString_FIX42 then k.ApplVerID_FIX42
  else if value = k.BeginString_FIX43 then k.ApplVerID_FIX43
  else if value = k.BeginString_FIX44 then k.ApplVerID_FIX44
  else if value = k.BeginString_FIX50 then k.ApplVerID_FIX50
  else if value = ascii "FIX.5.0SP1" then k.ApplVerID_FIX50SP1
  else if value = ascii "FIX.5.0SP2" then k.ApplVerID_FIX50SP2
  else value

namespace FieldCounter

/-- `FieldCounter::countHeader(int beginStringTag, int bodyLengthDag,
const FieldMap& fields)`. -/
def countHeaderTagged (beginStringField bodyLengthField : Int) (c : FieldCounter)
    (fields : FieldMap) : FieldCounter :=
  let c : FieldCounter := fields.fields.foldl
    (fun c f =>
      if f.tag ≠ bodyLengthField then
        if f.tag ≠ beginStringField then { c with m_length := addInt32 c.m_length f.getLength }
        else { c with m_prefix := addInt32 c.m_prefix f.getLength }
      else c) c
  { c with m_length := addInt32 c.m_length (countGroups fields) }

/-- `FieldCounter::countTrailer(const FieldMap& fields)` for a counter whose
member `checkSumTag` is the given tag. -/
def countTrailerTagged (checkSumTag : Int) (c : FieldCounter) (fields : FieldMap) :
    FieldCounter :=
  let n := fields.fields.foldl
    (fun l f => if f.tag ≠ checkSumTag then addInt32 l f.getLength else l) c.m_length
  let c : FieldCounter := { c with m_length := n }
  { c with m_length := addInt32 c.m_length (countGroups fields) }

/-- `FieldCounter::FieldCounter(const Message& msg, int beginStringField,
int bodyLengthField, int checkSumField)`. -/
def ofMessageTagged (msg : Message) (beginStringField bodyLengthField checkSumField : Int) :
    FieldCounter :=
  let c : FieldCounter := { m_length := 0, m_prefix := 0 }
  let c := countHeaderTagged beginStringField bodyLengthField c msg.m_header
  let c := { c with m_length := addInt32 c.m_length (countBody msg.body) }
  countTrailerTagged checkSumField c msg.m_trailer

end FieldCounter

/-- `Message::bodyLength(beginStringField, bodyLengthField, checkSumField)`. -/
def bodyLength (msg : Message) (beginStringField bodyLengthField checkSumField : Int) : Int :=
  (FieldCounter.ofMessageTagged msg beginStringField bodyLengthField
    checkSumField).getBodyLength

/-- `Message::status_error_mask`. -/
def status_error_mask : Nat :=
  (1 <<< tag_out_of_order) ||| (1 <<< invalid_tag_format) ||| (1 <<< incorrect_data_format)

/-- `Message::setErrorStatusBit(bit, data)`. -/
def setErrorStatusBit (msg : Message) (bit : Nat) (data : Int) : Message :=
  if msg.m_status &&& status_error_mask = 0 then
    { msg with m_status_data := data, m_status := msg.m_status ||| (1 <<< bit) }
  else msg

/-- Modelled from the spec: `FieldMap::clear()` (FieldMap.h, not among the
sources) removes every field and every group of the map. -/
def clearMap (m : FieldMap) : FieldMap := { m with fields := [], groupFields := [] }

/-- `Message::clear()`. -/
def clear (msg : Message) : Message :=
  { m_status_data := 0, m_status := 0, m_header := clearMap msg.m_header,
    body := clearMap msg.body, m_trailer := clearMap msg.m_trailer }

/-- A sequence of `setErrorStatusBit(bit, data)` calls, applied in order. -/
def setErrorStatusBits (msg : Message) (calls : List (Nat × Int)) : Message :=
  calls.foldl (fun m c => setErrorStatusBit m c.fst c.snd) msg

/-- The enumerators of `Message::admin_trait`. -/
def admin_none : Nat := 0

/-- See `Message.admin_none`. -/
def admin_session : Nat := 1

/-- See `Message.admin_none`. -/
def admin_status : Nat := 2

/-- See `Message.admin_none`. -/
def admin_logon : Nat := 4

/-- `Message::getAdminTrait(char msgType)`:
`(admin_trait)( (pos < 7) << (pos & 7) / 3 )`, the division binding tighter
than the shift. -/
def getAdminTrait (msgType : Byte) : Nat :=
  let b := adminTable
  let pos := CharBuffer.find msgType b
  (if pos < 7 then 1 else 0) <<< ((pos &&& 7) / 3)

end Message

namespace Message

end Message

/-! ## Shared lemmas -/

theorem digit_unsigned (b : Byte) :
    (toUnsigned (charToInt b - 48) < 10 ↔ isdigit b = true) ∧
    (isdigit b = true → toUnsigned (charToInt b - 48) = b.val - 48) := by
  have hb := b.isLt
  simp only [toUnsigned, charToInt, isdigit, Bool.and_eq_true, decide_eq_true_eq]
  constructor
  · split <;> omega
  · intro h
    split <;> omega

theorem toInt32_mod (n : Nat) : toInt32 (n % 4294967296) = toInt32 n := by
  simp [toInt32]

theorem toUnsigned_toInt32 (n : Nat) : toUnsigned (toInt32 n) = n % 4294967296 := by
  unfold toUnsigned toInt32
  split <;> omega

theorem toInt32_isInt32 (n : Nat) : isInt32 (toInt32 n) := by
  unfold isInt32 toInt32
  split <;> omega

theorem toInt32_toUnsigned (z : Int) (h : isInt32 z) : toInt32 (toUnsigned z) = z := by
  unfold isInt32 at h
  unfold toInt32 toUnsigned
  split <;> omega

theorem toInt32_of_lt (n : Nat) (h : n < 2147483648) : toInt32 n = (n : Int) := by
  unfold toInt32
  split <;> omega

theorem decimalValue_foldl (l : List Byte) (a : Nat) :
    l.foldl (fun a c => a * 10 + (c.val - 48)) a = a * 10 ^ l.length + decimalValue l := by
  induction l generalizing a with
  | nil => simp [decimalValue]
  | cons b t ih =>
    simp only [List.foldl_cons, List.length_cons, decimalValue]
    rw [ih, ih (0 * 10 + (b.val - 48))]
    ring

theorem decimalValue_cons (b : Byte) (t : List Byte) :
    decimalValue (b :: t) = (b.val - 48) * 10 ^ t.length + decimalValue t := by
  have h := decimalValue_foldl t (0 * 10 + (b.val - 48))
  simp only [decimalValue, List.foldl_cons] at *
  rw [h]; ring

theorem decimalValue_append_single (l : List Byte) (b : Byte) :
    decimalValue (l ++ [b]) = decimalValue l * 10 + (b.val - 48) := by
  simp [decimalValue, List.foldl_append]

theorem decimalValue_lt (l : List Byte) (h : ∀ b ∈ l, isdigit b = true) :
    decimalValue l < 10 ^ l.length := by
  induction l with
  | nil => simp [decimalValue]
  | cons b t ih =>
    rw [decimalValue_cons]
    have h1 := ih (fun c hc => h c (List.mem_cons_of_mem _ hc))
    have h2 := h b (List.mem_cons_self _ _)
    simp only [isdigit, Bool.and_eq_true, decide_eq_true_eq] at h2
    have h3 : (b.val - 48) * 10 ^ t.length ≤ 9 * 10 ^ t.length :=
      Nat.mul_le_mul_right _ (by omega)
    simp only [List.length_cons, pow_succ]
    omega

theorem drop_cons_of_length (s : List Byte) (p k : Nat) (h : s.length - p = k + 1) :
    ∃ b t, s.drop p = b :: t ∧ cAt s p = b ∧ s.drop (p + 1) = t ∧ t.length = k := by
  have hp : p < s.length := by omega
  refine ⟨s.get ⟨p, hp⟩, s.drop (p + 1), ?_, ?_, rfl, ?_⟩
  · exact List.drop_eq_getElem_cons hp
  · simp [cAt, List.getD, List.getElem?_eq_getElem hp]
  · simp; omega

namespace IntConvertor

theorem case1_eq (s : List Byte) (neg p : Nat) (x : Int) (h : s.length - p = 1) :
    case1 s neg p x = chain (s.drop p) neg x := by
  obtain ⟨b, t, h1, h2, _, h4⟩ := drop_cons_of_length s p 0 h
  have ht : t = [] := List.length_eq_zero.mp h4
  subst ht
  rw [h1]
  simp only [case1, chain, digitOf, h2, List.length_nil, pow_zero]

theorem case2_eq (s : List Byte) (neg p : Nat) (x : Int) (h : s.length - p = 2) :
    case2 s neg p x = chain (s.drop p) neg x := by
  obtain ⟨b, t, h1, h2, h3, h4⟩ := drop_cons_of_length s p 1 h
  rw [h1]
  simp only [case2, chain, digitOf, h2, h4, case1_eq s neg (p + 1) _ (by omega), h3]
  rfl

theorem case3_eq (s : List Byte) (neg p : Nat) (x : Int) (h : s.length - p = 3) :
    case3 s neg p x = chain (s.drop p) neg x := by
  obtain ⟨b, t, h1, h2, h3, h4⟩ := drop_cons_of_length s p 2 h
  rw [h1]
  simp only [case3, chain, digitOf, h2, h4, case2_eq s neg (p + 1) _ (by omega), h3]
  rfl

theorem case4_eq (s : List Byte) (neg p : Nat) (x : Int) (h : s.length - p = 4) :
    case4 s neg p x = chain (s.drop p) neg x := by
  obtain ⟨b, t, h1, h2, h3, h4⟩ := drop_cons_of_length s p 3 h
  rw [h1]
  simp only [case4, chain, digitOf, h2, h4, case3_eq s neg (p + 1) _ (by omega), h3]
  rfl

theorem case5_eq (s : List Byte) (neg p : Nat) (x : Int) (h : s.length - p = 5) :
    case5 s neg p x = chain (s.drop p) neg x := by
  obtain ⟨b, t, h1, h2, h3, h4⟩ := drop_cons_of_length s p 4 h
  rw [h1]
  simp only [case5, chain, digitOf, h2, h4, case4_eq s neg (p + 1) _ (by omega), h3]
  rfl

theorem case6_eq (s : List Byte) (neg p : Nat) (x : Int) (h : s.length - p = 6) :
    case6 s neg p x = chain (s.drop p) neg x := by
  obtain ⟨b, t, h1, h2, h3, h4⟩ := drop_cons_of_length s p 5 h
  rw [h1]
  simp only [case6, chain, digitOf, h2, h4, case5_eq s neg (p + 1) _ (by omega), h3]
  rfl

theorem case7_eq (s : List Byte) (neg p : Nat) (x : Int) (h : s.length - p = 7) :
    case7 s neg p x = chain (s.drop p) neg x := by
  obtain ⟨b, t, h1, h2, h3, h4⟩ := drop_cons_of_length s p 6 h
  rw [h1]
  simp only [case7, chain, digitOf, h2, h4, case6_eq s neg (p + 1) _ (by omega), h3]
  rfl

theorem case8_eq (s : List Byte) (neg p : Nat) (x : Int) (h : s.length - p = 8) :
    case8 s neg p x = chain (s.drop p) neg x := by
  obtain ⟨b, t, h1, h2, h3, h4⟩ := drop_cons_of_length s p 7 h
  rw [h1]
  simp only [case8, chain, digitOf, h2, h4, case7_eq s neg (p + 1) _ (by omega), h3]
  rfl

theorem case9_eq (s : List Byte) (neg p : Nat) (x : Int) (h : s.length - p = 9) :
    case9 s neg p x = chain (s.drop p) neg x := by
  obtain ⟨b, t, h1, h2, h3, h4⟩ := drop_cons_of_length s p 8 h
  rw [h1]
  simp only [case9, chain, digitOf, h2, h4, case8_eq s neg (p + 1) _ (by omega), h3]
  rfl

theorem case10_eq (s : List Byte) (neg p : Nat) (h : s.length - p = 10) :
    case10 s neg p 0 = chain (s.drop p) neg 0 := by
  obtain ⟨b, t, h1, h2, h3, h4⟩ := drop_cons_of_length s p 9 h
  rw [h1]
  simp only [case10, chain, digitOf, h2, h4, case9_eq s neg (p + 1) _ (by omega), h3]
  simp [addMul, toUnsigned]

/-- The switch of `parse`, folded into one recursion. -/
theorem parse_eq_chain (s : List Byte) :
    parse s =
      if 1 ≤ s.length - (if cAt s 0 = 45 then 1 else 0) ∧
          s.length - (if cAt s 0 = 45 then 1 else 0) ≤ 10 then
        chain (s.drop (if cAt s 0 = 45 then 1 else 0)) (if cAt s 0 = 45 then 1 else 0) 0
      else none := by
  unfold parse
  generalize (if cAt s 0 = 45 then 1 else 0 : Nat) = neg
  simp only []
  split
  · next h => rw [if_pos (by omega), case10_eq s neg neg h]
  · next h => rw [if_pos (by omega), case9_eq s neg neg 0 h]
  · next h => rw [if_pos (by omega), case8_eq s neg neg 0 h]
  · next h => rw [if_pos (by omega), case7_eq s neg neg 0 h]
  · next h => rw [if_pos (by omega), case6_eq s neg neg 0 h]
  · next h => rw [if_pos (by omega), case5_eq s neg neg 0 h]
  · next h => rw [if_pos (by omega), case4_eq s neg neg 0 h]
  · next h => rw [if_pos (by omega), case3_eq s neg neg 0 h]
  · next h => rw [if_pos (by omega), case2_eq s neg neg 0 h]
  · next h => rw [if_pos (by omega), case1_eq s neg neg 0 h]
  · next h1 h2 h3 h4 h5 h6 h7 h8 h9 h10 =>
    have k1 : s.length - neg ≠ 10 := h1
    have k2 : s.length - neg ≠ 9 := h2
    have k3 : s.length - neg ≠ 8 := h3
    have k4 : s.length - neg ≠ 7 := h4
    have k5 : s.length - neg ≠ 6 := h5
    have k6 : s.length - neg ≠ 5 := h6
    have k7 : s.length - neg ≠ 4 := h7
    have k8 : s.length - neg ≠ 3 := h8
    have k9 : s.length - neg ≠ 2 := h9
    have k10 : s.length - neg ≠ 1 := h10
    rw [if_neg (by omega)]

theorem chain_isSome (l : List Byte) (neg : Nat) (x : Int) :
    (chain l neg x).isSome = true ↔ ∀ b ∈ l, isdigit b = true := by
  induction l generalizing x with
  | nil => simp [chain]
  | cons b t ih =>
    simp only [chain, List.mem_cons, forall_eq_or_imp]
    by_cases hb : isdigit b = true
    · rw [if_pos ((digit_unsigned b).1.2 hb), ih]
      simp [hb]
    · rw [if_neg (fun h => hb ((digit_unsigned b).1.1 h))]
      simp [hb]

theorem chain_value (l : List Byte) (neg : Nat) (x : Int) (hx : isInt32 x)
    (h : ∀ b ∈ l, isdigit b = true) :
    chain l neg x = some (signed neg (toInt32 (toUnsigned x + decimalValue l))) := by
  induction l generalizing x with
  | nil =>
    simp only [chain, decimalValue, List.foldl_nil, Nat.add_zero]
    rw [toInt32_toUnsigned x hx]
  | cons b t ih =>
    have hb := h b (List.mem_cons_self _ _)
    have hc := (digit_unsigned b).2 hb
    simp only [chain]
    rw [if_pos ((digit_unsigned b).1.2 hb), ih _ (by unfold addMul; exact toInt32_isInt32 _)
      (fun c hc => h c (List.mem_cons_of_mem _ hc))]
    rw [hc, decimalValue_cons, addMul, toUnsigned_toInt32, ← toInt32_mod]
    conv_rhs => rw [← toInt32_mod]
    congr 3
    omega

theorem cAt_zero_cons (b : Byte) (t : List Byte) : cAt (b :: t) 0 = b := by
  simp [cAt]

theorem cAt_zero_eq_minus (s : List Byte) : cAt s 0 = 45 ↔ ∃ t, s = 45 :: t := by
  cases s with
  | nil => simp [cAt]
  | cons b t => simp [cAt]

/-- `parse` on a run of 1 to 10 digits: the decimal value, as an `int`. -/
theorem parse_digits (ds : List Byte) (h1 : 1 ≤ ds.length) (h2 : ds.length ≤ 10)
    (hd : ∀ b ∈ ds, isdigit b = true) :
    parse ds = some (toInt32 (decimalValue ds)) := by
  have hneg : ¬ cAt ds 0 = 45 := by
    intro h
    obtain ⟨t, rfl⟩ := (cAt_zero_eq_minus ds).1 h
    have := hd 45 (List.mem_cons_self _ _)
    exact absurd this (by decide)
  rw [parse_eq_chain]
  simp only [if_neg hneg, Nat.sub_zero, List.drop_zero]
  rw [if_pos ⟨h1, h2⟩, chain_value ds 0 0 (by decide) hd]
  simp [signed, toUnsigned]

/-- `parse` on `-` followed by a run of 1 to 10 digits. -/
theorem parse_minus_digits (ds : List Byte) (h1 : 1 ≤ ds.length) (h2 : ds.length ≤ 10)
    (hd : ∀ b ∈ ds, isdigit b = true) :
    parse (45 :: ds) = some (toInt32 (toUnsigned (-(toInt32 (decimalValue ds))))) := by
  rw [parse_eq_chain]
  simp only [cAt_zero_cons, if_true, List.length_cons, Nat.add_sub_cancel, List.drop_succ_cons,
    List.drop_zero]
  rw [if_pos ⟨h1, h2⟩, chain_value ds 1 0 (by decide) hd]
  simp [signed, toUnsigned]

theorem parse_isSome_iff (s : List Byte) :
    (parse s).isSome = true ↔
      ∃ ds : List Byte, (s = ds ∨ s = 45 :: ds) ∧ 1 ≤ ds.length ∧ ds.length ≤ 10 ∧
        ∀ b ∈ ds, isdigit b = true := by
  constructor
  · intro h
    rw [parse_eq_chain] at h
    by_cases hneg : cAt s 0 = 45
    · obtain ⟨t, rfl⟩ := (cAt_zero_eq_minus s).1 hneg
      simp only [cAt_zero_cons, if_true, List.length_cons, Nat.add_sub_cancel,
        List.drop_succ_cons, List.drop_zero] at h
      split at h
      · next hl => exact ⟨t, Or.inr rfl, hl.1, hl.2, (chain_isSome t 1 0).1 h⟩
      · simp at h
    · simp only [if_neg hneg, Nat.sub_zero, List.drop_zero] at h
      split at h
      · next hl => exact ⟨s, Or.inl rfl, hl.1, hl.2, (chain_isSome s 0 0).1 h⟩
      · simp at h
  · rintro ⟨ds, hs | hs, h1, h2, hd⟩
    · subst hs
      rw [parse_digits s h1 h2 hd]; rfl
    · subst hs
      rw [parse_minus_digits ds h1 h2 hd]; rfl

end IntConvertor

/-! ## Canonical decimal text -/

theorem canonicalDecimal_small (n : Nat) (h : n < 10) :
    canonicalDecimal n = [Fin.ofNat (48 + n)] := by
  unfold canonicalDecimal
  by_cases h0 : n = 0
  · subst h0; rfl
  · rw [if_neg h0, Nat.digits_of_lt 10 n h0 h]; rfl

theorem canonicalDecimal_step (n : Nat) (h : 10 ≤ n) :
    canonicalDecimal n = canonicalDecimal (n / 10) ++ [Fin.ofNat (48 + n % 10)] := by
  unfold canonicalDecimal
  have h0 : n ≠ 0 := by omega
  have h1 : n / 10 ≠ 0 := by omega
  rw [if_neg h0, if_neg h1, Nat.digits_def' (by decide) (by omega)]
  simp

theorem canonicalDecimal_digits (n : Nat) : ∀ b ∈ canonicalDecimal n, isdigit b = true := by
  induction n using Nat.strong_induction_on with
  | _ n ih =>
    have hd : ∀ d : Nat, d < 10 → isdigit (Fin.ofNat (48 + d)) = true := by decide
    by_cases h : n < 10
    · rw [canonicalDecimal_small n h]
      intro b hb
      rw [List.mem_singleton] at hb
      subst hb
      exact hd n h
    · rw [canonicalDecimal_step n (by omega)]
      intro b hb
      rcases List.mem_append.1 hb with hb | hb
      · exact ih (n / 10) (by omega) b hb
      · rw [List.mem_singleton] at hb
        subst hb
        exact hd (n % 10) (by omega)

theorem ofNat_digit_val (d : Nat) (h : d < 10) : ((Fin.ofNat (48 + d) : Byte).val) - 48 = d := by
  revert h; revert d; decide

theorem canonicalDecimal_value (n : Nat) : decimalValue (canonicalDecimal n) = n := by
  induction n using Nat.strong_induction_on with
  | _ n ih =>
    by_cases h : n < 10
    · rw [canonicalDecimal_small n h]
      simp only [decimalValue, List.foldl_cons, List.foldl_nil]
      rw [ofNat_digit_val n h]; omega
    · rw [canonicalDecimal_step n (by omega), decimalValue_append_single,
        ih (n / 10) (by omega), ofNat_digit_val (n % 10) (by omega)]
      omega

theorem canonicalDecimal_length (k n : Nat) (h : n < 10 ^ (k + 1)) :
    1 ≤ (canonicalDecimal n).length ∧ (canonicalDecimal n).length ≤ k + 1 := by
  induction k generalizing n with
  | zero =>
    rw [canonicalDecimal_small n (by simpa using h)]
    simp
  | succ k ih =>
    by_cases h10 : n < 10
    · rw [canonicalDecimal_small n h10]
      simp
    · rw [canonicalDecimal_step n (by omega)]
      have h2 : n / 10 < 10 ^ (k + 1) := by
        rw [Nat.div_lt_iff_lt_mul (by decide)]
        rw [pow_succ] at h
        exact h
      have := ih (n / 10) h2
      simp only [List.length_append, List.length_singleton]
      omega

theorem canonicalDecimal_ne_nil (n : Nat) : canonicalDecimal n ≠ [] := by
  by_cases h : n < 10
  · rw [canonicalDecimal_small n h]; simp
  · rw [canonicalDecimal_step n (by omega)]; simp

theorem canonicalDecimal_head (n : Nat) (h : n ≠ 0) :
    (canonicalDecimal n).head? ≠ some 48 := by
  induction n using Nat.strong_induction_on with
  | _ n ih =>
    by_cases h10 : n < 10
    · rw [canonicalDecimal_small n h10]
      have : ∀ d : Nat, d < 10 → d ≠ 0 → [(Fin.ofNat (48 + d) : Byte)].head? ≠ some 48 := by
        decide
      exact this n h10 h
    · rw [canonicalDecimal_step n (by omega)]
      have hne : canonicalDecimal (n / 10) ≠ [] := canonicalDecimal_ne_nil _
      rw [List.head?_append_of_ne_nil _ hne]
      exact ih (n / 10) (by omega) (by omega)

namespace IntConvertor

theorem generateLoop_reverse (u : Nat) (hu : u < 4294967296) :
    (generateLoop u).reverse = canonicalDecimal u := by
  induction u using Nat.strong_induction_on with
  | _ u ih =>
    rw [generateLoop]
    have hch : (u - u / 10 * 10) % 4294967296 = u % 10 := by omega
    simp only [hch]
    have hmod : (48 + u % 10) % 4294967296 = 48 + u % 10 := by omega
    rw [hmod]
    by_cases h : u / 10 ≠ 0
    · rw [dif_pos h, List.reverse_cons, ih (u / 10) (by omega) (by omega),
        canonicalDecimal_step u (by omega)]
    · rw [dif_neg h, canonicalDecimal_small u (by omega)]
      have : u % 10 = u := by omega
      rw [this]; rfl

theorem generate_magnitude (v : Int) (hv : isInt32 v) :
    toUnsigned (if v < 0 then addInt (bitNot v) 1 else v) = v.natAbs := by
  unfold isInt32 at hv
  unfold addInt bitNot toInt32 toUnsigned
  split <;> (try split) <;> omega

theorem convert_eq (v : Int) (hv : isInt32 v) :
    convert v = (if v < 0 then [45] else []) ++ canonicalDecimal v.natAbs := by
  have hu : v.natAbs < 4294967296 := by unfold isInt32 at hv; omega
  unfold convert convert_to generate reverseRange
  simp only [generate_magnitude v hv]
  rw [← generateLoop_reverse _ hu]
  by_cases h : v < 0
  · simp only [if_pos h]
    rw [List.take_of_length_le (by simp)]
    simp
  · simp only [if_neg h, Nat.add_zero]
    rw [List.take_left]
    simp

end IntConvertor

namespace PositiveIntConvertor

theorem pos_case1_eq (s : List Byte) (p : Nat) (x : Int) :
    case1 s p x = IntConvertor.case1 s 0 p x := rfl

theorem pos_case2_eq (s : List Byte) (p : Nat) (x : Int) :
    case2 s p x = IntConvertor.case2 s 0 p x := by
  simp only [case2, IntConvertor.case2, pos_case1_eq]; rfl

theorem pos_case3_eq (s : List Byte) (p : Nat) (x : Int) :
    case3 s p x = IntConvertor.case3 s 0 p x := by
  simp only [case3, IntConvertor.case3, pos_case2_eq]; rfl

theorem pos_case4_eq (s : List Byte) (p : Nat) (x : Int) :
    case4 s p x = IntConvertor.case4 s 0 p x := by
  simp only [case4, IntConvertor.case4, pos_case3_eq]; rfl

theorem pos_case5_eq (s : List Byte) (p : Nat) (x : Int) :
    case5 s p x = IntConvertor.case5 s 0 p x := by
  simp only [case5, IntConvertor.case5, pos_case4_eq]; rfl

theorem pos_case6_eq (s : List Byte) (p : Nat) (x : Int) :
    case6 s p x = IntConvertor.case6 s 0 p x := by
  simp only [case6, IntConvertor.case6, pos_case5_eq]; rfl

theorem pos_case7_eq (s : List Byte) (p : Nat) (x : Int) :
    case7 s p x = IntConvertor.case7 s 0 p x := by
  simp only [case7, IntConvertor.case7, pos_case6_eq]; rfl

theorem pos_case8_eq (s : List Byte) (p : Nat) (x : Int) :
    case8 s p x = IntConvertor.case8 s 0 p x := by
  simp only [case8, IntConvertor.case8, pos_case7_eq]; rfl

theorem pos_case9_eq (s : List Byte) (p : Nat) (x : Int) :
    case9 s p x = IntConvertor.case9 s 0 p x := by
  simp only [case9, IntConvertor.case9, pos_case8_eq]; rfl

theorem pos_case10_eq (s : List Byte) (p : Nat) (x : Int) :
    case10 s p x = IntConvertor.case10 s 0 p x := by
  simp only [case10, IntConvertor.case10, pos_case9_eq]; rfl

/-- The switch of `PositiveIntConvertor::parse`, folded into one recursion. -/
theorem pos_parse_eq_chain (s : List Byte) :
    parse s = if 1 ≤ s.length ∧ s.length ≤ 10 then IntConvertor.chain s 0 0 else none := by
  unfold parse
  split
  · next h => rw [if_pos (by omega), pos_case10_eq, IntConvertor.case10_eq s 0 0 h]; rfl
  · next h => rw [if_pos (by omega), pos_case9_eq, IntConvertor.case9_eq s 0 0 0 h]; rfl
  · next h => rw [if_pos (by omega), pos_case8_eq, IntConvertor.case8_eq s 0 0 0 h]; rfl
  · next h => rw [if_pos (by omega), pos_case7_eq, IntConvertor.case7_eq s 0 0 0 h]; rfl
  · next h => rw [if_pos (by omega), pos_case6_eq, IntConvertor.case6_eq s 0 0 0 h]; rfl
  · next h => rw [if_pos (by omega), pos_case5_eq, IntConvertor.case5_eq s 0 0 0 h]; rfl
  · next h => rw [if_pos (by omega), pos_case4_eq, IntConvertor.case4_eq s 0 0 0 h]; rfl
  · next h => rw [if_pos (by omega), pos_case3_eq, IntConvertor.case3_eq s 0 0 0 h]; rfl
  · next h => rw [if_pos (by omega), pos_case2_eq, IntConvertor.case2_eq s 0 0 0 h]; rfl
  · next h => rw [if_pos (by omega), pos_case1_eq, IntConvertor.case1_eq s 0 0 0 h]; rfl
  · next h1 h2 h3 h4 h5 h6 h7 h8 h9 h10 =>
    have k1 : s.length ≠ 10 := h1
    have k2 : s.length ≠ 9 := h2
    have k3 : s.length ≠ 8 := h3
    have k4 : s.length ≠ 7 := h4
    have k5 : s.length ≠ 6 := h5
    have k6 : s.length ≠ 5 := h6
    have k7 : s.length ≠ 4 := h7
    have k8 : s.length ≠ 3 := h8
    have k9 : s.length ≠ 2 := h9
    have k10 : s.length ≠ 1 := h10
    rw [if_neg (by omega)]

theorem pos_parse_isSome_iff (s : List Byte) :
    (parse s).isSome = true ↔
      1 ≤ s.length ∧ s.length ≤ 10 ∧ ∀ b ∈ s, isdigit b = true := by
  rw [pos_parse_eq_chain]
  by_cases h : 1 ≤ s.length ∧ s.length ≤ 10
  · rw [if_pos h, IntConvertor.chain_isSome]
    constructor
    · intro hd; exact ⟨h.1, h.2, hd⟩
    · intro hd; exact hd.2.2
  · rw [if_neg h]
    constructor
    · intro h'; simp at h'
    · intro h'; exact absurd ⟨h'.1, h'.2.1⟩ h

theorem pos_parse_value (s : List Byte) (h1 : 1 ≤ s.length) (h2 : s.length ≤ 10)
    (hd : ∀ b ∈ s, isdigit b = true) : parse s = some (toInt32 (decimalValue s)) := by
  rw [pos_parse_eq_chain, if_pos ⟨h1, h2⟩, IntConvertor.chain_value s 0 0 (by decide) hd]
  simp [IntConvertor.signed, toUnsigned]

end PositiveIntConvertor

/-! ## Reading a NUL-terminated string -/

theorem cAt_drop (s : List Byte) (p k : Nat) : cAt (s.drop p) k = cAt s (p + k) := by
  simp [cAt, List.getD, List.getElem?_drop]

theorem cAt_of_length_le (l : List Byte) (k : Nat) (h : l.length ≤ k) : cAt l k = 0 := by
  simp [cAt, List.getD, List.getElem?_eq_none h]

theorem length_le_of_cAt_zero (l : List Byte) (k : Nat) (hnul : ∀ b ∈ l, b ≠ 0)
    (h : cAt l k = 0) : l.length ≤ k := by
  by_contra hk
  have hlt : k < l.length := by omega
  have hmem : l.get ⟨k, hlt⟩ ∈ l := List.get_mem l k hlt
  apply hnul _ hmem
  simpa [cAt, List.getD, List.getElem?_eq_getElem hlt] using h

theorem cAt_append_cons (ip : List Byte) (b : Byte) (t : List Byte) :
    cAt (ip ++ b :: t) ip.length = b := by
  induction ip with
  | nil => simp [cAt]
  | cons c u ih => simpa [cAt] using ih

namespace DoubleConvertor

theorem skipDigits_add (l : List Byte) (p : Nat) : skipDigits l p = p + skipDigits l 0 := by
  induction l generalizing p with
  | nil => simp [skipDigits]
  | cons b t ih =>
    simp only [skipDigits]
    split
    · rw [ih (p + 1), ih (0 + 1)]; omega
    · rfl

theorem skipDigits_le (l : List Byte) : skipDigits l 0 ≤ l.length := by
  induction l with
  | nil => simp [skipDigits]
  | cons b t ih =>
    simp only [skipDigits]
    split
    · rw [skipDigits_add]; simp only [List.length_cons]; omega
    · omega

theorem skipDigits_take (l : List Byte) : ∀ b ∈ l.take (skipDigits l 0), isdigit b = true := by
  induction l with
  | nil => simp [skipDigits]
  | cons c t ih =>
    simp only [skipDigits]
    split
    · next hc =>
      rw [skipDigits_add, Nat.add_comm, List.take_succ_cons]
      intro b hb
      rcases List.mem_cons.1 hb with rfl | hb
      · exact hc
      · exact ih b hb
    · simp

theorem skipDigits_run (ip rest : List Byte) (hip : ∀ b ∈ ip, isdigit b = true)
    (hrest : ∀ b, rest.head? = some b → isdigit b = false) :
    skipDigits (ip ++ rest) 0 = ip.length := by
  induction ip with
  | nil =>
    cases rest with
    | nil => simp [skipDigits]
    | cons c t =>
      have := hrest c rfl
      simp [skipDigits, this]
  | cons c t ih =>
    have hc := hip c (List.mem_cons_self _ _)
    have ih' := ih (fun b hb => hip b (List.mem_cons_of_mem _ hb))
    show skipDigits (c :: (t ++ rest)) 0 = (c :: t).length
    simp only [skipDigits, hc, if_true]
    rw [skipDigits_add, ih']
    simp only [List.length_cons]; omega

end DoubleConvertor

namespace DoubleConvertor

theorem parse_eq_body (s : List Byte) :
    parse s =
      if cAt s 0 ≠ 0 then
        (if cAt s 0 ≠ 45 then body s true 0
         else if cAt s 1 ≠ 0 then body s false 1 else none)
      else none := by
  unfold parse body
  by_cases h0 : cAt s 0 = 0
  · simp [h0]
  · by_cases h1 : cAt s 0 = 45
    · by_cases h2 : cAt s 1 = 0
      · simp [h0, h1, h2]
      · simp [h0, h1, h2]
    · simp [h0, h1]

theorem body_isSome_iff (s : List Byte) (positive : Bool) (pv : Nat)
    (hnul : ∀ b ∈ s.drop pv, b ≠ 0) :
    (body s positive pv).isSome = true ↔ isUnsignedDecimal (s.drop pv) := by
  have hdig46 : isdigit 46 = false := by decide
  have hcat : ∀ k, cAt s (pv + k) = cAt (s.drop pv) k := fun k => (cAt_drop s pv k).symm
  have hdrop : ∀ k, s.drop (pv + k) = (s.drop pv).drop k := fun k => by
    rw [List.drop_drop, Nat.add_comm]
  generalize hr : s.drop pv = r at hnul hcat hdrop
  unfold body
  simp only [hr]
  rw [skipDigits_add r pv]
  generalize hn1 : skipDigits r 0 = n1
  have hle1 : n1 ≤ r.length := hn1 ▸ skipDigits_le r
  have htake1 : ∀ b ∈ r.take n1, isdigit b = true := hn1 ▸ skipDigits_take r
  rw [hcat n1, Nat.add_assoc, hdrop (n1 + 1), skipDigits_add _ (pv + (n1 + 1))]
  generalize hn2 : skipDigits (r.drop (n1 + 1)) 0 = n2
  have hle2 : n2 ≤ (r.drop (n1 + 1)).length := hn2 ▸ skipDigits_le _
  have htake2 : ∀ b ∈ (r.drop (n1 + 1)).take n2, isdigit b = true := hn2 ▸ skipDigits_take _
  by_cases hdot : cAt r n1 = 46
  · simp only [hdot, decide_True, if_true]
    rw [Nat.add_assoc pv, hcat]
    have hn1lt : n1 < r.length := by
      by_contra hge
      rw [cAt_of_length_le r n1 (by omega)] at hdot
      exact absurd hdot (by decide)
    have hsplit : r = r.take n1 ++ [46] ++ r.drop (n1 + 1) := by
      have h1 : r.drop n1 = r.get ⟨n1, hn1lt⟩ :: r.drop (n1 + 1) := List.drop_eq_getElem_cons hn1lt
      have h2 : r.get ⟨n1, hn1lt⟩ = 46 := by
        rw [← hdot]; simp [cAt, List.getD, List.getElem?_eq_getElem hn1lt]
      rw [h2] at h1
      conv_lhs => rw [← List.take_append_drop n1 r, h1]
      simp
    have hlen2 : (r.drop (n1 + 1)).length = r.length - (n1 + 1) := List.length_drop _ _
    constructor
    · intro h
      split at h
      · next hc =>
        obtain ⟨hz, hgt⟩ := hc
        have hlen := length_le_of_cAt_zero r _ hnul hz
        refine ⟨r.take n1, [46], r.drop (n1 + 1), hsplit, htake1, Or.inr rfl, ?_, ?_⟩
        · rw [List.take_of_length_le (by omega)] at htake2
          exact htake2
        · rw [List.length_take, hlen2]; omega
      · simp at h
    · rintro ⟨ip, dt, fp, hrr, hip, hdt, hfp, hcount⟩
      rcases hdt with ⟨rfl, rfl⟩ | rfl
      · exfalso
        simp only [List.append_nil] at hrr
        have : n1 = ip.length := by
          rw [← hn1, hrr]
          have := skipDigits_run ip [] hip (by simp)
          simpa using this
        rw [hrr] at hn1lt
        omega
      · have e1 : n1 = ip.length := by
          rw [← hn1, hrr, List.append_assoc]
          exact skipDigits_run ip ([46] ++ fp) hip (by
            intro b hb
            simp only [List.singleton_append, List.head?_cons, Option.some.injEq] at hb
            rw [← hb]; exact hdig46)
        have e2 : r.drop (n1 + 1) = fp := by
          rw [hrr, e1, List.append_assoc, List.drop_append_eq_append_drop]
          simp
        have e3 : n2 = fp.length := by
          rw [← hn2, e2]
          have := skipDigits_run fp [] hfp (by simp)
          simpa using this
        have e4 : r.length = n1 + 1 + n2 := by
          rw [hrr, e1, e3]; simp only [List.length_append, List.length_singleton]
        rw [if_pos ⟨cAt_of_length_le r _ (by omega), by omega⟩]
        rfl
  · simp only [hdot, decide_False, if_false, Bool.false_eq_true]
    rw [hcat]
    constructor
    · intro h
      split at h
      · next hc =>
        obtain ⟨hz, hgt⟩ := hc
        have hlen := length_le_of_cAt_zero r _ hnul hz
        refine ⟨r, [], [], by simp, ?_, Or.inl ⟨rfl, rfl⟩, by simp, ?_⟩
        · rw [List.take_of_length_le hlen] at htake1
          exact htake1
        · simp only [List.length_nil]; omega
      · simp at h
    · rintro ⟨ip, dt, fp, hrr, hip, hdt, hfp, hcount⟩
      rcases hdt with ⟨rfl, rfl⟩ | rfl
      · simp only [List.append_nil] at hrr
        have e1 : n1 = ip.length := by
          rw [← hn1, hrr]
          have := skipDigits_run ip [] hip (by simp)
          simpa using this
        simp only [List.length_nil, Nat.add_zero] at hcount
        rw [if_pos ⟨cAt_of_length_le r _ (by rw [hrr]; omega), by omega⟩]
        rfl
      · exfalso
        have e1 : n1 = ip.length := by
          rw [← hn1, hrr, List.append_assoc]
          exact skipDigits_run ip ([46] ++ fp) hip (by
            intro b hb
            simp only [List.singleton_append, List.head?_cons, Option.some.injEq] at hb
            rw [← hb]; exact hdig46)
        apply hdot
        rw [hrr, e1, List.append_assoc]
        exact cAt_append_cons ip 46 fp

end DoubleConvertor

theorem not_isUnsignedDecimal_nil : ¬ DoubleConvertor.isUnsignedDecimal [] := by
  rintro ⟨ip, dt, fp, hs, _, _, _, hcount⟩
  have := congrArg List.length hs
  simp only [List.length_nil, List.length_append] at this
  omega

theorem not_isUnsignedDecimal_minus (t : List Byte) :
    ¬ DoubleConvertor.isUnsignedDecimal (45 :: t) := by
  rintro ⟨ip, dt, fp, hs, h1, h2, _, _⟩
  cases ip with
  | nil =>
    rcases h2 with ⟨rfl, rfl⟩ | rfl
    · simp at hs
    · simp only [List.nil_append, List.singleton_append, List.cons.injEq] at hs
      exact absurd hs.1 (by decide)
  | cons b u =>
    simp only [List.cons_append, List.cons.injEq] at hs
    have hb := h1 b (List.mem_cons_self _ _)
    rw [← hs.1] at hb
    exact absurd hb (by decide)

theorem signed_shape_iff (s : List Byte) :
    (∃ sgn ip dot fp : List Byte, s = sgn ++ ip ++ dot ++ fp ∧ (sgn = [] ∨ sgn = [45]) ∧
        (∀ b ∈ ip, isdigit b = true) ∧ ((dot = [] ∧ fp = []) ∨ dot = [46]) ∧
        (∀ b ∈ fp, isdigit b = true) ∧ 1 ≤ ip.length + fp.length) ↔
      DoubleConvertor.isUnsignedDecimal s ∨
        ∃ t, s = 45 :: t ∧ DoubleConvertor.isUnsignedDecimal t := by
  constructor
  · rintro ⟨sgn, ip, dt, fp, hs, hsgn, h1, h2, h3, h4⟩
    rcases hsgn with rfl | rfl
    · exact Or.inl ⟨ip, dt, fp, by simpa using hs, h1, h2, h3, h4⟩
    · exact Or.inr ⟨ip ++ dt ++ fp, by simpa using hs, ip, dt, fp, rfl, h1, h2, h3, h4⟩
  · rintro (⟨ip, dt, fp, hs, h1, h2, h3, h4⟩ | ⟨t, rfl, ip, dt, fp, hs, h1, h2, h3, h4⟩)
    · exact ⟨[], ip, dt, fp, by simpa using hs, Or.inl rfl, h1, h2, h3, h4⟩
    · exact ⟨[45], ip, dt, fp, by simp [hs], Or.inr rfl, h1, h2, h3, h4⟩

/-! ## UTC date and time parsing -/

namespace UtcConvertorBase

theorem digitAt_lt (s : List Byte) (p : Nat) :
    decide (digitAt s p < 10) = isdigit (cAt s p) := by
  have hb := (cAt s p).isLt
  rw [Bool.eq_iff_iff]
  simp only [digitAt, isdigit, Bool.and_eq_true, decide_eq_true_eq]
  omega

theorem digitAt_eq (s : List Byte) (p : Nat) (h : isdigit (cAt s p) = true) :
    digitAt s p = (cAt s p).val - 48 := by
  have hb := (cAt s p).isLt
  simp only [isdigit, Bool.and_eq_true, decide_eq_true_eq] at h
  simp only [digitAt]
  omega

theorem parse_date_p (s : List Byte) (p : Nat) : (parse_date s p).p = p + 8 := rfl

theorem parse_date_valid_iff (s : List Byte) (p : Nat) :
    (parse_date s p).valid = true ↔
      digitsAt s [p, p + 1, p + 2, p + 3, p + 4, p + 5, p + 6, p + 7] = true ∧
      1 ≤ num2 s (p + 4) ∧ num2 s (p + 4) ≤ 12 ∧ 1 ≤ num2 s (p + 6) ∧ num2 s (p + 6) ≤ 31 := by
  simp only [parse_date, digitAt_lt, digitsAt, Bool.and_eq_true, decide_eq_true_eq,
    List.all_cons, List.all_nil, Bool.and_true, and_assoc, num2, Nat.add_assoc, Nat.reduceAdd]
  constructor
  · rintro ⟨h0, h1, h2, h3, h4, h5, hm1, hm2, h6, h7, hd1, hd2⟩
    rw [digitAt_eq s _ h4, digitAt_eq s _ h5] at hm1 hm2
    rw [digitAt_eq s _ h6, digitAt_eq s _ h7] at hd1 hd2
    refine ⟨h0, h1, h2, h3, h4, h5, h6, h7, ?_, ?_, ?_, ?_⟩ <;> omega
  · rintro ⟨h0, h1, h2, h3, h4, h5, h6, h7, hm1, hm2, hd1, hd2⟩
    rw [digitAt_eq s _ h4, digitAt_eq s _ h5, digitAt_eq s _ h6, digitAt_eq s _ h7]
    refine ⟨h0, h1, h2, h3, h4, h5, ?_, ?_, h6, h7, ?_, ?_⟩ <;> omega

theorem parse_date_values (s : List Byte) (p : Nat)
    (h : digitsAt s [p, p + 1, p + 2, p + 3, p + 4, p + 5, p + 6, p + 7] = true) :
    (parse_date s p).year = ((100 * num2 s p + num2 s (p + 2) : Nat) : Int) ∧
    (parse_date s p).mon = (num2 s (p + 4) : Int) ∧
    (parse_date s p).mday = (num2 s (p + 6) : Int) := by
  simp only [digitsAt, Bool.and_eq_true, List.all_cons, List.all_nil, Bool.and_true] at h
  obtain ⟨h0, h1, h2, h3, h4, h5, h6, h7⟩ := h
  simp only [parse_date, num2, Nat.add_assoc, Nat.reduceAdd]
  rw [digitAt_eq s _ h0, digitAt_eq s _ h1, digitAt_eq s _ h2, digitAt_eq s _ h3,
    digitAt_eq s _ h4, digitAt_eq s _ h5, digitAt_eq s _ h6, digitAt_eq s _ h7]
  refine ⟨?_, ?_, ?_⟩ <;> omega

theorem hour_stage (s : List Byte) (p : Nat) (bound : Int) :
    (isdigit (cAt s p) && isdigit (cAt s (p + 1)) &&
        decide (10 * (digitAt s p : Int) + (digitAt s (p + 1) : Int) < bound)) = true ↔
      isdigit (cAt s p) = true ∧ isdigit (cAt s (p + 1)) = true ∧ (num2 s p : Int) < bound := by
  simp only [Bool.and_eq_true, decide_eq_true_eq, and_assoc, num2]
  constructor
  · rintro ⟨h0, h1, h⟩
    rw [digitAt_eq s _ h0, digitAt_eq s _ h1] at h
    refine ⟨h0, h1, ?_⟩
    omega
  · rintro ⟨h0, h1, h⟩
    rw [digitAt_eq s _ h0, digitAt_eq s _ h1]
    refine ⟨h0, h1, ?_⟩
    omega

theorem colon_stage (s : List Byte) (q p : Nat) (bound : Int) :
    (decide (cAt s q = 58) && isdigit (cAt s p) && isdigit (cAt s (p + 1)) &&
        decide (10 * (digitAt s p : Int) + (digitAt s (p + 1) : Int) < bound)) = true ↔
      cAt s q = 58 ∧ isdigit (cAt s p) = true ∧ isdigit (cAt s (p + 1)) = true ∧
        (num2 s p : Int) < bound := by
  rw [Bool.and_assoc, Bool.and_assoc, ← Bool.and_assoc (isdigit (cAt s p)), Bool.and_eq_true,
    hour_stage, decide_eq_true_eq]

theorem parse_time_valid_iff (s : List Byte) (p : Nat) :
    (parse_time s p).valid = true ↔
      digitsAt s [p, p + 1, p + 3, p + 4, p + 6, p + 7] = true ∧
      cAt s (p + 2) = 58 ∧ cAt s (p + 5) = 58 ∧
      num2 s p ≤ 23 ∧ num2 s (p + 3) ≤ 59 ∧ num2 s (p + 6) ≤ 59 := by
  simp only [digitsAt, Bool.and_eq_true, List.all_cons, List.all_nil, Bool.and_true, and_assoc]
  simp only [parse_time, digitAt_lt]
  generalize hA : (isdigit (cAt s p) && isdigit (cAt s (p + 1)) &&
      decide (10 * (digitAt s p : Int) + (digitAt s (p + 1) : Int) < 24)) = A
  cases A
  · have hA' := (hour_stage s p 24).not.1 (by simp [hA])
    simp only [Bool.false_and, Bool.false_eq_true, false_iff]
    rintro ⟨h0, h1, _, _, _, _, _, _, hh, _, _⟩
    exact hA' ⟨h0, h1, by omega⟩
  · have hA' := (hour_stage s p 24).1 hA
    simp only [Bool.true_and, if_true, Nat.add_assoc, Nat.reduceAdd]
    generalize hB : (decide (cAt s (p + 2) = 58) && isdigit (cAt s (p + 3)) &&
      isdigit (cAt s (p + 4)) &&
      decide (10 * (digitAt s (p + 3) : Int) + (digitAt s (p + 4) : Int) < 60)) = B
    cases B
    · have hB' := (colon_stage s (p + 2) (p + 3) 60).not.1 (by simp [hB])
      simp only [Bool.false_and, Bool.false_eq_true, false_iff]
      rintro ⟨_, _, h3, h4, _, _, hc, _, _, hm, _⟩
      exact hB' ⟨hc, h3, h4, by omega⟩
    · have hB' := (colon_stage s (p + 2) (p + 3) 60).1 hB
      simp only [Bool.true_and, if_true, Nat.add_assoc, Nat.reduceAdd]
      rw [colon_stage s (p + 5) (p + 6) 60]
      obtain ⟨h0, h1, hh⟩ := hA'
      obtain ⟨hc, h3, h4, hm⟩ := hB'
      constructor
      · rintro ⟨hc2, h6, h7, hs⟩
        exact ⟨h0, h1, h3, h4, h6, h7, hc, hc2, by omega, by omega, by omega⟩
      · rintro ⟨_, _, _, _, h6, h7, _, hc2, _, _, hs⟩
        exact ⟨hc2, h6, h7, by omega⟩

theorem parse_time_eq (s : List Byte) (p : Nat) (h : (parse_time s p).valid = true) :
    parse_time s p = ⟨true, p + 8, (num2 s p : Int), (num2 s (p + 3) : Int),
      (num2 s (p + 6) : Int)⟩ := by
  have hv := (parse_time_valid_iff s p).1 h
  simp only [digitsAt, Bool.and_eq_true, List.all_cons, List.all_nil, Bool.and_true,
    and_assoc] at hv
  obtain ⟨h0, h1, h3, h4, h6, h7, hc1, hc2, hh, hm, hs⟩ := hv
  have hA := (hour_stage s p 24).2 ⟨h0, h1, by omega⟩
  have hB := (colon_stage s (p + 2) (p + 3) 60).2 ⟨hc1, h3, h4, by omega⟩
  have hC := (colon_stage s (p + 5) (p + 6) 60).2 ⟨hc2, h6, h7, by omega⟩
  simp only [parse_time, digitAt_lt]
  simp only [hA, Bool.true_and, if_true, Nat.add_assoc, Nat.reduceAdd]
  simp only [hB, Bool.true_and, if_true, Nat.add_assoc, Nat.reduceAdd]
  simp only [hC]
  rw [digitAt_eq s _ h0, digitAt_eq s _ h1, digitAt_eq s _ h3, digitAt_eq s _ h4,
    digitAt_eq s _ h6, digitAt_eq s _ h7]
  simp only [num2, Nat.add_assoc, Nat.reduceAdd, Time.mk.injEq, true_and]
  refine ⟨?_, ?_, ?_⟩ <;> omega

theorem parse_msec_valid_iff (s : List Byte) (p : Nat) :
    (parse_msec s p).valid = true ↔
      cAt s p = 46 ∧ digitsAt s [p + 1, p + 2, p + 3] = true := by
  simp only [parse_msec, digitAt_lt, digitsAt, Bool.and_eq_true, decide_eq_true_eq,
    List.all_cons, List.all_nil, Bool.and_true, and_assoc]

theorem parse_msec_millis (s : List Byte) (p : Nat)
    (h : digitsAt s [p + 1, p + 2, p + 3] = true) :
    (parse_msec s p).millis =
      ((100 * ((cAt s (p + 1)).val - 48) + num2 s (p + 2) : Nat) : Int) := by
  simp only [digitsAt, Bool.and_eq_true, List.all_cons, List.all_nil, Bool.and_true] at h
  obtain ⟨h1, h2, h3⟩ := h
  simp only [parse_msec, num2, Nat.add_assoc, Nat.reduceAdd]
  rw [digitAt_eq s _ h1, digitAt_eq s _ h2, digitAt_eq s _ h3]
  omega

end UtcConvertorBase

theorem digitsAt_append (s : List Byte) (a b : List Nat) :
    digitsAt s (a ++ b) = true ↔ digitsAt s a = true ∧ digitsAt s b = true := by
  simp [digitsAt, List.all_append]

namespace UtcTimeStampConvertor

theorem timestamp_validate_eq (s : List Byte) :
    validate s =
      ((decide (s.length = 21) || decide (s.length = 17)) &&
        (UtcConvertorBase.parse_date s 0).valid && decide (cAt s 8 = 45) &&
        (UtcConvertorBase.parse_time s 9).valid &&
        (!decide (s.length = 21) || (UtcConvertorBase.parse_msec s 17).valid)) := by
  unfold validate
  simp only [UtcConvertorBase.parse_date_p, Nat.zero_add, Nat.reduceAdd]
  cases hL : (decide (s.length = 21) || decide (s.length = 17))
  · simp
  · cases hd : (UtcConvertorBase.parse_date s 0).valid
    · simp
    · by_cases hdash : cAt s 8 = 45
      · cases ht : (UtcConvertorBase.parse_time s 9).valid
        · simp [hdash, ht]
        · have hte := UtcConvertorBase.parse_time_eq s 9 ht
          simp [hdash, hte]
      · simp [hdash]

theorem timestamp_validate_iff (s : List Byte) : validate s = true ↔ isUtcTimeStampText s := by
  have hdi := UtcConvertorBase.parse_date_valid_iff s 0
  have hti := UtcConvertorBase.parse_time_valid_iff s 9
  have hmi := UtcConvertorBase.parse_msec_valid_iff s 17
  simp only [Nat.zero_add, Nat.reduceAdd, digitsAt, List.all_cons, List.all_nil, Bool.and_true,
    Bool.and_eq_true, and_assoc] at hdi hti hmi
  rw [timestamp_validate_eq]
  unfold isUtcTimeStampText
  simp only [digitsAt, List.all_cons, List.all_nil, Bool.and_true, Bool.and_eq_true, and_assoc,
    Bool.or_eq_true, decide_eq_true_eq, Bool.not_eq_true', decide_eq_false_iff_not, hdi, hti, hmi]
  constructor
  · rintro ⟨hl, a0, a1, a2, a3, a4, a5, a6, a7, m1, m2, d1, d2, c8, b9, b10, b12, b13, b15, b16,
      c11, c14, hh, mm, ss, hms⟩
    refine ⟨hl.symm, a0, a1, a2, a3, a4, a5, a6, a7, b9, b10, b12, b13, b15, b16, c8, c11, c14,
      ?_, m1, m2, d1, d2, hh, mm, ss⟩
    intro h21
    rcases hms with h | h
    · exact absurd h21 h
    · exact h
  · rintro ⟨hl, a0, a1, a2, a3, a4, a5, a6, a7, b9, b10, b12, b13, b15, b16, c8, c11, c14,
      hms, m1, m2, d1, d2, hh, mm, ss⟩
    refine ⟨hl.symm, a0, a1, a2, a3, a4, a5, a6, a7, m1, m2, d1, d2, c8, b9, b10, b12, b13, b15,
      b16, c11, c14, hh, mm, ss, ?_⟩
    by_cases h21 : s.length = 21
    · exact Or.inr (hms h21)
    · exact Or.inl h21

end UtcTimeStampConvertor

theorem utc_date_validate_iff (s : List Byte) :
    UtcDateConvertor.validate s = true ↔ isUtcDateText s := by
  simp only [UtcDateConvertor.validate, isUtcDateText, Bool.and_eq_true, decide_eq_true_eq,
    UtcConvertorBase.parse_date_valid_iff, Nat.zero_add]

theorem utc_time_only_validate_iff (s : List Byte) :
    UtcTimeOnlyConvertor.validate s = true ↔ isUtcTimeOnlyText s := by
  unfold UtcTimeOnlyConvertor.validate isUtcTimeOnlyText
  simp only []
  have hti := UtcConvertorBase.parse_time_valid_iff s 0
  simp only [Nat.zero_add] at hti
  by_cases hv : (UtcConvertorBase.parse_time s 0).valid = true
  · have he := UtcConvertorBase.parse_time_eq s 0 hv
    obtain ⟨hd, hc1, hc2, hh, hm, hs⟩ := hti.1 hv
    rw [he]
    simp only [Bool.true_and, Nat.zero_add]
    by_cases h12 : s.length = 12
    · simp only [h12, decide_True, Bool.true_or, if_true, Bool.not_true, Bool.false_or,
        UtcConvertorBase.parse_msec_valid_iff, Nat.reduceAdd]
      constructor
      · intro h; exact ⟨Or.inr trivial, hd, hc1, hc2, fun _ => h, hh, hm, hs⟩
      · intro h; exact h.2.2.2.2.1 trivial
    · by_cases h8 : s.length = 8
      · simp only [h8, Nat.reduceEqDiff, decide_False, decide_True, Bool.false_or, if_true,
          Bool.not_false, Bool.true_or, true_iff]
        exact ⟨Or.inl trivial, hd, hc1, hc2, fun h => absurd h (by decide), hh, hm, hs⟩
      · simp only [h12, h8, decide_False, Bool.false_or, Bool.or_self, Bool.false_eq_true,
          if_false, false_iff]
        intro h; rcases h.1 with h | h <;> exact h.elim
  · have hf : (UtcConvertorBase.parse_time s 0).valid = false := by simpa using hv
    rw [hf]
    simp only [Bool.false_and, ite_self, Bool.false_eq_true, false_iff]
    intro h
    exact hv (hti.2 ⟨h.2.1, h.2.2.1, h.2.2.2.1, h.2.2.2.2.2⟩)

theorem toUnsigned_natCast (n : Nat) (h : n < 4294967296) : toUnsigned (n : Int) = n := by
  unfold toUnsigned; omega

theorem padded_numbers_lt (i : Nat) (h : i < 100) :
    padded_numbers i = some [Fin.ofNat (48 + i / 10), Fin.ofNat (48 + i % 10)] := by
  unfold padded_numbers; rw [if_pos h]

theorem isdigit_ofNat (d : Nat) (h : d < 10) : isdigit (Fin.ofNat (48 + d) : Byte) = true := by
  revert h; revert d; decide

/-- A two-character field written from `padded_numbers[n]` reads back as `n`. -/
theorem num2_padded (s : List Byte) (i n : Nat) (hn : n < 100)
    (h1 : cAt s i = Fin.ofNat (48 + n / 10)) (h2 : cAt s (i + 1) = Fin.ofNat (48 + n % 10)) :
    num2 s i = n ∧ isdigit (cAt s i) = true ∧ isdigit (cAt s (i + 1)) = true := by
  have a : n / 10 < 10 := by omega
  have b : n % 10 < 10 := by omega
  refine ⟨?_, ?_, ?_⟩
  · unfold num2
    rw [h1, h2, ofNat_digit_val _ a, ofNat_digit_val _ b]; omega
  · rw [h1]; exact isdigit_ofNat _ a
  · rw [h2]; exact isdigit_ofNat _ b

namespace UtcTimeStampConvertor

/-- The text `generate` builds from in-range components. -/
theorem timestamp_generate_eq (y mo d h mi sc ms : Nat) (hy : y < 10000) (hmo : mo < 100) (hd : d < 100)
    (hh : h < 100) (hmi : mi < 100) (hs : sc < 100) (hms : ms < 1000) (showMs : Bool) :
    generate ⟨h, mi, sc, ms, d, mo, y⟩ showMs =
      Outcome.ok
        ([Fin.ofNat (48 + y / 100 / 10), Fin.ofNat (48 + y / 100 % 10),
          Fin.ofNat (48 + y % 100 / 10), Fin.ofNat (48 + y % 100 % 10),
          Fin.ofNat (48 + mo / 10), Fin.ofNat (48 + mo % 10),
          Fin.ofNat (48 + d / 10), Fin.ofNat (48 + d % 10), 45,
          Fin.ofNat (48 + h / 10), Fin.ofNat (48 + h % 10), 58,
          Fin.ofNat (48 + mi / 10), Fin.ofNat (48 + mi % 10), 58,
          Fin.ofNat (48 + sc / 10), Fin.ofNat (48 + sc % 10)] ++
          (if showMs then
            [46, Fin.ofNat (48 + ms / 100), Fin.ofNat (48 + ms % 100 / 10),
              Fin.ofNat (48 + ms % 100 % 10)]
          else [])) := by
  unfold generate
  simp only [toUnsigned_natCast y (by omega), toUnsigned_natCast mo (by omega),
    toUnsigned_natCast d (by omega), toUnsigned_natCast h (by omega),
    toUnsigned_natCast mi (by omega), toUnsigned_natCast sc (by omega),
    toUnsigned_natCast ms (by omega)]
  rw [if_pos hy]
  simp only [padded_numbers_lt (y / 100) (by omega), padded_numbers_lt (y % 100) (by omega),
    padded_numbers_lt mo hmo, padded_numbers_lt d hd, padded_numbers_lt h hh,
    padded_numbers_lt mi hmi, padded_numbers_lt sc hs, padded_numbers_lt (ms % 100) (by omega)]
  have hm : (48 + ms / 100) % 4294967296 = 48 + ms / 100 := by omega
  cases showMs
  · simp
  · simp [hm]

end UtcTimeStampConvertor

namespace UtcConvertorBase

theorem parse_date_eq (s : List Byte) (p : Nat) (h : (parse_date s p).valid = true) :
    parse_date s p = ⟨true, p + 8, ((100 * num2 s p + num2 s (p + 2) : Nat) : Int),
      (num2 s (p + 4) : Int), (num2 s (p + 6) : Int)⟩ := by
  have hd := ((parse_date_valid_iff s p).1 h).1
  obtain ⟨h1, h2, h3⟩ := parse_date_values s p hd
  calc parse_date s p
      = ⟨(parse_date s p).valid, (parse_date s p).p, (parse_date s p).year,
          (parse_date s p).mon, (parse_date s p).mday⟩ := rfl
    _ = _ := by rw [h, parse_date_p, h1, h2, h3]

theorem parse_msec_eq (s : List Byte) (p : Nat) (h : (parse_msec s p).valid = true) :
    parse_msec s p = ⟨true, p + 4,
      ((100 * ((cAt s (p + 1)).val - 48) + num2 s (p + 2) : Nat) : Int)⟩ := by
  have hd := ((parse_msec_valid_iff s p).1 h).2
  have h1 := parse_msec_millis s p hd
  calc parse_msec s p
      = ⟨(parse_msec s p).valid, p + 4, (parse_msec s p).millis⟩ := rfl
    _ = _ := by rw [h, h1]

end UtcConvertorBase

namespace UtcTimeStampConvertor

theorem timestamp_round_trip_nat (y mo d h mi sc ms : Nat) (hy : y < 10000) (hmo1 : 1 ≤ mo) (hmo : mo ≤ 12)
    (hd1 : 1 ≤ d) (hd : d ≤ 31) (hh : h ≤ 23) (hmi : mi ≤ 59) (hs : sc ≤ 59) (hms : ms ≤ 999)
    (showMs : Bool) :
    ∃ text, generate ⟨h, mi, sc, ms, d, mo, y⟩ showMs = Outcome.ok text ∧
      text.length = (if showMs then 21 else 17) ∧ validate text = true ∧
      UtcConvertorBase.parse_date text 0 = ⟨true, 8, y, mo, d⟩ ∧
      UtcConvertorBase.parse_time text 9 = ⟨true, 17, h, mi, sc⟩ ∧
      (showMs = true → UtcConvertorBase.parse_msec text 17 = ⟨true, 21, ms⟩) ∧
      parse text = (true, some ⟨h, mi, sc, if showMs then ms else 0, d, mo, y⟩) := by
  refine ⟨_, timestamp_generate_eq y mo d h mi sc ms hy (by omega) (by omega) (by omega) (by omega)
    (by omega) (by omega) showMs, ?_⟩
  generalize hT : ([Fin.ofNat (48 + y / 100 / 10), Fin.ofNat (48 + y / 100 % 10),
          Fin.ofNat (48 + y % 100 / 10), Fin.ofNat (48 + y % 100 % 10),
          Fin.ofNat (48 + mo / 10), Fin.ofNat (48 + mo % 10),
          Fin.ofNat (48 + d / 10), Fin.ofNat (48 + d % 10), 45,
          Fin.ofNat (48 + h / 10), Fin.ofNat (48 + h % 10), 58,
          Fin.ofNat (48 + mi / 10), Fin.ofNat (48 + mi % 10), 58,
          Fin.ofNat (48 + sc / 10), Fin.ofNat (48 + sc % 10)] ++
          (if showMs then
            [46, Fin.ofNat (48 + ms / 100), Fin.ofNat (48 + ms % 100 / 10),
              Fin.ofNat (48 + ms % 100 % 10)]
          else []) : List Byte) = T
  have hlen : T.length = if showMs then 21 else 17 := by
    rw [← hT]; cases showMs <;> rfl
  have c0 : cAt T 0 = Fin.ofNat (48 + y / 100 / 10) := by rw [← hT]; rfl
  have c1 : cAt T (0 + 1) = Fin.ofNat (48 + y / 100 % 10) := by rw [← hT]; rfl
  have c2 : cAt T 2 = Fin.ofNat (48 + y % 100 / 10) := by rw [← hT]; rfl
  have c3 : cAt T (2 + 1) = Fin.ofNat (48 + y % 100 % 10) := by rw [← hT]; rfl
  have c4 : cAt T 4 = Fin.ofNat (48 + mo / 10) := by rw [← hT]; rfl
  have c5 : cAt T (4 + 1) = Fin.ofNat (48 + mo % 10) := by rw [← hT]; rfl
  have c6 : cAt T 6 = Fin.ofNat (48 + d / 10) := by rw [← hT]; rfl
  have c7 : cAt T (6 + 1) = Fin.ofNat (48 + d % 10) := by rw [← hT]; rfl
  have c8 : cAt T 8 = 45 := by rw [← hT]; rfl
  have c9 : cAt T 9 = Fin.ofNat (48 + h / 10) := by rw [← hT]; rfl
  have c10 : cAt T (9 + 1) = Fin.ofNat (48 + h % 10) := by rw [← hT]; rfl
  have c11 : cAt T 11 = 58 := by rw [← hT]; rfl
  have c12 : cAt T 12 = Fin.ofNat (48 + mi / 10) := by rw [← hT]; rfl
  have c13 : cAt T (12 + 1) = Fin.ofNat (48 + mi % 10) := by rw [← hT]; rfl
  have c14 : cAt T 14 = 58 := by rw [← hT]; rfl
  have c15 : cAt T 15 = Fin.ofNat (48 + sc / 10) := by rw [← hT]; rfl
  have c16 : cAt T (15 + 1) = Fin.ofNat (48 + sc % 10) := by rw [← hT]; rfl
  obtain ⟨n0, a0, a1⟩ := num2_padded T 0 (y / 100) (by omega) c0 c1
  obtain ⟨n2, a2, a3⟩ := num2_padded T 2 (y % 100) (by omega) c2 c3
  obtain ⟨n4, a4, a5⟩ := num2_padded T 4 mo (by omega) c4 c5
  obtain ⟨n6, a6, a7⟩ := num2_padded T 6 d (by omega) c6 c7
  obtain ⟨n9, a9, a10⟩ := num2_padded T 9 h (by omega) c9 c10
  obtain ⟨n12, a12, a13⟩ := num2_padded T 12 mi (by omega) c12 c13
  obtain ⟨n15, a15, a16⟩ := num2_padded T 15 sc (by omega) c15 c16
  simp only [Nat.reduceAdd] at a1 a3 a5 a7 a10 a13 a16
  have hdv : (UtcConvertorBase.parse_date T 0).valid = true := by
    rw [UtcConvertorBase.parse_date_valid_iff]
    simp only [Nat.zero_add, digitsAt, List.all_cons, List.all_nil, Bool.and_true,
      Bool.and_eq_true]
    exact ⟨⟨a0, a1, a2, a3, a4, a5, a6, a7⟩, by omega, by omega, by omega, by omega⟩
  have hdate : UtcConvertorBase.parse_date T 0 = ⟨true, 8, y, mo, d⟩ := by
    rw [UtcConvertorBase.parse_date_eq T 0 hdv]
    simp only [Nat.zero_add, n0, n2, n4, n6, UtcConvertorBase.Date.mk.injEq, true_and, and_true]
    omega
  have htv : (UtcConvertorBase.parse_time T 9).valid = true := by
    rw [UtcConvertorBase.parse_time_valid_iff]
    simp only [Nat.reduceAdd, digitsAt, List.all_cons, List.all_nil, Bool.and_true,
      Bool.and_eq_true]
    exact ⟨⟨a9, a10, a12, a13, a15, a16⟩, c11, c14, by omega, by omega, by omega⟩
  have htime : UtcConvertorBase.parse_time T 9 = ⟨true, 17, h, mi, sc⟩ := by
    rw [UtcConvertorBase.parse_time_eq T 9 htv]
    simp only [Nat.reduceAdd, n9, n12, n15]
  cases showMs
  · simp only [Bool.false_eq_true, if_false] at hlen ⊢
    refine ⟨hlen, ?_, hdate, htime, fun hf => absurd hf (by decide), ?_⟩
    · rw [timestamp_validate_eq, hlen, hdv, c8, htv]; rfl
    · simp [parse, hlen, hdate, c8, htime]
  · simp only [if_true] at hlen hT ⊢
    have c17 : cAt T 17 = 46 := by rw [← hT]; rfl
    have c18 : cAt T 18 = Fin.ofNat (48 + ms / 100) := by rw [← hT]; rfl
    have c19 : cAt T 19 = Fin.ofNat (48 + ms % 100 / 10) := by rw [← hT]; rfl
    have c20 : cAt T (19 + 1) = Fin.ofNat (48 + ms % 100 % 10) := by rw [← hT]; rfl
    obtain ⟨n19, a19, a20⟩ := num2_padded T 19 (ms % 100) (by omega) c19 c20
    simp only [Nat.reduceAdd] at a20
    have a18 : isdigit (cAt T 18) = true := by rw [c18]; exact isdigit_ofNat _ (by omega)
    have hmv : (UtcConvertorBase.parse_msec T 17).valid = true := by
      rw [UtcConvertorBase.parse_msec_valid_iff]
      simp only [Nat.reduceAdd, digitsAt, List.all_cons, List.all_nil, Bool.and_true,
        Bool.and_eq_true]
      exact ⟨c17, a18, a19, a20⟩
    have hmsec : UtcConvertorBase.parse_msec T 17 = ⟨true, 21, ms⟩ := by
      rw [UtcConvertorBase.parse_msec_eq T 17 hmv]
      simp only [Nat.reduceAdd, n19, c18, ofNat_digit_val (ms / 100) (by omega),
        UtcConvertorBase.Msec.mk.injEq, true_and]
      omega
    refine ⟨hlen, ?_, hdate, htime, fun _ => hmsec, ?_⟩
    · rw [timestamp_validate_eq, hlen, hdv, c8, htv, hmv]; rfl
    · simp [parse, hlen, hdate, c8, htime, hmsec]

end UtcTimeStampConvertor

/-! ## Searching a buffer -/

namespace CharBuffer

theorem memmem_some (pat : List Byte) (hpat : pat ≠ []) (m : List Byte) (i : Nat) :
    memmem m pat = some i ↔
      pat <+: m.drop i ∧ ∀ j < i, ¬ pat <+: m.drop j := by
  induction m generalizing i with
  | nil =>
    simp [memmem, hpat]
  | cons b t ih =>
    simp only [memmem]
    by_cases hp : pat.isPrefixOf (b :: t) = true
    · rw [if_pos hp]
      have hp' : pat <+: b :: t := List.isPrefixOf_iff_prefix.1 hp
      constructor
      · intro h
        have : i = 0 := by simpa using h.symm
        subst this
        exact ⟨by simpa using hp', fun j hj => absurd hj (Nat.not_lt_zero j)⟩
      · rintro ⟨_, hmin⟩
        cases i with
        | zero => rfl
        | succ k => exact absurd (by simpa using hp') (hmin 0 (Nat.succ_pos k))
    · rw [if_neg hp]
      have hp' : ¬ pat <+: b :: t := fun h => hp (List.isPrefixOf_iff_prefix.2 h)
      cases i with
      | zero =>
        constructor
        · intro h
          cases hm : memmem t pat <;> simp [hm] at h
        · rintro ⟨h, _⟩
          exact absurd (by simpa using h) hp'
      | succ k =>
        constructor
        · intro h
          have hk : memmem t pat = some k := by
            cases hm : memmem t pat with
            | none => simp [hm] at h
            | some x => simp [hm] at h; rw [h]
          obtain ⟨h1, h2⟩ := (ih k).1 hk
          refine ⟨by simpa using h1, ?_⟩
          intro j hj
          cases j with
          | zero => simpa using hp'
          | succ j' => simpa using h2 j' (by omega)
        · rintro ⟨h1, h2⟩
          have hk : memmem t pat = some k :=
            (ih k).2 ⟨by simpa using h1, fun j hj => by simpa using h2 (j + 1) (by omega)⟩
          simp [hk]

theorem memmem_none (pat : List Byte) (hpat : pat ≠ []) (m : List Byte) :
    memmem m pat = none ↔ ∀ j, ¬ pat <+: m.drop j := by
  constructor
  · intro h j hj
    -- take the least occurrence
    have hex : ∃ i, pat <+: m.drop i := ⟨j, hj⟩
    classical
    let i := Nat.find hex
    have h1 : pat <+: m.drop i := Nat.find_spec hex
    have h2 : ∀ k < i, ¬ pat <+: m.drop k := fun k hk => Nat.find_min hex hk
    have := (memmem_some pat hpat m i).2 ⟨h1, h2⟩
    rw [h] at this
    exact absurd this (by simp)
  · intro h
    cases hm : memmem m pat with
    | none => rfl
    | some i => exact absurd ((memmem_some pat hpat m i).1 hm).1 (h i)

end CharBuffer

theorem memchr_some (l : List Byte) (c : Byte) (e : Nat) :
    memchr l c = some e ↔ ∃ rest, l = l.take e ++ c :: rest ∧ c ∉ l.take e := by
  induction l generalizing e with
  | nil => simp [memchr]
  | cons b t ih =>
    simp only [memchr]
    by_cases hb : b = c
    · subst hb
      rw [if_pos rfl]
      constructor
      · intro h
        have : e = 0 := by simpa using h.symm
        subst this
        exact ⟨t, by simp, by simp⟩
      · rintro ⟨rest, _, hnot⟩
        cases e with
        | zero => rfl
        | succ k => simp at hnot
    · rw [if_neg hb]
      cases e with
      | zero =>
        constructor
        · intro h
          cases hm : memchr t c <;> simp [hm] at h
        · rintro ⟨rest, h, _⟩
          simp only [List.take_zero, List.nil_append, List.cons.injEq] at h
          exact absurd h.1 hb
      | succ k =>
        constructor
        · intro h
          have hk : memchr t c = some k := by
            cases hm : memchr t c with
            | none => simp [hm] at h
            | some x => simp [hm] at h; rw [h]
          obtain ⟨rest, h1, h2⟩ := (ih k).1 hk
          refine ⟨rest, ?_, ?_⟩
          · simp only [List.take_succ_cons, List.cons_append, List.cons.injEq, true_and]
            exact h1
          · simp only [List.take_succ_cons, List.mem_cons, not_or]
            exact ⟨fun h => hb h.symm, h2⟩
        · rintro ⟨rest, h1, h2⟩
          simp only [List.take_succ_cons, List.cons_append, List.cons.injEq, true_and] at h1
          simp only [List.take_succ_cons, List.mem_cons, not_or] at h2
          have hk : memchr t c = some k := (ih k).2 ⟨rest, h1, h2.2⟩
          simp [hk]

theorem memchr_none (l : List Byte) (c : Byte) : memchr l c = none ↔ c ∉ l := by
  induction l with
  | nil => simp [memchr]
  | cons b t ih =>
    simp only [memchr, List.mem_cons, not_or]
    by_cases hb : b = c
    · subst hb; simp
    · rw [if_neg hb]
      constructor
      · intro h
        refine ⟨fun h' => hb h'.symm, ih.1 ?_⟩
        cases hm : memchr t c with
        | none => rfl
        | some x => simp [hm] at h
      · rintro ⟨_, h⟩
        simp [ih.2 h]

/-! ## Claims -/

/-- C1: `IntConvertor::parse` (string overload) succeeds exactly on the strings
made of an optional single leading `-` followed by 1 to 10 decimal digits; it
fails on the empty string, on `-`, `+1`, `--1`, on a string holding a byte that is neither a
digit nor a leading `-`, and on 11 digits. -/
theorem C1_int_parse_accepts_iff :
    (∀ s : List Byte, (IntConvertor.parse s).isSome = true ↔
      ∃ ds : List Byte, (s = ds ∨ s = 45 :: ds) ∧ 1 ≤ ds.length ∧ ds.length ≤ 10 ∧
        ∀ b ∈ ds, isdigit b = true) ∧
    IntConvertor.parse (ascii "") = none ∧
    IntConvertor.parse (ascii "-") = none ∧
    IntConvertor.parse (ascii "+1") = none ∧
    IntConvertor.parse (ascii "--1") = none ∧
    IntConvertor.parse (ascii "12a4") = none ∧
    IntConvertor.parse (ascii "12345678901") = none ∧
    IntConvertor.parse (ascii "-12345678901") = none := by
  refine ⟨IntConvertor.parse_isSome_iff, ?_, ?_, ?_, ?_, ?_, ?_, ?_⟩ <;> decide

set_option maxRecDepth 10000 in
/-- C2 (as stated, refuted): `007` and `00` are strings of two or more decimal
digits whose first character is `0`, and `IntConvertor::parse` accepts both. -/
theorem C2_leading_zeros_are_accepted :
    2 ≤ (ascii "007").length ∧ (∀ b ∈ ascii "007", isdigit b = true) ∧
    (ascii "007").head? = some 48 ∧ IntConvertor.parse (ascii "007") = some 7 ∧
    2 ≤ (ascii "00").length ∧ (∀ b ∈ ascii "00", isdigit b = true) ∧
    (ascii "00").head? = some 48 ∧ IntConvertor.parse (ascii "00") = some 0 := by
  refine ⟨?_, ?_, ?_, ?_, ?_, ?_, ?_, ?_⟩
  · decide
  · decide
  · decide
  · decide
  · decide
  · decide
  · decide
  · decide

/-- C2 (amended): `IntConvertor::parse` accepts leading zeros.  For every string
of two or more decimal digits whose first character is `0`, parse succeeds with
the decimal value of the string when it has at most 10 characters, and fails
when it has 11 or more. -/
theorem C2_int_parse_leading_zero (s : List Byte) (h2 : 2 ≤ s.length)
    (hd : ∀ b ∈ s, isdigit b = true) (h0 : s.head? = some 48) :
    (s.length ≤ 10 → IntConvertor.parse s = some (decimalValue s : Int)) ∧
    (11 ≤ s.length → IntConvertor.parse s = none) := by
  constructor
  · intro h10
    rw [IntConvertor.parse_digits s (by omega) h10 hd]
    cases s with
    | nil => simp at h2
    | cons b t =>
      simp only [List.head?_cons, Option.some.injEq] at h0
      subst h0
      have ht := decimalValue_lt t (fun c hc => hd c (List.mem_cons_of_mem _ hc))
      have hlen : t.length ≤ 9 := by simpa using h10
      have hpow : 10 ^ t.length ≤ 10 ^ 9 := Nat.pow_le_pow_right (by decide) hlen
      have hv : decimalValue (48 :: t) = decimalValue t := by
        rw [decimalValue_cons]
        have : ((48 : Byte).val) - 48 = 0 := by decide
        rw [this]; omega
      rw [hv, toInt32_of_lt _ (by omega)]
  · intro h11
    rw [IntConvertor.parse_eq_chain]
    have hneg : ¬ cAt s 0 = 45 := by
      intro h
      obtain ⟨t, rfl⟩ := (IntConvertor.cAt_zero_eq_minus s).1 h
      simp at h0
    simp only [if_neg hneg, Nat.sub_zero]
    rw [if_neg (by omega)]

set_option maxRecDepth 10000 in
/-- C2 (amended), at `007`. -/
theorem C2_int_parse_leading_zero_witness :
    2 ≤ (ascii "007").length ∧ (∀ b ∈ ascii "007", isdigit b = true) ∧
    (ascii "007").head? = some 48 ∧
    ((ascii "007").length ≤ 10 → IntConvertor.parse (ascii "007") = some (decimalValue (ascii "007") : Int)) ∧
    (11 ≤ (ascii "007").length → IntConvertor.parse (ascii "007") = none) :=
  ⟨by decide, by decide, by decide,
    C2_int_parse_leading_zero (ascii "007") (by decide) (by decide) (by decide)⟩

/-- C3: Int round trip.  For every 32-bit signed integer `v` (arithmetic taken
modulo `2^32`), `IntConvertor::parse` applied to `IntConvertor::convert(v)`
succeeds and yields exactly `v`. -/
theorem C3_int_round_trip (v : Int) (hv : isInt32 v) :
    IntConvertor.parse (IntConvertor.convert v) = some v := by
  have hlen := canonicalDecimal_length 9 v.natAbs (by unfold isInt32 at hv; omega)
  have hdig := canonicalDecimal_digits v.natAbs
  rw [IntConvertor.convert_eq v hv]
  unfold isInt32 at hv
  by_cases h : v < 0
  · simp only [if_pos h, List.singleton_append]
    rw [IntConvertor.parse_minus_digits _ hlen.1 hlen.2 hdig, canonicalDecimal_value]
    congr 1
    unfold toInt32 toUnsigned
    split <;> split <;> omega
  · simp only [if_neg h, List.nil_append]
    rw [IntConvertor.parse_digits _ hlen.1 hlen.2 hdig, canonicalDecimal_value]
    congr 1
    unfold toInt32
    split <;> omega

/-- C3 at `INT_MIN`, `INT_MAX` and `0`. -/
theorem C3_int_round_trip_witness :
    (isInt32 (-2147483648) ∧
      IntConvertor.parse (IntConvertor.convert (-2147483648)) = some (-2147483648)) ∧
    (isInt32 2147483647 ∧
      IntConvertor.parse (IntConvertor.convert 2147483647) = some 2147483647) ∧
    (isInt32 0 ∧ IntConvertor.parse (IntConvertor.convert 0) = some 0) :=
  ⟨⟨by decide, C3_int_round_trip (-2147483648) (by decide)⟩,
    ⟨by decide, C3_int_round_trip 2147483647 (by decide)⟩,
    ⟨by decide, C3_int_round_trip 0 (by decide)⟩⟩

/-- C4: for every 32-bit signed integer `v`, `IntConvertor::convert(v)` (generic
`generate` path) is the canonical decimal text of `v`: a `-` exactly when
`v < 0`, followed by the decimal digits of `|v|` with no leading zero (the
single digit `0` for `v = 0`) and nothing else; its length is at most 11, the
size of the buffer. -/
theorem C4_int_convert_canonical (v : Int) (hv : isInt32 v) :
    ∃ ds : List Byte,
      IntConvertor.convert v = (if v < 0 then [45] else []) ++ ds ∧
      ds = canonicalDecimal v.natAbs ∧
      ds ≠ [] ∧ (∀ b ∈ ds, isdigit b = true) ∧ decimalValue ds = v.natAbs ∧
      (v ≠ 0 → ds.head? ≠ some 48) ∧ (v = 0 → ds = [48]) ∧
      (IntConvertor.convert v).length ≤ IntConvertor.MaxValueSize ∧
      IntConvertor.MaxValueSize = 11 := by
  have hlen := canonicalDecimal_length 9 v.natAbs (by unfold isInt32 at hv; omega)
  refine ⟨canonicalDecimal v.natAbs, IntConvertor.convert_eq v hv, rfl,
    canonicalDecimal_ne_nil _, canonicalDecimal_digits _, canonicalDecimal_value _, ?_, ?_, ?_, rfl⟩
  · intro h
    exact canonicalDecimal_head _ (by omega)
  · intro h
    subst h
    rfl
  · rw [IntConvertor.convert_eq v hv]
    simp only [List.length_append, IntConvertor.MaxValueSize]
    split <;> simp <;> omega

/-- C4 at `-120`. -/
theorem C4_int_convert_canonical_witness :
    isInt32 (-120) ∧ ∃ ds : List Byte,
      IntConvertor.convert (-120) = (if (-120 : Int) < 0 then [45] else []) ++ ds ∧
      ds = canonicalDecimal (-120 : Int).natAbs ∧
      ds ≠ [] ∧ (∀ b ∈ ds, isdigit b = true) ∧ decimalValue ds = (-120 : Int).natAbs ∧
      ((-120 : Int) ≠ 0 → ds.head? ≠ some 48) ∧ ((-120 : Int) = 0 → ds = [48]) ∧
      (IntConvertor.convert (-120)).length ≤ IntConvertor.MaxValueSize ∧
      IntConvertor.MaxValueSize = 11 :=
  ⟨by decide, C4_int_convert_canonical (-120) (by decide)⟩

/-- C5: `PositiveIntConvertor::parse` succeeds exactly on the strings of 1 to 10
characters that are all decimal digits (no sign); on success the result is the
decimal value taken as an `int`, which is the decimal value itself whenever that
is below `2^31`. -/
theorem C5_positive_int_parse (s : List Byte) :
    ((PositiveIntConvertor.parse s).isSome = true ↔
      1 ≤ s.length ∧ s.length ≤ 10 ∧ ∀ b ∈ s, isdigit b = true) ∧
    ∀ r : Int, PositiveIntConvertor.parse s = some r →
      r = toInt32 (decimalValue s) ∧
      (decimalValue s < 2147483648 → r = (decimalValue s : Int)) := by
  refine ⟨PositiveIntConvertor.pos_parse_isSome_iff s, ?_⟩
  intro r hr
  have hs : (PositiveIntConvertor.parse s).isSome = true := by rw [hr]; rfl
  obtain ⟨h1, h2, hd⟩ := (PositiveIntConvertor.pos_parse_isSome_iff s).1 hs
  rw [PositiveIntConvertor.pos_parse_value s h1 h2 hd] at hr
  have hr' : toInt32 (decimalValue s) = r := Option.some.inj hr
  refine ⟨hr'.symm, ?_⟩
  intro hlt
  rw [← hr', toInt32_of_lt _ hlt]

set_option maxRecDepth 100000 in
theorem checksum_convert_in_range : ∀ n : Nat, n < 256 →
    CheckSumConvertor.convert (n : Int) =
      some [Fin.ofNat (48 + (n : Int).toNat / 100), Fin.ofNat (48 + (n : Int).toNat / 10 % 10),
        Fin.ofNat (48 + (n : Int).toNat % 10)] := by
  decide

/-- C6: for every `int` value, `CheckSumConvertor::convert(value)` succeeds if
and only if `0 <= value <= 255`, and then returns exactly three characters, the
decimal digits of the value left-padded with `0` (7 gives `007`); outside
0..255 it throws and produces nothing. -/
theorem C6_checksum_convert (value : Int) :
    CheckSumConvertor.convert value =
      (if 0 ≤ value ∧ value ≤ 255 then
        some [Fin.ofNat (48 + value.toNat / 100), Fin.ofNat (48 + value.toNat / 10 % 10),
          Fin.ofNat (48 + value.toNat % 10)]
      else none) ∧
    ((CheckSumConvertor.convert value).isSome = true ↔ 0 ≤ value ∧ value ≤ 255) ∧
    CheckSumConvertor.convert 7 = some (ascii "007") ∧
    CheckSumConvertor.convert 255 = some (ascii "255") ∧
    CheckSumConvertor.convert 256 = none ∧
    CheckSumConvertor.convert (-1) = none := by
  have key : CheckSumConvertor.convert value =
      (if 0 ≤ value ∧ value ≤ 255 then
        some [Fin.ofNat (48 + value.toNat / 100), Fin.ofNat (48 + value.toNat / 10 % 10),
          Fin.ofNat (48 + value.toNat % 10)]
      else none) := by
    by_cases h : 0 ≤ value ∧ value ≤ 255
    · rw [if_pos h]
      obtain ⟨n, rfl⟩ := Int.eq_ofNat_of_zero_le h.1
      have hn : n < 256 := by omega
      exact checksum_convert_in_range n hn
    · rw [if_neg h]
      simp only [CheckSumConvertor.convert, CheckSumConvertor.toUChar]
      rw [if_neg (by omega)]
  refine ⟨key, ?_, by decide, by decide, by decide, by decide⟩
  rw [key]
  by_cases h : 0 ≤ value ∧ value ≤ 255
  · simp [h]
  · simp [h]

/-- C7 (as stated, refuted): `7` and `0123` are not three characters long and
`999` exceeds 255, yet `CheckSumConvertor::parse` accepts all three. -/
theorem C7_checksum_parse_accepts_malformed :
    (ascii "7").length ≠ 3 ∧ CheckSumConvertor.parse (ascii "7") = some 7 ∧
    (ascii "0123").length ≠ 3 ∧ CheckSumConvertor.parse (ascii "0123") = some 123 ∧
    255 < decimalValue (ascii "999") ∧ CheckSumConvertor.parse (ascii "999") = some 999 := by
  refine ⟨?_, ?_, ?_, ?_, ?_, ?_⟩ <;> decide

/-- C7 (amended): `CheckSumConvertor::parse` is `PositiveIntConvertor::parse`: it
accepts a string if and only if it is 1 to 10 decimal digits, with no check of
the length being 3 or of the value being at most 255, and yields the decimal
value as an `int`. -/
theorem C7_checksum_parse_is_positive_int (s : List Byte) :
    CheckSumConvertor.parse s = PositiveIntConvertor.parse s ∧
    ((CheckSumConvertor.parse s).isSome = true ↔
      1 ≤ s.length ∧ s.length ≤ 10 ∧ ∀ b ∈ s, isdigit b = true) ∧
    CheckSumConvertor.parse s =
      (if 1 ≤ s.length ∧ s.length ≤ 10 ∧ s.all isdigit = true then
        some (toInt32 (decimalValue s)) else none) := by
  refine ⟨rfl, PositiveIntConvertor.pos_parse_isSome_iff s, ?_⟩
  unfold CheckSumConvertor.parse
  by_cases h : 1 ≤ s.length ∧ s.length ≤ 10 ∧ s.all isdigit = true
  · rw [if_pos h]
    exact PositiveIntConvertor.pos_parse_value s h.1 h.2.1 (by simpa using h.2.2)
  · rw [if_neg h]
    rw [← Option.not_isSome_iff_eq_none, PositiveIntConvertor.pos_parse_isSome_iff]
    simpa using h

theorem strspn_digit_head (s : List Byte) (h : strspn s (ascii "0123456789") = 3) :
    ¬ charToInt (cAt s 0) < 3 := by
  cases s with
  | nil => simp [strspn] at h
  | cons b t =>
    simp only [strspn] at h
    by_cases hb : b ≠ 0 ∧ b ∈ ascii "0123456789"
    · have hmem := hb.2
      simp only [ascii, String.toList, List.map, List.mem_cons, List.mem_nil_iff,
        or_false] at hmem
      rw [IntConvertor.cAt_zero_cons]
      rcases hmem with h | h | h | h | h | h | h | h | h | h <;> (subst h; decide)
    · rw [if_neg hb] at h
      omega

/-- C8 (the code at the failing input): `CheckSumConvertor::validate` returns
false on `007`, the text `CheckSumConvertor::convert` produces for 7, and in
fact on every string: its second conjunct compares the first character with the
number 3, which no digit character is below. -/
theorem C8_checksum_validate_rejects :
    CheckSumConvertor.convert 7 = some (ascii "007") ∧
    CheckSumConvertor.validate (ascii "007") = false ∧
    ∀ s : List Byte, CheckSumConvertor.validate s = false := by
  refine ⟨by decide, by decide, ?_⟩
  intro s
  unfold CheckSumConvertor.validate
  by_cases h : strspn s (ascii "0123456789") = 3
  · simp [strspn_digit_head s h]
  · simp [h]

/-- C9: for every NUL-free byte string, `DoubleConvertor::parse` (string
overload) succeeds if and only if the string is an optional single leading `-`,
then a possibly empty run of digits, then optionally a `.` followed by a
possibly empty run of digits, with at least one digit overall; the listed
examples are accepted and rejected accordingly. -/
theorem C9_double_parse_shape (s : List Byte) (hnul : ∀ b ∈ s, b ≠ 0) :
    ((DoubleConvertor.parse s).isSome = true ↔
      ∃ sgn ip dot fp : List Byte, s = sgn ++ ip ++ dot ++ fp ∧ (sgn = [] ∨ sgn = [45]) ∧
        (∀ b ∈ ip, isdigit b = true) ∧ ((dot = [] ∧ fp = []) ∨ dot = [46]) ∧
        (∀ b ∈ fp, isdigit b = true) ∧ 1 ≤ ip.length + fp.length) ∧
    ([ascii "5", ascii "-5", ascii ".5", ascii "5.", ascii "-0.25"].all
        (fun x => (DoubleConvertor.parse x).isSome) = true) ∧
    ([ascii "", ascii "-", ascii ".", ascii "-.", ascii "+1", ascii "1e5", ascii "1.2.3",
        ascii "1 "].all (fun x => (DoubleConvertor.parse x).isNone) = true) := by
  refine ⟨?_, by decide, by decide⟩
  rw [DoubleConvertor.parse_eq_body, signed_shape_iff]
  cases s with
  | nil =>
    simp only [cAt, List.getD, List.getElem?_nil, Option.getD_none, ne_eq, not_true_eq_false,
      if_false]
    constructor
    · intro h; simp at h
    · rintro (h | ⟨t, ht, _⟩)
      · exact absurd h not_isUnsignedDecimal_nil
      · simp at ht
  | cons c t =>
    have hc0 : c ≠ 0 := hnul c (List.mem_cons_self _ _)
    rw [IntConvertor.cAt_zero_cons, if_pos hc0]
    by_cases hc : c = 45
    · subst hc
      rw [if_neg (by simp)]
      have hcat1 : cAt (45 :: t) 1 = cAt t 0 := by simp [cAt]
      rw [hcat1]
      have hb := DoubleConvertor.body_isSome_iff (45 :: t) false 1
        (by simpa using fun b hb => hnul b (List.mem_cons_of_mem _ hb))
      simp only [List.drop_succ_cons, List.drop_zero] at hb
      cases t with
      | nil =>
        simp only [cAt, List.getD, List.getElem?_nil, Option.getD_none, ne_eq,
          not_true_eq_false, if_false]
        constructor
        · intro h; simp at h
        · rintro (h | ⟨u, hu, h⟩)
          · exact absurd h (not_isUnsignedDecimal_minus [])
          · simp only [List.cons.injEq, true_and] at hu
            subst hu
            exact absurd h not_isUnsignedDecimal_nil
      | cons d u =>
        have hd0 : d ≠ 0 := hnul d (by simp)
        rw [IntConvertor.cAt_zero_cons, if_pos hd0, hb]
        constructor
        · intro h; exact Or.inr ⟨d :: u, rfl, h⟩
        · rintro (h | ⟨v, hv, h⟩)
          · exact absurd h (not_isUnsignedDecimal_minus _)
          · simp only [List.cons.injEq, true_and] at hv
            rw [hv]; exact h
    · rw [if_pos hc]
      have h := DoubleConvertor.body_isSome_iff (c :: t) true 0 (by simpa using hnul)
      rw [h, List.drop_zero]
      constructor
      · intro h; exact Or.inl h
      · rintro (h | ⟨v, hv, _⟩)
        · exact h
        · simp only [List.cons.injEq] at hv
          exact absurd hv.1 hc

set_option maxRecDepth 10000 in
/-- C9 at `-0.25`: the string is NUL-free and accepted, so it has the shape. -/
theorem C9_double_parse_shape_witness :
    (∀ b ∈ ascii "-0.25", b ≠ 0) ∧
    ∃ sgn ip dot fp : List Byte, ascii "-0.25" = sgn ++ ip ++ dot ++ fp ∧
      (sgn = [] ∨ sgn = [45]) ∧ (∀ b ∈ ip, isdigit b = true) ∧
      ((dot = [] ∧ fp = []) ∨ dot = [46]) ∧ (∀ b ∈ fp, isdigit b = true) ∧
      1 ≤ ip.length + fp.length :=
  ⟨by decide, (C9_double_parse_shape (ascii "-0.25") (by decide)).1.1 (by decide)⟩

theorem bool_byte_cases (b : Byte) :
    (BoolConvertor.parse [b] = some true ∧ b = 89) ∨
    (BoolConvertor.parse [b] = some false ∧ b = 78) ∨
    (BoolConvertor.parse [b] = none ∧ b ≠ 89 ∧ b ≠ 78) := by
  simp only [BoolConvertor.parse, List.length_singleton, if_true, IntConvertor.cAt_zero_cons]
  by_cases h1 : b = 89
  · subst h1; left; decide
  · by_cases h2 : b = 78
    · subst h2; right; left; decide
    · right; right; simp [h1, h2]

/-- C10: `BoolConvertor::parse(s)` succeeds if and only if `s` is exactly `Y` or
exactly `N`, with result true for `Y` and false for `N`;
`BoolConvertor::validate(s)` is true for exactly the same strings; and
`parse(convert(b))` succeeds with result `b` for both booleans. -/
theorem C10_bool_convertor :
    (∀ s : List Byte, (BoolConvertor.parse s).isSome = true ↔ s = ascii "Y" ∨ s = ascii "N") ∧
    BoolConvertor.parse (ascii "Y") = some true ∧
    BoolConvertor.parse (ascii "N") = some false ∧
    (∀ s : List Byte, BoolConvertor.validate s = true ↔ s = ascii "Y" ∨ s = ascii "N") ∧
    (∀ b : Bool, BoolConvertor.parse (BoolConvertor.convert b) = some b) := by
  have hY : ascii "Y" = [89] := by decide
  have hN : ascii "N" = [78] := by decide
  refine ⟨?_, by decide, by decide, ?_, by decide⟩
  · intro s
    rw [hY, hN]
    match s with
    | [] => simp [BoolConvertor.parse]
    | [b] =>
      rcases bool_byte_cases b with ⟨h, hb⟩ | ⟨h, hb⟩ | ⟨h, hb1, hb2⟩
      · rw [h, hb]; simp
      · rw [h, hb]; simp
      · rw [h]; simp [hb1, hb2]
    | _ :: _ :: _ => simp [BoolConvertor.parse]
  · intro s
    rw [hY, hN]
    match s with
    | [] => simp [BoolConvertor.validate]
    | [b] => simp [BoolConvertor.validate, IntConvertor.cAt_zero_cons]
    | _ :: _ :: _ => simp [BoolConvertor.validate]

theorem char_validate_byte (b : Byte) :
    (decide (charToInt b > 32) && decide (charToInt b < 127)) = true ↔
      33 ≤ b.val ∧ b.val ≤ 126 := by
  have hb := b.isLt
  simp only [charToInt, Bool.and_eq_true, decide_eq_true_eq]
  split <;> omega

/-- C11: `CharConvertor::validate(s)` is true if and only if `s` has length
exactly 1 and its byte is in the printable range 0x21..0x7E (space, DEL, control
bytes and bytes from 0x80 up are rejected), whereas `CharConvertor::parse`
succeeds on every one-byte string, whatever the byte. -/
theorem C11_char_validate_printable :
    (∀ s : List Byte, CharConvertor.validate s = true ↔
      ∃ b : Byte, s = [b] ∧ 0x21 ≤ b.val ∧ b.val ≤ 0x7E) ∧
    (∀ b : Byte, CharConvertor.parse [b] = some b) ∧
    CharConvertor.validate [0x20] = false ∧ CharConvertor.validate [0x7F] = false ∧
    CharConvertor.validate [0x00] = false ∧ CharConvertor.validate [0x1F] = false ∧
    CharConvertor.validate [0x80] = false ∧ CharConvertor.validate [0xFF] = false ∧
    CharConvertor.validate [0x21] = true ∧ CharConvertor.validate [0x7E] = true := by
  refine ⟨?_, ?_, by decide, by decide, by decide, by decide, by decide, by decide, by decide,
    by decide⟩
  · intro s
    match s with
    | [] => simp [CharConvertor.validate]
    | [b] =>
      simp only [CharConvertor.validate, List.length_singleton, decide_True, Bool.true_and,
        IntConvertor.cAt_zero_cons, char_validate_byte]
      constructor
      · intro h; exact ⟨b, rfl, h⟩
      · rintro ⟨c, hc, h⟩
        simp only [List.cons.injEq, and_true] at hc
        rw [hc]; exact h
    | _ :: _ :: _ => simp [CharConvertor.validate]
  · intro b
    simp [CharConvertor.parse, IntConvertor.cAt_zero_cons]

/-- C12 (as stated, refuted): for the char `'\0'`, `CharConvertor::convert` gives
the empty string and `CharConvertor::parse` fails on it. -/
theorem C12_char_nul_not_round_tripped :
    CharConvertor.convert 0 = [] ∧ CharConvertor.parse (CharConvertor.convert 0) = none := by
  constructor <;> decide

/-- C12 (amended): for every char `c` other than `'\0'`,
`CharConvertor::parse(CharConvertor::convert(c))` succeeds and yields `c`; for
`'\0'` convert yields the empty string, which parse rejects. -/
theorem C12_char_round_trip (c : Byte) :
    CharConvertor.parse (CharConvertor.convert c) = if c = 0 then none else some c := by
  by_cases h : c = 0
  · subst h; decide
  · simp [CharConvertor.parse, CharConvertor.convert, h, IntConvertor.cAt_zero_cons]

set_option maxRecDepth 10000 in
/-- C13: `UtcTimeStampConvertor::validate(s)` is true if and only if `s` has
length 17 or 21 and the layout `YYYYMMDD-HH:MM:SS` (then `.sss` when the length
is 21): a decimal digit at every numeric position, the separators `-`, `:`, `:`
(and `.`), month 1..12, day 1..31, hour 0..23, minute and second 0..59. -/
theorem C13_utc_timestamp_validate (s : List Byte) :
    (UtcTimeStampConvertor.validate s = true ↔
      (s.length = 17 ∨ s.length = 21) ∧
      digitsAt s [0, 1, 2, 3, 4, 5, 6, 7, 9, 10, 12, 13, 15, 16] = true ∧
      cAt s 8 = 45 ∧ cAt s 11 = 58 ∧ cAt s 14 = 58 ∧
      (s.length = 21 → cAt s 17 = 46 ∧ digitsAt s [18, 19, 20] = true) ∧
      1 ≤ num2 s 4 ∧ num2 s 4 ≤ 12 ∧ 1 ≤ num2 s 6 ∧ num2 s 6 ≤ 31 ∧
      num2 s 9 ≤ 23 ∧ num2 s 12 ≤ 59 ∧ num2 s 15 ≤ 59) ∧
    UtcTimeStampConvertor.validate (ascii "20240101-00:00:00") = true ∧
    UtcTimeStampConvertor.validate (ascii "20240101-23:59:59.999") = true ∧
    UtcTimeStampConvertor.validate (ascii "20240101-00:00:00.0") = false ∧
    UtcTimeStampConvertor.validate (ascii "20240101-24:00:00") = false ∧
    UtcTimeStampConvertor.validate (ascii "20241301-00:00:00") = false ∧
    UtcTimeStampConvertor.validate (ascii "20240100-00:00:00") = false ∧
    UtcTimeStampConvertor.validate (ascii "20240101 00:00:00") = false := by
  refine ⟨UtcTimeStampConvertor.timestamp_validate_iff s, ?_, ?_, ?_, ?_, ?_, ?_, ?_⟩ <;> decide

set_option maxRecDepth 10000 in
/-- C14: `UtcDateConvertor::validate(s)` is true if and only if `s` has length
exactly 8, all eight bytes are decimal digits, the month (bytes 5-6) is in 1..12
and the day (bytes 7-8) is in 1..31; the day bound does not depend on the month
or the year, so `20240231` is accepted. -/
theorem C14_utc_date_validate (s : List Byte) :
    (UtcDateConvertor.validate s = true ↔
      s.length = 8 ∧ digitsAt s [0, 1, 2, 3, 4, 5, 6, 7] = true ∧
      1 ≤ num2 s 4 ∧ num2 s 4 ≤ 12 ∧ 1 ≤ num2 s 6 ∧ num2 s 6 ≤ 31) ∧
    UtcDateConvertor.validate (ascii "20240231") = true ∧
    UtcDateConvertor.validate (ascii "20230229") = true ∧
    UtcDateConvertor.validate (ascii "20240431") = true ∧
    UtcDateConvertor.validate (ascii "20240132") = false ∧
    UtcDateConvertor.validate (ascii "20241301") = false ∧
    UtcDateConvertor.validate (ascii "2024011") = false := by
  refine ⟨utc_date_validate_iff s, ?_, ?_, ?_, ?_, ?_, ?_⟩ <;> decide

set_option maxRecDepth 10000 in
/-- C15: `UtcTimeOnlyConvertor::validate(s)` is true if and only if `s` has
length 8 or 12 and the layout `HH:MM:SS` (then `.` and three decimal digits when
the length is 12), with digits at all numeric positions, hour 0..23, minute and
second 0..59. -/
theorem C15_utc_time_only_validate (s : List Byte) :
    (UtcTimeOnlyConvertor.validate s = true ↔
      (s.length = 8 ∨ s.length = 12) ∧ digitsAt s [0, 1, 3, 4, 6, 7] = true ∧
      cAt s 2 = 58 ∧ cAt s 5 = 58 ∧
      (s.length = 12 → cAt s 8 = 46 ∧ digitsAt s [9, 10, 11] = true) ∧
      num2 s 0 ≤ 23 ∧ num2 s 3 ≤ 59 ∧ num2 s 6 ≤ 59) ∧
    UtcTimeOnlyConvertor.validate (ascii "23:59:59") = true ∧
    UtcTimeOnlyConvertor.validate (ascii "00:00:00.000") = true ∧
    UtcTimeOnlyConvertor.validate (ascii "24:00:00") = false ∧
    UtcTimeOnlyConvertor.validate (ascii "23:60:00") = false ∧
    UtcTimeOnlyConvertor.validate (ascii "23:59:59.99") = false ∧
    UtcTimeOnlyConvertor.validate (ascii "23-59-59") = false := by
  refine ⟨utc_time_only_validate_iff s, ?_, ?_, ?_, ?_, ?_, ?_⟩ <;> decide

/-- C16: UTC timestamp round trip at component level.  For components in range
(year 0..9999, month 1..12, day 1..31, hour 0..23, minute and second 0..59,
millisecond 0..999) `UtcTimeStampConvertor::generate` emits exactly 21 bytes with
`showMilliseconds` and 17 without; `validate` accepts the text; `parse_date`,
`parse_time` (and `parse_msec` when shown) read back the same components, and
so does `parse`.  For a year outside 0..9999 `generate` throws
`FieldConvertError` and appends nothing. -/
theorem C16_utc_timestamp_round_trip (c : Components) (hyear : isInt32 c.year) :
    (inTimeStampRange c →
      (∃ text, UtcTimeStampConvertor.generate c true = Outcome.ok text ∧ text.length = 21 ∧
        UtcTimeStampConvertor.validate text = true ∧
        UtcConvertorBase.parse_date text 0 = ⟨true, 8, c.year, c.mon, c.mday⟩ ∧
        UtcConvertorBase.parse_time text 9 = ⟨true, 17, c.hour, c.min, c.sec⟩ ∧
        UtcConvertorBase.parse_msec text 17 = ⟨true, 21, c.millis⟩ ∧
        UtcTimeStampConvertor.parse text = (true, some c)) ∧
      (∃ text, UtcTimeStampConvertor.generate c false = Outcome.ok text ∧ text.length = 17 ∧
        UtcTimeStampConvertor.validate text = true ∧
        UtcConvertorBase.parse_date text 0 = ⟨true, 8, c.year, c.mon, c.mday⟩ ∧
        UtcConvertorBase.parse_time text 9 = ⟨true, 17, c.hour, c.min, c.sec⟩ ∧
        UtcTimeStampConvertor.parse text =
          (true, some ⟨c.hour, c.min, c.sec, 0, c.mday, c.mon, c.year⟩))) ∧
    ((c.year < 0 ∨ 9999 < c.year) →
      ∀ showMilliseconds : Bool,
        UtcTimeStampConvertor.generate c showMilliseconds = Outcome.throwsFieldConvertError) := by
  obtain ⟨hour, min, sec, millis, mday, mon, year⟩ := c
  constructor
  · rintro ⟨⟨hy0, hy⟩, ⟨hmo1, hmo⟩, ⟨hd1, hd⟩, ⟨hh0, hh⟩, ⟨hmi0, hmi⟩, ⟨hs0, hs⟩, ⟨hms0, hms⟩⟩
    simp only at hy0 hy hmo1 hmo hd1 hd hh0 hh hmi0 hmi hs0 hs hms0 hms
    lift year to ℕ using hy0
    lift mon to ℕ using (by omega : 0 ≤ mon)
    lift mday to ℕ using (by omega : 0 ≤ mday)
    lift hour to ℕ using hh0
    lift min to ℕ using hmi0
    lift sec to ℕ using hs0
    lift millis to ℕ using hms0
    constructor
    · obtain ⟨text, h1, h2, h3, h4, h5, h6, h7⟩ :=
        UtcTimeStampConvertor.timestamp_round_trip_nat year mon mday hour min sec millis (by omega)
          (by omega) (by omega) (by omega) (by omega) (by omega) (by omega) (by omega) (by omega)
          true
      exact ⟨text, h1, h2, h3, h4, h5, h6 rfl, h7⟩
    · obtain ⟨text, h1, h2, h3, h4, h5, _, h7⟩ :=
        UtcTimeStampConvertor.timestamp_round_trip_nat year mon mday hour min sec millis (by omega)
          (by omega) (by omega) (by omega) (by omega) (by omega) (by omega) (by omega) (by omega)
          false
      exact ⟨text, h1, h2, h3, h4, h5, h7⟩
  · intro hout showMilliseconds
    unfold isInt32 at hyear
    simp only at hyear hout
    unfold UtcTimeStampConvertor.generate
    rw [if_neg]
    simp only [toUnsigned]
    omega

set_option maxRecDepth 10000 in
/-- C16 at 2024-02-29 23:59:58.007: the year is an `int`, the components are in
range, and the round trip holds. -/
theorem C16_utc_timestamp_round_trip_witness :
    isInt32 (2024 : Int) ∧ inTimeStampRange ⟨23, 59, 58, 7, 29, 2, 2024⟩ ∧
    (∃ text, UtcTimeStampConvertor.generate ⟨23, 59, 58, 7, 29, 2, 2024⟩ true = Outcome.ok text ∧
      text.length = 21 ∧ UtcTimeStampConvertor.validate text = true ∧
      UtcConvertorBase.parse_date text 0 = ⟨true, 8, 2024, 2, 29⟩ ∧
      UtcConvertorBase.parse_time text 9 = ⟨true, 17, 23, 59, 58⟩ ∧
      UtcConvertorBase.parse_msec text 17 = ⟨true, 21, 7⟩ ∧
      UtcTimeStampConvertor.parse text = (true, some ⟨23, 59, 58, 7, 29, 2, 2024⟩)) ∧
    UtcTimeStampConvertor.generate ⟨23, 59, 58, 7, 29, 2, 2024⟩ true =
      Outcome.ok (ascii "20240229-23:59:58.007") ∧
    UtcTimeStampConvertor.generate ⟨23, 59, 58, 7, 29, 2, 10000⟩ true =
      Outcome.throwsFieldConvertError :=
  ⟨by decide, by decide,
    ((C16_utc_timestamp_round_trip ⟨23, 59, 58, 7, 29, 2, 2024⟩ (by decide)).1 (by decide)).1,
    by decide,
    (C16_utc_timestamp_round_trip ⟨23, 59, 58, 7, 29, 2, 10000⟩ (by decide)).2
      (Or.inr (by decide)) true⟩

set_option maxRecDepth 100000 in
theorem admin_find_byte : ∀ c : Byte,
    (decide (c ≠ 0) && decide (CharBuffer.find c Message.adminTable < 7)) = true ↔
      c = 48 ∨ c = 49 ∨ c = 50 ∨ c = 51 ∨ c = 52 ∨ c = 53 ∨ c = 65 := by
  decide

set_option maxRecDepth 10000 in
/-- C17: for every NUL-terminated MsgType value, `Message::isAdminMsgTypeValue`
is true if and only if the value is exactly one of the seven one-character
strings `0`, `1`, `2`, `3`, `4`, `5`, `A`; the empty value, longer values such
as `AB` or `10`, and `a`, `6`, `D` are not admin. -/
theorem C17_admin_msg_type_value (v : List Byte) (hnul : ∀ b ∈ v, b ≠ 0) :
    (Message.isAdminMsgTypeValue v = true ↔
      v = ascii "0" ∨ v = ascii "1" ∨ v = ascii "2" ∨ v = ascii "3" ∨ v = ascii "4" ∨
        v = ascii "5" ∨ v = ascii "A") ∧
    ([ascii "", ascii "AB", ascii "10", ascii "a", ascii "6", ascii "D"].all
      (fun x => !Message.isAdminMsgTypeValue x) = true) := by
  refine ⟨?_, by decide⟩
  have e0 : ascii "0" = [48] := by decide
  have e1 : ascii "1" = [49] := by decide
  have e2 : ascii "2" = [50] := by decide
  have e3 : ascii "3" = [51] := by decide
  have e4 : ascii "4" = [52] := by decide
  have e5 : ascii "5" = [53] := by decide
  have eA : ascii "A" = [65] := by decide
  rw [e0, e1, e2, e3, e4, e5, eA]
  match v, hnul with
  | [], _ => simp [Message.isAdminMsgTypeValue, cAt]
  | [c], _ =>
    have hc1 : cAt [c] 1 = 0 := rfl
    simp only [Message.isAdminMsgTypeValue, IntConvertor.cAt_zero_cons, hc1, decide_True,
      Bool.and_true, admin_find_byte c, List.cons.injEq, and_true]
  | c :: d :: t, h =>
    have hd : d ≠ 0 := h d (by simp)
    have hc1 : cAt (c :: d :: t) 1 = d := rfl
    simp [Message.isAdminMsgTypeValue, hc1, hd]

set_option maxRecDepth 10000 in
/-- C17 at `A`. -/
theorem C17_admin_msg_type_value_witness :
    (∀ b ∈ ascii "A", b ≠ 0) ∧ Message.isAdminMsgTypeValue (ascii "A") = true :=
  ⟨by decide, (C17_admin_msg_type_value (ascii "A") (by decide)).1.2
    (Or.inr (Or.inr (Or.inr (Or.inr (Or.inr (Or.inr rfl))))))⟩

/-- C18: for every raw buffer of 5 bytes or fewer (the empty buffer included)
`Message::isAdminMsg(msg, size)` throws `InvalidMessage` instead of returning
false; for every buffer of more than 5 bytes it returns a boolean and does not
throw, whatever the memory after the buffer holds. -/
theorem C18_is_admin_msg_short_throws (msg : List Byte) (beyond : Nat → Byte) :
    (Message.isAdminMsg msg beyond = Message.Result.throwsInvalidMessage ↔ msg.length ≤ 5) ∧
    ((∃ r : Bool, Message.isAdminMsg msg beyond = Message.Result.value r) ↔ 5 < msg.length) ∧
    Message.isAdminMsg [] beyond = Message.Result.throwsInvalidMessage := by
  refine ⟨?_, ?_, rfl⟩
  · unfold Message.isAdminMsg
    by_cases h : msg.length > 5
    · rw [if_pos h]
      constructor
      · intro h'
        cases hf : CharBuffer.findIn [1, 51, 53, 61] msg <;> simp [hf] at h'
      · intro h'; omega
    · rw [if_neg h]
      constructor
      · intro _; omega
      · intro _; rfl
  · unfold Message.isAdminMsg
    by_cases h : msg.length > 5
    · rw [if_pos h]
      constructor
      · intro _; exact h
      · intro _
        simp only []
        cases CharBuffer.findIn [1, 51, 53, 61] msg
        · exact ⟨false, rfl⟩
        · exact ⟨_, rfl⟩
    · rw [if_neg h]
      constructor
      · rintro ⟨r, hr⟩
        exact absurd hr (by simp)
      · intro h'; exact absurd h' h

theorem identifyType_value_iff (m t : List Byte) :
    identifyType m = Message.Result.value t ↔
      ∃ pre post : List Byte, m = pre ++ [1, 51, 53, 61] ++ t ++ 1 :: post ∧ (1 : Byte) ∉ t ∧
        ∀ j < pre.length, ¬ [1, 51, 53, 61] <+: m.drop j := by
  have hpat : ([1, 51, 53, 61] : List Byte) ≠ [] := by simp
  unfold identifyType
  constructor
  · intro h
    cases hm : CharBuffer.memmem m [1, 51, 53, 61] with
    | none => simp [hm] at h
    | some p =>
      simp only [hm] at h
      obtain ⟨⟨r, hr⟩, hmin⟩ := (CharBuffer.memmem_some _ hpat m p).1 hm
      have hple : p ≤ m.length := by
        by_contra hgt
        rw [List.drop_of_length_le (by omega)] at hr
        simp at hr
      have hdrop : m.drop (p + 4) = r := by
        rw [← List.drop_drop, ← hr]; simp
      rw [hdrop] at h
      cases he : memchr r 1 with
      | none => simp [he] at h
      | some e =>
        simp only [he, Message.Result.value.injEq] at h
        obtain ⟨rest, h1, h2⟩ := (memchr_some r 1 e).1 he
        rw [h] at h1 h2
        refine ⟨m.take p, rest, ?_, h2, ?_⟩
        · conv_lhs => rw [← List.take_append_drop p m, ← hr, h1]
          simp
        · intro j hj
          rw [List.length_take, Nat.min_eq_left hple] at hj
          exact hmin j hj
  · rintro ⟨pre, post, hm, ht, hmin⟩
    have hdrop0 : m.drop pre.length = [1, 51, 53, 61] ++ (t ++ 1 :: post) := by
      rw [hm]; simp
    have hmm : CharBuffer.memmem m [1, 51, 53, 61] = some pre.length :=
      (CharBuffer.memmem_some _ hpat m pre.length).2 ⟨⟨_, hdrop0.symm⟩, hmin⟩
    have hdrop : m.drop (pre.length + 4) = t ++ 1 :: post := by
      rw [← List.drop_drop, hdrop0]; simp
    have hchr : memchr (t ++ 1 :: post) 1 = some t.length :=
      (memchr_some _ 1 t.length).2 ⟨post, by simp, by simpa using ht⟩
    simp only [hmm, hdrop, hchr]
    simp

theorem identifyType_not_invalid (m : List Byte) :
    identifyType m ≠ Message.Result.throwsInvalidMessage := by
  unfold identifyType
  cases CharBuffer.memmem m [1, 51, 53, 61] with
  | none => simp
  | some p =>
    simp only []
    cases memchr (List.drop (p + 4) m) 1 <;> simp

set_option maxRecDepth 10000 in
/-- C19: `identifyType(m)` succeeds if and only if `m` contains the four bytes
SOH `3` `5` `=` and an SOH occurs somewhere after the first such occurrence; the
MsgType returned is exactly the bytes between the end of that first occurrence
and the next SOH (possibly none); otherwise it throws `MessageParseError`.  A
buffer that begins with `35=` with no SOH before it is not recognised. -/
theorem C19_identify_type (m : List Byte) :
    (∀ t : List Byte, identifyType m = Message.Result.value t ↔
      ∃ pre post : List Byte, m = pre ++ [1, 51, 53, 61] ++ t ++ 1 :: post ∧ (1 : Byte) ∉ t ∧
        ∀ j < pre.length, ¬ [1, 51, 53, 61] <+: m.drop j) ∧
    ((∃ t : List Byte, identifyType m = Message.Result.value t) ↔
      ∃ pre rest : List Byte, m = pre ++ [1, 51, 53, 61] ++ rest ∧ (1 : Byte) ∈ rest ∧
        ∀ j < pre.length, ¬ [1, 51, 53, 61] <+: m.drop j) ∧
    (identifyType m = Message.Result.throwsMessageParseError ↔
      ¬ ∃ t : List Byte, identifyType m = Message.Result.value t) ∧
    identifyType (ascii "35=A" ++ [1] ++ ascii "34=1" ++ [1]) =
      Message.Result.throwsMessageParseError ∧
    identifyType (ascii "8=FIX.4.2" ++ [1] ++ ascii "35=A" ++ [1] ++ ascii "34=1" ++ [1]) =
      Message.Result.value (ascii "A") ∧
    identifyType ([1] ++ ascii "35=" ++ [1]) = Message.Result.value [] ∧
    identifyType ([1] ++ ascii "35=AB") = Message.Result.throwsMessageParseError := by
  refine ⟨identifyType_value_iff m, ?_, ?_, by decide, by decide, by decide, by decide⟩
  · constructor
    · rintro ⟨t, ht⟩
      obtain ⟨pre, post, hm, _, hmin⟩ := (identifyType_value_iff m t).1 ht
      exact ⟨pre, t ++ 1 :: post, by rw [hm]; simp, by simp, hmin⟩
    · rintro ⟨pre, rest, hm, hmem, hmin⟩
      cases he : memchr rest 1 with
      | none => exact absurd hmem ((memchr_none rest 1).1 he)
      | some e =>
        obtain ⟨post, h1, h2⟩ := (memchr_some rest 1 e).1 he
        refine ⟨rest.take e, (identifyType_value_iff m _).2 ⟨pre, post, ?_, h2, hmin⟩⟩
        rw [hm]
        conv_lhs => rw [h1]
        simp
  · constructor
    · rintro h ⟨t, ht⟩
      rw [h] at ht
      exact absurd ht (by simp)
    · intro h
      cases hr : identifyType m with
      | value t => exact absurd ⟨t, hr⟩ h
      | throwsInvalidMessage => exact absurd hr (identifyType_not_invalid m)
      | throwsMessageParseError => rfl

/-- C20: `Message::toBeginString` maps the three ApplVerID values FIX50,
FIX50SP1 and FIX50SP2 to the same BeginString FIX.5.0 (it is not injective on
the supported ApplVerIDs), maps FIX40..FIX44 to FIX.4.0..FIX.4.4 respectively,
and maps every other ApplVerID to the empty BeginString; the eight ApplVerID
constants are taken to be pairwise distinct. -/
theorem C20_to_begin_string (k : Message.Values) (hdistinct : (Message.applVerIDs k).Nodup) :
    Message.toBeginString k k.ApplVerID_FIX50 = k.BeginString_FIX50 ∧
    Message.toBeginString k k.ApplVerID_FIX50SP1 = k.BeginString_FIX50 ∧
    Message.toBeginString k k.ApplVerID_FIX50SP2 = k.BeginString_FIX50 ∧
    (k.ApplVerID_FIX50 ≠ k.ApplVerID_FIX50SP1 ∧ k.ApplVerID_FIX50 ≠ k.ApplVerID_FIX50SP2 ∧
      k.ApplVerID_FIX50SP1 ≠ k.ApplVerID_FIX50SP2) ∧
    Message.toBeginString k k.ApplVerID_FIX40 = k.BeginString_FIX40 ∧
    Message.toBeginString k k.ApplVerID_FIX41 = k.BeginString_FIX41 ∧
    Message.toBeginString k k.ApplVerID_FIX42 = k.BeginString_FIX42 ∧
    Message.toBeginString k k.ApplVerID_FIX43 = k.BeginString_FIX43 ∧
    Message.toBeginString k k.ApplVerID_FIX44 = k.BeginString_FIX44 ∧
    (∀ v : List Byte, v ∉ Message.applVerIDs k → Message.toBeginString k v = []) := by
  simp only [Message.applVerIDs, List.nodup_cons, List.mem_cons, List.mem_singleton,
    List.not_mem_nil, or_false, not_or, List.nodup_nil, and_true] at hdistinct
  obtain ⟨⟨h01, h02, h03, h04, h05, h06, h07⟩, ⟨h12, h13, h14, h15, h16, h17⟩,
    ⟨h23, h24, h25, h26, h27⟩, ⟨h34, h35, h36, h37⟩, ⟨h45, h46, h47⟩, ⟨h56, h57⟩, h67, _⟩ :=
    hdistinct
  refine ⟨?_, ?_, ?_, ⟨h56, h57, h67⟩, ?_, ?_, ?_, ?_, ?_, ?_⟩
  · simp [Message.toBeginString, Ne.symm h05, Ne.symm h15, Ne.symm h25, Ne.symm h35, Ne.symm h45]
  · simp [Message.toBeginString, Ne.symm h06, Ne.symm h16, Ne.symm h26, Ne.symm h36, Ne.symm h46,
      Ne.symm h56]
  · simp [Message.toBeginString, Ne.symm h07, Ne.symm h17, Ne.symm h27, Ne.symm h37, Ne.symm h47,
      Ne.symm h57, Ne.symm h67]
  · simp [Message.toBeginString]
  · simp [Message.toBeginString, Ne.symm h01]
  · simp [Message.toBeginString, Ne.symm h02, Ne.symm h12]
  · simp [Message.toBeginString, Ne.symm h03, Ne.symm h13, Ne.symm h23]
  · simp [Message.toBeginString, Ne.symm h04, Ne.symm h14, Ne.symm h24, Ne.symm h34]
  · intro v hv
    simp only [Message.applVerIDs, List.mem_cons, List.mem_singleton, List.not_mem_nil, or_false,
      not_or] at hv
    obtain ⟨g0, g1, g2, g3, g4, g5, g6, g7⟩ := hv
    simp [Message.toBeginString, g0, g1, g2, g3, g4, g5, g6, g7]

set_option maxRecDepth 10000 in
/-- C20 at the constants of the FIX standard: `7`, `8` and `9` all give
`FIX.5.0`. -/
theorem C20_to_begin_string_witness :
    (Message.applVerIDs Message.standardValues).Nodup ∧
    Message.toBeginString Message.standardValues (ascii "7") = ascii "FIX.5.0" ∧
    Message.toBeginString Message.standardValues (ascii "8") = ascii "FIX.5.0" ∧
    Message.toBeginString Message.standardValues (ascii "9") = ascii "FIX.5.0" :=
  ⟨by decide, (C20_to_begin_string Message.standardValues (by decide)).1,
    (C20_to_begin_string Message.standardValues (by decide)).2.1,
    (C20_to_begin_string Message.standardValues (by decide)).2.2.1⟩

/-! ## Message totals, lengths and serialization -/

theorem addInt32_eq_wrap32 (a b : Int) : addInt32 a b = wrap32 (a + b) := rfl

theorem wrap32_of_isInt32 (z : Int) (h : isInt32 z) : wrap32 z = z :=
  toInt32_toUnsigned z h

theorem wrap32_isInt32 (z : Int) : isInt32 (wrap32 z) := toInt32_isInt32 _

theorem wrap32_add_left (a b : Int) : wrap32 (wrap32 a + b) = wrap32 (a + b) := by
  unfold wrap32 toInt32 toUnsigned
  split <;> split <;> split <;> omega

theorem wrap32_add_right (a b : Int) : wrap32 (a + wrap32 b) = wrap32 (a + b) := by
  rw [Int.add_comm, wrap32_add_left, Int.add_comm]

theorem wrap32_zero : wrap32 0 = 0 := by decide

theorem wrap32_mod_256 (z : Int) : toUnsigned (wrap32 z) % 256 = (z % 256).toNat := by
  unfold wrap32 toInt32 toUnsigned
  split <;> omega

theorem foldl_addInt32 (g : FieldBase → Int) (l : List FieldBase) (acc : Int) :
    l.foldl (fun r f => addInt32 r (g f)) (wrap32 acc) = wrap32 (acc + (l.map g).sum) := by
  induction l generalizing acc with
  | nil => simp
  | cons x t ih =>
    simp only [List.foldl_cons, List.map_cons, List.sum_cons]
    rw [addInt32_eq_wrap32, wrap32_add_left, ih, Int.add_assoc]

theorem foldl_addInt32_filter (g : FieldBase → Int) (p : FieldBase → Prop) [DecidablePred p]
    (l : List FieldBase) (acc : Int) :
    l.foldl (fun r f => if p f then addInt32 r (g f) else r) (wrap32 acc) =
      wrap32 (acc + ((l.filter (fun f => decide (p f))).map g).sum) := by
  induction l generalizing acc with
  | nil => simp
  | cons x t ih =>
    simp only [List.foldl_cons, List.filter_cons]
    by_cases hx : p x
    · simp only [hx, if_true, decide_True, List.map_cons, List.sum_cons]
      rw [addInt32_eq_wrap32, wrap32_add_left, ih, Int.add_assoc]
    · simp only [hx, if_false, decide_False]
      exact ih acc

namespace FieldMap

theorem calculateTotal_eq (m : FieldMap) (cs : Int) :
    m.calculateTotal cs =
      wrap32 (Message.totalSum (m.fields.filter (fun f => decide (f.tag ≠ cs))) +
        Message.totalSum m.groupFields) := by
  unfold calculateTotal Message.totalSum
  simp only []
  have h1 := foldl_addInt32 FieldBase.getTotal
    (m.fields.filter (fun f => decide (f.tag ≠ cs))) 0
  rw [wrap32_zero, Int.zero_add] at h1
  rw [h1, foldl_addInt32]

end FieldMap

theorem checksum_convert_isSome (v : Int) (h0 : 0 ≤ v) (h : v ≤ 255) :
    (CheckSumConvertor.convert v).isSome = true := by
  obtain ⟨n, rfl⟩ := Int.eq_ofNat_of_zero_le h0
  rw [checksum_convert_in_range n (by omega)]
  rfl

theorem checkSum_eq (msg : Message) (cs : Int) :
    Message.checkSum msg cs =
      ((Message.totalSum (msg.m_header.fields.filter (fun f => decide (f.tag ≠ cs))) +
          Message.totalSum msg.m_header.groupFields) +
        (Message.totalSum (msg.body.fields.filter (fun f => decide (f.tag ≠ cs))) +
          Message.totalSum msg.body.groupFields) +
        (Message.totalSum (msg.m_trailer.fields.filter (fun f => decide (f.tag ≠ cs))) +
          Message.totalSum msg.m_trailer.groupFields)) % 256 := by
  unfold Message.checkSum Message.and255
  simp only [FieldMap.calculateTotal_eq, addInt32_eq_wrap32, wrap32_add_left,
    wrap32_add_right]
  have h255 : (255 : Nat) = 2 ^ 8 - 1 := by norm_num
  rw [h255, Nat.and_pow_two_sub_one_eq_mod]
  have h256 : (2 : Nat) ^ 8 = 256 := by norm_num
  rw [h256, wrap32_mod_256]
  omega

theorem checkSum_range (msg : Message) (cs : Int) :
    0 ≤ Message.checkSum msg cs ∧ Message.checkSum msg cs ≤ 255 := by
  rw [checkSum_eq]; omega

/-- C21: `Message::checkSum()` equals (header total + body total + trailer
total) mod 256, each total being the byte sum of the map without the CheckSum
field; the result lies in 0..255 also when the `int` sum is large, since it is
masked with 255; so `CheckSumConvertor::convert(msg.checkSum())` never
throws. -/
theorem C21_check_sum (msg : Message) :
    Message.checkSum msg FIELD.CheckSum =
      ((Message.totalSum (msg.m_header.fields.filter (fun f => decide (f.tag ≠ FIELD.CheckSum))) +
          Message.totalSum msg.m_header.groupFields) +
        (Message.totalSum (msg.body.fields.filter (fun f => decide (f.tag ≠ FIELD.CheckSum))) +
          Message.totalSum msg.body.groupFields) +
        (Message.totalSum (msg.m_trailer.fields.filter (fun f => decide (f.tag ≠ FIELD.CheckSum))) +
          Message.totalSum msg.m_trailer.groupFields)) % 256 ∧
    0 ≤ Message.checkSum msg FIELD.CheckSum ∧ Message.checkSum msg FIELD.CheckSum ≤ 255 ∧
    (CheckSumConvertor.convert (Message.checkSum msg FIELD.CheckSum)).isSome = true :=
  ⟨checkSum_eq msg FIELD.CheckSum, (checkSum_range msg FIELD.CheckSum).1,
    (checkSum_range msg FIELD.CheckSum).2,
    checksum_convert_isSome _ (checkSum_range msg FIELD.CheckSum).1
      (checkSum_range msg FIELD.CheckSum).2⟩

namespace Message

theorem countGroups_eq (m : FieldMap) :
    FieldCounter.countGroups m = wrap32 (lengthSum m.groupFields) := by
  unfold FieldCounter.countGroups lengthSum
  have h := foldl_addInt32 FieldBase.getLength m.groupFields 0
  rw [wrap32_zero, Int.zero_add] at h
  exact h

theorem countBody_eq (m : FieldMap) :
    FieldCounter.countBody m = wrap32 (lengthSum m.fields + lengthSum m.groupFields) := by
  unfold FieldCounter.countBody
  simp only []
  have h := foldl_addInt32 FieldBase.getLength m.fields 0
  rw [wrap32_zero, Int.zero_add] at h
  rw [h, countGroups_eq, addInt32_eq_wrap32, wrap32_add_left, wrap32_add_right]
  rfl

theorem countTrailer_eq (acc : Int) (p : Int) (m : FieldMap) :
    FieldCounter.countTrailer ⟨wrap32 acc, p⟩ m =
      ⟨wrap32 (acc + lengthSum (m.fields.filter (fun f => decide (f.tag ≠ FIELD.CheckSum))) +
        lengthSum m.groupFields), p⟩ := by
  unfold FieldCounter.countTrailer
  simp only []
  have h := foldl_addInt32_filter FieldBase.getLength (fun f => f.tag ≠ FIELD.CheckSum)
    m.fields acc
  rw [h, countGroups_eq, addInt32_eq_wrap32, wrap32_add_left, wrap32_add_right]
  rfl

theorem countHeader_eq (m : FieldMap) :
    FieldCounter.countHeader ⟨0, 0⟩ m =
      ⟨wrap32 (lengthSum (dropLeading FIELD.BodyLength (dropLeading FIELD.BeginString m.fields)) +
          lengthSum m.groupFields),
        match m.fields with
        | [] => 0
        | f :: _ => if f.tag = FIELD.BeginString then f.getLength else 0⟩ := by
  have hf : ∀ l : List FieldBase,
      l.foldl (fun r f => addInt32 r f.getLength) 0 = wrap32 (lengthSum l) := by
    intro l
    have h := foldl_addInt32 FieldBase.getLength l 0
    rw [wrap32_zero, Int.zero_add] at h
    exact h
  have hf' : ∀ l : List FieldBase,
      l.foldl (fun r f => wrap32 (r + f.getLength)) 0 = wrap32 (lengthSum l) := hf
  unfold FieldCounter.countHeader
  rw [countGroups_eq]
  cases hm : m.fields with
  | nil =>
    simp only [dropLeading, addInt32_eq_wrap32, wrap32_add_right, lengthSum, List.map_nil,
      List.sum_nil]
  | cons first rest =>
    simp only []
    by_cases h8 : first.tag = FIELD.BeginString
    · simp only [h8, if_true, dropLeading]
      cases rest with
      | nil =>
        simp only [dropLeading, List.foldl_nil, addInt32_eq_wrap32, wrap32_add_right, lengthSum,
          List.map_nil, List.sum_nil]
      | cons second rest2 =>
        by_cases h9 : second.tag = FIELD.BodyLength
        · simp only [h9, if_true, dropLeading, addInt32_eq_wrap32, hf', wrap32_add_left,
            wrap32_add_right]
        · simp only [h9, if_false, dropLeading, addInt32_eq_wrap32, hf', wrap32_add_left,
            wrap32_add_right]
    · simp only [h8, if_false, dropLeading]
      by_cases h9 : first.tag = FIELD.BodyLength
      · simp only [h9, if_true, addInt32_eq_wrap32, hf', wrap32_add_left, wrap32_add_right]
      · simp only [h9, if_false, addInt32_eq_wrap32, hf', wrap32_add_left, wrap32_add_right]

end Message

namespace Message

theorem canonical_rest (m : FieldMap) (h : canonicalHeader m = true) :
    dropLeading FIELD.BodyLength (dropLeading FIELD.BeginString m.fields) =
      m.fields.filter (fun f => decide (f.tag ≠ FIELD.BeginString) &&
        decide (f.tag ≠ FIELD.BodyLength)) := by
  unfold canonicalHeader at h
  have h89 : FIELD.BeginString ≠ FIELD.BodyLength := by decide
  cases hm : m.fields with
  | nil => simp [dropLeading]
  | cons first rest =>
    rw [hm] at h
    by_cases h8 : first.tag = FIELD.BeginString
    · simp only [dropLeading, h8, if_true] at h ⊢
      rw [List.filter_cons_of_neg (by simp [h8])]
      cases rest with
      | nil => simp [dropLeading]
      | cons second rest2 =>
        by_cases h9 : second.tag = FIELD.BodyLength
        · simp only [dropLeading, h9, if_true] at h ⊢
          rw [List.filter_cons_of_neg (by simp [h9])]
          exact (List.filter_eq_self.2 (by simpa [List.all_eq_true] using h)).symm
        · simp only [dropLeading, h9, if_false] at h ⊢
          exact (List.filter_eq_self.2 (by simpa [List.all_eq_true] using h)).symm
    · simp only [dropLeading, h8, if_false] at h ⊢
      by_cases h9 : first.tag = FIELD.BodyLength
      · simp only [h9, if_true] at h ⊢
        rw [List.filter_cons_of_neg (by simp [h9])]
        exact (List.filter_eq_self.2 (by simpa [List.all_eq_true] using h)).symm
      · simp only [h9, if_false] at h ⊢
        exact (List.filter_eq_self.2 (by simpa [List.all_eq_true] using h)).symm

theorem canonical_prefix (m : FieldMap) (h : canonicalHeader m = true) :
    (match m.fields with
      | [] => (0 : Int)
      | f :: _ => if f.tag = FIELD.BeginString then f.getLength else 0) =
    (match m.find FIELD.BeginString with
      | some f => f.getLength
      | none => 0) := by
  have hr := canonical_rest m h
  unfold FieldMap.find
  cases hm : m.fields with
  | nil => simp
  | cons first rest =>
    rw [hm] at hr
    by_cases h8 : first.tag = FIELD.BeginString
    · simp [h8]
    · have hnone : (first :: rest).find? (fun f => decide (f.tag = FIELD.BeginString)) = none := by
        rw [List.find?_eq_none]
        intro x hx
        simp only [decide_eq_true_eq]
        intro hx8
        have hmem : x ∈ dropLeading FIELD.BodyLength
            (dropLeading FIELD.BeginString (first :: rest)) := by
          simp only [dropLeading, h8, if_false]
          rcases List.mem_cons.1 hx with rfl | hx'
          · exact absurd hx8 h8
          · split
            · exact hx'
            · exact List.mem_cons_of_mem _ hx'
        rw [hr] at hmem
        have := (List.mem_filter.1 hmem).2
        simp [hx8] at this
      rw [hnone]
      simp [h8]

theorem ofMessage_eq (msg : Message) :
    FieldCounter.ofMessage msg =
      ⟨wrap32 (lengthSum (dropLeading FIELD.BodyLength
            (dropLeading FIELD.BeginString msg.m_header.fields)) +
          lengthSum msg.m_header.groupFields +
          (lengthSum msg.body.fields + lengthSum msg.body.groupFields) +
          lengthSum (msg.m_trailer.fields.filter (fun f => decide (f.tag ≠ FIELD.CheckSum))) +
          lengthSum msg.m_trailer.groupFields),
        match msg.m_header.fields with
        | [] => 0
        | f :: _ => if f.tag = FIELD.BeginString then f.getLength else 0⟩ := by
  unfold FieldCounter.ofMessage
  simp only [countHeader_eq, countBody_eq, addInt32_eq_wrap32, wrap32_add_left, wrap32_add_right,
    countTrailer_eq]

end Message

/-- C22: for a message whose header iterates in canonical order (BeginString
first, BodyLength next, each when present), `FieldCounter(msg).getBodyLength()`
is the sum, as an `int`, of the serialized lengths of every header field other
than BeginString and BodyLength, every body field, every trailer field other
than CheckSum, and the repeating groups of the three maps (the sum itself when
it fits an `int`); `getBeginStringLength()` is the serialized length of the
BeginString field, 0 when there is none. -/
theorem C22_field_counter (msg : Message) (hcanon : Message.canonicalHeader msg.m_header = true) :
    (Message.FieldCounter.ofMessage msg).getBodyLength =
      wrap32 (Message.lengthSum (msg.m_header.fields.filter (fun f =>
            decide (f.tag ≠ FIELD.BeginString) && decide (f.tag ≠ FIELD.BodyLength))) +
          Message.lengthSum msg.m_header.groupFields +
          (Message.lengthSum msg.body.fields + Message.lengthSum msg.body.groupFields) +
          Message.lengthSum (msg.m_trailer.fields.filter (fun f =>
            decide (f.tag ≠ FIELD.CheckSum))) +
          Message.lengthSum msg.m_trailer.groupFields) ∧
    (isInt32 (Message.lengthSum (msg.m_header.fields.filter (fun f =>
            decide (f.tag ≠ FIELD.BeginString) && decide (f.tag ≠ FIELD.BodyLength))) +
          Message.lengthSum msg.m_header.groupFields +
          (Message.lengthSum msg.body.fields + Message.lengthSum msg.body.groupFields) +
          Message.lengthSum (msg.m_trailer.fields.filter (fun f =>
            decide (f.tag ≠ FIELD.CheckSum))) +
          Message.lengthSum msg.m_trailer.groupFields) →
      (Message.FieldCounter.ofMessage msg).getBodyLength =
        Message.lengthSum (msg.m_header.fields.filter (fun f =>
            decide (f.tag ≠ FIELD.BeginString) && decide (f.tag ≠ FIELD.BodyLength))) +
          Message.lengthSum msg.m_header.groupFields +
          (Message.lengthSum msg.body.fields + Message.lengthSum msg.body.groupFields) +
          Message.lengthSum (msg.m_trailer.fields.filter (fun f =>
            decide (f.tag ≠ FIELD.CheckSum))) +
          Message.lengthSum msg.m_trailer.groupFields) ∧
    (Message.FieldCounter.ofMessage msg).getBeginStringLength =
      (match msg.m_header.find FIELD.BeginString with
        | some f => f.getLength
        | none => 0) := by
  have hb : (Message.FieldCounter.ofMessage msg).getBodyLength =
      wrap32 (Message.lengthSum (msg.m_header.fields.filter (fun f =>
            decide (f.tag ≠ FIELD.BeginString) && decide (f.tag ≠ FIELD.BodyLength))) +
          Message.lengthSum msg.m_header.groupFields +
          (Message.lengthSum msg.body.fields + Message.lengthSum msg.body.groupFields) +
          Message.lengthSum (msg.m_trailer.fields.filter (fun f =>
            decide (f.tag ≠ FIELD.CheckSum))) +
          Message.lengthSum msg.m_trailer.groupFields) := by
    rw [Message.ofMessage_eq, Message.canonical_rest _ hcanon]
    rfl
  refine ⟨hb, ?_, ?_⟩
  · intro h
    rw [hb, wrap32_of_isInt32 _ h]
  · rw [Message.ofMessage_eq]
    exact Message.canonical_prefix _ hcanon

set_option maxRecDepth 10000 in
/-- C22 at the heartbeat example: the header is canonical, and the BeginString
length is the serialized length of `8=FIX.4.2`. -/
theorem C22_field_counter_witness :
    Message.canonicalHeader Message.heartbeat.m_header = true ∧
    (Message.FieldCounter.ofMessage Message.heartbeat).getBeginStringLength =
      (FieldBase.mk 8 (ascii "FIX.4.2")).getLength :=
  ⟨by decide, (C22_field_counter Message.heartbeat (by decide)).2.2⟩

namespace FieldMap

theorem find_insertOrdered (o : message_order) (f : FieldBase) (l : List FieldBase) (t : Int)
    (hno : ∀ g ∈ l, g.tag ≠ f.tag) :
    (insertOrdered o f l).find? (fun g => decide (g.tag = t)) =
      if f.tag = t then some f else l.find? (fun g => decide (g.tag = t)) := by
  induction l with
  | nil =>
    by_cases h : f.tag = t <;> simp [insertOrdered, h]
  | cons g r ih =>
    have hg : g.tag ≠ f.tag := hno g (List.mem_cons_self _ _)
    have ih' := ih (fun x hx => hno x (List.mem_cons_of_mem _ hx))
    simp only [insertOrdered]
    by_cases hb : o.before f.tag g.tag = true
    · rw [if_pos hb]
      by_cases h : f.tag = t
      · simp [h]
      · simp [h, List.find?_cons]
    · rw [if_neg hb]
      by_cases h : f.tag = t
      · have hgt : g.tag ≠ t := fun e => hg (e.trans h.symm)
        rw [List.find?_cons_of_neg _ (by simpa using hgt), ih', if_pos h, if_pos h]
      · rw [if_neg h]
        by_cases hgt : g.tag = t
        · simp [hgt]
        · rw [List.find?_cons_of_neg _ (by simpa using hgt),
            List.find?_cons_of_neg _ (by simpa using hgt), ih', if_neg h]

theorem find_replace (f : FieldBase) (l : List FieldBase) (t : Int)
    (hex : ∃ g ∈ l, g.tag = f.tag) :
    (l.map (fun g => if g.tag = f.tag then f else g)).find? (fun g => decide (g.tag = t)) =
      if f.tag = t then some f else l.find? (fun g => decide (g.tag = t)) := by
  induction l with
  | nil => obtain ⟨g, hg, _⟩ := hex; simp at hg
  | cons g r ih =>
    simp only [List.map_cons]
    by_cases hg : g.tag = f.tag
    · rw [if_pos hg]
      by_cases h : f.tag = t
      · simp [h]
      · have hgt : g.tag ≠ t := fun e => h (hg.symm.trans e)
        rw [if_neg h, List.find?_cons_of_neg _ (by simpa using h),
          List.find?_cons_of_neg _ (by simpa using hgt)]
        by_cases hex' : ∃ x ∈ r, x.tag = f.tag
        · rw [ih hex', if_neg h]
        · have : r.map (fun g => if g.tag = f.tag then f else g) = r := by
            conv_rhs => rw [← List.map_id r]
            apply List.map_congr_left
            intro x hx
            have : x.tag ≠ f.tag := fun e => hex' ⟨x, hx, e⟩
            simp [this]
          rw [this]
    · rw [if_neg hg]
      have hex' : ∃ x ∈ r, x.tag = f.tag := by
        obtain ⟨x, hx, hxt⟩ := hex
        rcases List.mem_cons.1 hx with rfl | hx'
        · exact absurd hxt hg
        · exact ⟨x, hx', hxt⟩
      by_cases hgt : g.tag = t
      · have h : f.tag ≠ t := fun e => hg (hgt.trans e.symm)
        simp [hgt, h]
      · rw [List.find?_cons_of_neg _ (by simpa using hgt),
          List.find?_cons_of_neg _ (by simpa using hgt), ih hex']

/-- A lookup after `set_in_ordered`: the field just stored under its own tag,
the old content under every other tag. -/
theorem find_set_in_ordered (m : FieldMap) (f : FieldBase) (t : Int) :
    (m.set_in_ordered f).find t = if f.tag = t then some f else m.find t := by
  unfold set_in_ordered find
  by_cases h : m.fields.any (fun g => decide (g.tag = f.tag)) = true
  · rw [if_pos h]
    exact find_replace f m.fields t (by simpa [List.any_eq_true] using h)
  · rw [if_neg h]
    exact find_insertOrdered m.order f m.fields t (by
      intro g hg e
      exact h (List.any_eq_true.2 ⟨g, hg, by simpa using e⟩))

end FieldMap

namespace Message

theorem lengthSum_nil : lengthSum [] = 0 := rfl

end Message

namespace Message

end Message

namespace Message

end Message

namespace Message

end Message

/-- C24: a freshly constructed `MemoryStore` reports next sender and next target
sequence number 1, and `reset()` leaves every store with both sequence numbers
equal to 1 and an empty message log (and a new creation time). -/
theorem C24_memory_store_initial_and_reset :
    (∀ now : Int, (MemoryStore.new now).getNextSenderMsgSeqNum = 1 ∧
      (MemoryStore.new now).getNextTargetMsgSeqNum = 1) ∧
    (∀ (s : MemoryStore) (now : Int),
      (s.reset now).getNextSenderMsgSeqNum = 1 ∧ (s.reset now).getNextTargetMsgSeqNum = 1 ∧
      (s.reset now).m_messages = [] ∧ (s.reset now).getCreationTime = now) := by
  refine ⟨fun now => ⟨rfl, rfl⟩, fun s now => ⟨rfl, rfl, rfl, rfl⟩⟩

theorem addInt32_one (x : Int) (h : isInt32 x) (hlt : x < 2147483647) : addInt32 x 1 = x + 1 := by
  unfold isInt32 at h
  unfold addInt32 toInt32 toUnsigned
  split <;> omega

/-- C25: for every `MemoryStore` state, `incrNextSenderMsgSeqNum()` leaves the
target number, the stored messages and the creation time unchanged, and when the
sender number is below `INT_MAX` it raises the sender number by exactly 1;
`incrNextTargetMsgSeqNum()` does the same for the target number, whatever the
sender number is; the two setters make the corresponding getter return the value
set and leave the other counter, the log and the creation time unchanged, in
every state. -/
theorem C25_memory_store_counters (s : MemoryStore) :
    ((isInt32 s.m_nextSenderMsgSeqNum → s.m_nextSenderMsgSeqNum < 2147483647 →
        s.incrNextSenderMsgSeqNum.getNextSenderMsgSeqNum = s.getNextSenderMsgSeqNum + 1) ∧
      s.incrNextSenderMsgSeqNum.getNextTargetMsgSeqNum = s.getNextTargetMsgSeqNum ∧
      s.incrNextSenderMsgSeqNum.m_messages = s.m_messages ∧
      s.incrNextSenderMsgSeqNum.getCreationTime = s.getCreationTime) ∧
    ((isInt32 s.m_nextTargetMsgSeqNum → s.m_nextTargetMsgSeqNum < 2147483647 →
        s.incrNextTargetMsgSeqNum.getNextTargetMsgSeqNum = s.getNextTargetMsgSeqNum + 1) ∧
      s.incrNextTargetMsgSeqNum.getNextSenderMsgSeqNum = s.getNextSenderMsgSeqNum ∧
      s.incrNextTargetMsgSeqNum.m_messages = s.m_messages ∧
      s.incrNextTargetMsgSeqNum.getCreationTime = s.getCreationTime) ∧
    (∀ v : Int, (s.setNextSenderMsgSeqNum v).getNextSenderMsgSeqNum = v ∧
      (s.setNextSenderMsgSeqNum v).getNextTargetMsgSeqNum = s.getNextTargetMsgSeqNum ∧
      (s.setNextSenderMsgSeqNum v).m_messages = s.m_messages ∧
      (s.setNextSenderMsgSeqNum v).getCreationTime = s.getCreationTime) ∧
    (∀ v : Int, (s.setNextTargetMsgSeqNum v).getNextTargetMsgSeqNum = v ∧
      (s.setNextTargetMsgSeqNum v).getNextSenderMsgSeqNum = s.getNextSenderMsgSeqNum ∧
      (s.setNextTargetMsgSeqNum v).m_messages = s.m_messages ∧
      (s.setNextTargetMsgSeqNum v).getCreationTime = s.getCreationTime) := by
  refine ⟨⟨fun hs hsmax => addInt32_one _ hs hsmax, rfl, rfl, rfl⟩,
    ⟨fun ht htmax => addInt32_one _ ht htmax, rfl, rfl, rfl⟩,
    fun v => ⟨rfl, rfl, rfl, rfl⟩, fun v => ⟨rfl, rfl, rfl, rfl⟩⟩

/-- C25 at a store with sender number 7, target number `INT_MAX` and one stored
message: the sender increment gives 8 and leaves the target number at
`INT_MAX`; setting the target number to 5 leaves the sender number at 7. -/
theorem C25_memory_store_counters_witness :
    (isInt32 (7 : Int) ∧ (7 : Int) < 2147483647) ∧
    (MemoryStore.incrNextSenderMsgSeqNum ⟨[(1, [65])], 7, 2147483647, 0⟩).getNextSenderMsgSeqNum
      = 8 ∧
    (MemoryStore.incrNextSenderMsgSeqNum ⟨[(1, [65])], 7, 2147483647, 0⟩).getNextTargetMsgSeqNum
      = 2147483647 ∧
    (MemoryStore.setNextTargetMsgSeqNum ⟨[(1, [65])], 7, 2147483647, 0⟩ 5).getNextTargetMsgSeqNum
      = 5 ∧
    (MemoryStore.setNextTargetMsgSeqNum ⟨[(1, [65])], 7, 2147483647, 0⟩ 5).getNextSenderMsgSeqNum
      = 7 :=
  ⟨⟨by decide, by decide⟩,
    (C25_memory_store_counters ⟨[(1, [65])], 7, 2147483647, 0⟩).1.1 (by decide) (by decide),
    (C25_memory_store_counters ⟨[(1, [65])], 7, 2147483647, 0⟩).1.2.1,
    ((C25_memory_store_counters ⟨[(1, [65])], 7, 2147483647, 0⟩).2.2.2 5).1,
    ((C25_memory_store_counters ⟨[(1, [65])], 7, 2147483647, 0⟩).2.2.2 5).2.1⟩

/-- C26: after `addTransportDataDictionary(b, d)`, `getSessionDataDictionary(b)`
returns `d` (the dictionary added last for `b` wins) and the lookups for every
other BeginString, and all application lookups, are unchanged; for a BeginString
never added, `getSessionDataDictionary` returns the provider's empty dictionary;
no lookup throws `DataDictionaryNotFound`; the same holds for
`addApplicationDataDictionary` / `getApplicationDataDictionary`, keyed by
ApplVerID. -/
theorem C26_data_dictionary_provider {D : Type} (p : DataDictionaryProvider D)
    (b : List Byte) (d : D) :
    (p.addTransportDataDictionary b d).getSessionDataDictionary b =
      DataDictionaryProvider.Lookup.returns d ∧
    (∀ d2 : D, ((p.addTransportDataDictionary b d).addTransportDataDictionary b d2
      ).getSessionDataDictionary b = DataDictionaryProvider.Lookup.returns d2) ∧
    (∀ b2 : List Byte, b2 ≠ b →
      (p.addTransportDataDictionary b d).getSessionDataDictionary b2 =
        p.getSessionDataDictionary b2) ∧
    (∀ a : List Byte, (p.addTransportDataDictionary b d).getApplicationDataDictionary a =
      p.getApplicationDataDictionary a) ∧
    (p.m_transportDictionaries b = none →
      p.getSessionDataDictionary b = DataDictionaryProvider.Lookup.returns p.emptyDataDictionary) ∧
    (∃ r : D, p.getSessionDataDictionary b = DataDictionaryProvider.Lookup.returns r) ∧
    (p.addApplicationDataDictionary b d).getApplicationDataDictionary b =
      DataDictionaryProvider.Lookup.returns d ∧
    (∀ d2 : D, ((p.addApplicationDataDictionary b d).addApplicationDataDictionary b d2
      ).getApplicationDataDictionary b = DataDictionaryProvider.Lookup.returns d2) ∧
    (∀ b2 : List Byte, b2 ≠ b →
      (p.addApplicationDataDictionary b d).getApplicationDataDictionary b2 =
        p.getApplicationDataDictionary b2) ∧
    (∀ a : List Byte, (p.addApplicationDataDictionary b d).getSessionDataDictionary a =
      p.getSessionDataDictionary a) ∧
    (p.m_applicationDictionaries b = none →
      p.getApplicationDataDictionary b =
        DataDictionaryProvider.Lookup.returns p.emptyDataDictionary) ∧
    (∃ r : D, p.getApplicationDataDictionary b = DataDictionaryProvider.Lookup.returns r) := by
  refine ⟨?_, ?_, ?_, ?_, ?_, ?_, ?_, ?_, ?_, ?_, ?_, ?_⟩
  · simp [DataDictionaryProvider.addTransportDataDictionary,
      DataDictionaryProvider.getSessionDataDictionary]
  · intro d2
    simp [DataDictionaryProvider.addTransportDataDictionary,
      DataDictionaryProvider.getSessionDataDictionary]
  · intro b2 h
    simp [DataDictionaryProvider.addTransportDataDictionary,
      DataDictionaryProvider.getSessionDataDictionary, h]
  · intro a; rfl
  · intro h
    simp [DataDictionaryProvider.getSessionDataDictionary, h]
  · unfold DataDictionaryProvider.getSessionDataDictionary
    cases p.m_transportDictionaries b with
    | none => exact ⟨_, rfl⟩
    | some x => exact ⟨x, rfl⟩
  · simp [DataDictionaryProvider.addApplicationDataDictionary,
      DataDictionaryProvider.getApplicationDataDictionary]
  · intro d2
    simp [DataDictionaryProvider.addApplicationDataDictionary,
      DataDictionaryProvider.getApplicationDataDictionary]
  · intro b2 h
    simp [DataDictionaryProvider.addApplicationDataDictionary,
      DataDictionaryProvider.getApplicationDataDictionary, h]
  · intro a; rfl
  · intro h
    simp [DataDictionaryProvider.getApplicationDataDictionary, h]
  · unfold DataDictionaryProvider.getApplicationDataDictionary
    cases p.m_applicationDictionaries b with
    | none => exact ⟨_, rfl⟩
    | some x => exact ⟨x, rfl⟩

/-- C27: after `m.setSessionID(s)`, `m.getSessionID(q)` returns the SessionID
`(s.BeginString, s.SenderCompID, s.TargetCompID, q)` for every qualifier `q`, so
`m.getSessionID(s.Qualifier) = s`; `setSessionID` changes only those three
header fields (body and trailer are unchanged); and `getSessionID` throws
`FieldNotFound` whenever BeginString, SenderCompID or TargetCompID is absent
from the header. -/
theorem C27_session_id (m : Message) (s : SessionID) :
    (∀ q : List Byte, (m.setSessionID s).getSessionID q =
      Message.Found.returns ⟨s.beginString, s.senderCompID, s.targetCompID, q⟩) ∧
    (m.setSessionID s).getSessionID s.qualifier = Message.Found.returns s ∧
    (m.setSessionID s).body = m.body ∧ (m.setSessionID s).m_trailer = m.m_trailer ∧
    (m.setSessionID s).m_status = m.m_status ∧
    (m.setSessionID s).m_status_data = m.m_status_data ∧
    (m.setSessionID s).m_header.groupFields = m.m_header.groupFields ∧
    (∀ t : Int, t ≠ FIELD.BeginString → t ≠ FIELD.SenderCompID → t ≠ FIELD.TargetCompID →
      (m.setSessionID s).m_header.find t = m.m_header.find t) ∧
    (∀ q : List Byte,
      (m.m_header.find FIELD.BeginString = none ∨ m.m_header.find FIELD.SenderCompID = none ∨
        m.m_header.find FIELD.TargetCompID = none) →
      m.getSessionID q = Message.Found.throwsFieldNotFound) := by
  have h8 : (m.setSessionID s).m_header.find FIELD.BeginString = some s.getBeginString := by
    simp only [Message.setSessionID, FieldMap.find_set_in_ordered]
    simp [SessionID.getBeginString, SessionID.getSenderCompID, SessionID.getTargetCompID,
      FIELD.BeginString, FIELD.SenderCompID, FIELD.TargetCompID]
  have h49 : (m.setSessionID s).m_header.find FIELD.SenderCompID = some s.getSenderCompID := by
    simp only [Message.setSessionID, FieldMap.find_set_in_ordered]
    simp [SessionID.getBeginString, SessionID.getSenderCompID, SessionID.getTargetCompID,
      FIELD.BeginString, FIELD.SenderCompID, FIELD.TargetCompID]
  have h56 : (m.setSessionID s).m_header.find FIELD.TargetCompID = some s.getTargetCompID := by
    simp only [Message.setSessionID, FieldMap.find_set_in_ordered]
    simp [SessionID.getBeginString, SessionID.getSenderCompID, SessionID.getTargetCompID,
      FIELD.BeginString, FIELD.SenderCompID, FIELD.TargetCompID]
  have hget : ∀ q : List Byte, (m.setSessionID s).getSessionID q =
      Message.Found.returns ⟨s.beginString, s.senderCompID, s.targetCompID, q⟩ := by
    intro q
    simp only [Message.getSessionID, Message.getField, h8, h49, h56]
    rfl
  refine ⟨hget, hget s.qualifier, rfl, rfl, rfl, rfl, ?_, ?_, ?_⟩
  · simp only [Message.setSessionID, FieldMap.set_in_ordered]
    split <;> split <;> split <;> rfl
  · intro t t8 t49 t56
    simp only [Message.setSessionID, FieldMap.find_set_in_ordered]
    simp [SessionID.getBeginString, SessionID.getSenderCompID, SessionID.getTargetCompID,
      Ne.symm t8, Ne.symm t49, Ne.symm t56]
  · intro q h
    unfold Message.getSessionID Message.getField
    rcases h with h | h | h
    · simp [h]
    · rw [h]
      cases m.m_header.find FIELD.BeginString <;> simp
    · rw [h]
      cases m.m_header.find FIELD.BeginString <;>
        cases m.m_header.find FIELD.SenderCompID <;> simp

theorem getStatusBit_zero (st : Nat) :
    Message.getStatusBit st Message.tag_out_of_order = st.testBit 0 := by
  unfold Message.getStatusBit Message.tag_out_of_order
  rw [Nat.testBit_to_div_mod]
  simp only [Nat.shiftLeft_zero, Nat.and_one_is_mod, pow_zero, Nat.div_one]
  rcases Nat.mod_two_eq_zero_or_one st with h | h <;> simp [h]

/-- C28: `Message::hasValidStructure(field)` returns false exactly when the
`tag_out_of_order` status bit is set, and then stores the recorded status data
in `field`; otherwise it returns true and leaves `field` unchanged, also when
the status is `invalid_tag_format` or `incorrect_data_format`. -/
theorem C28_has_valid_structure (m_status : Nat) (m_status_data : Int) (field : Int) :
    Message.hasValidStructure m_status m_status_data field =
      (if m_status.testBit Message.tag_out_of_order = true then
        (false, toInt32 (toUnsigned m_status_data))
      else (true, field)) ∧
    (isInt32 m_status_data → toInt32 (toUnsigned m_status_data) = m_status_data) ∧
    ((Message.hasValidStructure m_status m_status_data field).1 = false ↔
      m_status.testBit Message.tag_out_of_order = true) ∧
    Message.hasValidStructure (1 <<< Message.invalid_tag_format) m_status_data field =
      (true, field) ∧
    Message.hasValidStructure (1 <<< Message.incorrect_data_format) m_status_data field =
      (true, field) ∧
    Message.hasValidStructure (1 <<< Message.tag_out_of_order) 58 field = (false, 58) := by
  have key : Message.hasValidStructure m_status m_status_data field =
      (if m_status.testBit Message.tag_out_of_order = true then
        (false, toInt32 (toUnsigned m_status_data))
      else (true, field)) := by
    unfold Message.hasValidStructure
    rw [getStatusBit_zero]; rfl
  refine ⟨key, toInt32_toUnsigned m_status_data, ?_, rfl, rfl, rfl⟩
  rw [key]
  by_cases h : m_status.testBit Message.tag_out_of_order = true
  · simp [h]
  · simp [h]

/-! ## Integer parsing and validation -/

set_option maxRecDepth 100000 in
theorem mem_digit_set : ∀ b : Byte, (b ≠ 0 ∧ b ∈ ascii "0123456789") ↔ isdigit b = true := by
  decide

theorem strspn_digits_le (l : List Byte) : strspn l (ascii "0123456789") ≤ l.length := by
  induction l with
  | nil => simp [strspn]
  | cons b t ih =>
    simp only [strspn, List.length_cons]
    split <;> omega

theorem strspn_digits_eq_length (l : List Byte) :
    strspn l (ascii "0123456789") = l.length ↔ ∀ b ∈ l, isdigit b = true := by
  induction l with
  | nil => simp [strspn]
  | cons b t ih =>
    have hle := strspn_digits_le t
    simp only [strspn, List.length_cons, List.mem_cons, forall_eq_or_imp, mem_digit_set b]
    by_cases hb : isdigit b = true
    · rw [if_pos hb, ← ih]
      constructor
      · intro h; exact ⟨hb, by omega⟩
      · intro h; omega
    · rw [if_neg hb]
      constructor
      · intro h; omega
      · intro h; exact absurd h.1 hb

namespace IntConvertor

theorem int_validate_iff (s : List Byte) :
    validate s = true ↔
      ∃ ds : List Byte, (s = ds ∨ s = 45 :: ds) ∧ ∀ b ∈ ds, isdigit b = true := by
  unfold validate
  simp only [decide_eq_true_eq]
  by_cases hneg : cAt s 0 = 45
  · obtain ⟨t, rfl⟩ := (cAt_zero_eq_minus s).1 hneg
    simp only [cAt_zero_cons, if_true, List.drop_succ_cons, List.drop_zero, List.length_cons,
      Nat.add_sub_cancel, strspn_digits_eq_length]
    constructor
    · intro h; exact ⟨t, Or.inr rfl, h⟩
    · rintro ⟨ds, h | h, hd⟩
      · exact absurd (hd 45 (by rw [← h]; simp)) (by decide)
      · simp only [List.cons.injEq, true_and] at h
        rw [h]; exact hd
  · simp only [if_neg hneg, List.drop_zero, Nat.sub_zero, strspn_digits_eq_length]
    constructor
    · intro h; exact ⟨s, Or.inl rfl, h⟩
    · rintro ⟨ds, h | h, hd⟩
      · rw [h]; exact hd
      · exact absurd ((cAt_zero_eq_minus s).2 ⟨ds, h⟩) hneg

end IntConvertor

set_option maxRecDepth 10000 in
/-- C29: for every string `IntConvertor::parse` accepts, with `D` the decimal
value of its digit part, the result is `D` reduced modulo `2^32` and read as a
signed 32-bit int, negated modulo `2^32` when the string starts with `-`; it is
the mathematical signed value whenever `D <= 2^31 - 1`; ten-digit inputs above
that, such as `9999999999`, are accepted with a wrapped value.  The
pointer-range overload computes the same. -/
theorem C29_int_parse_value (ds : List Byte) (h1 : 1 ≤ ds.length) (h10 : ds.length ≤ 10)
    (hd : ∀ b ∈ ds, isdigit b = true) :
    IntConvertor.parse ds = some (toInt32 (decimalValue ds)) ∧
    IntConvertor.parse (45 :: ds) =
      some (toInt32 (toUnsigned (-(toInt32 (decimalValue ds))))) ∧
    (decimalValue ds ≤ 2147483647 →
      IntConvertor.parse ds = some (decimalValue ds : Int) ∧
      IntConvertor.parse (45 :: ds) = some (-(decimalValue ds : Int))) ∧
    IntConvertor.parseRange ds = IntConvertor.parse ds ∧
    IntConvertor.parseRange (45 :: ds) = IntConvertor.parse (45 :: ds) ∧
    IntConvertor.parse (ascii "9999999999") = some 1410065407 ∧
    IntConvertor.parse (ascii "-9999999999") = some (-1410065407) ∧
    IntConvertor.parse (ascii "2147483648") = some (-2147483648) := by
  have hp := IntConvertor.parse_digits ds h1 h10 hd
  have hm := IntConvertor.parse_minus_digits ds h1 h10 hd
  refine ⟨hp, hm, ?_, rfl, rfl, by decide, by decide, by decide⟩
  intro hle
  rw [hp, hm, toInt32_of_lt _ (by omega)]
  refine ⟨rfl, ?_⟩
  congr 1
  unfold toInt32 toUnsigned
  split <;> omega

set_option maxRecDepth 10000 in
/-- C29 at `2147483647`. -/
theorem C29_int_parse_value_witness :
    (1 ≤ (ascii "2147483647").length ∧ (ascii "2147483647").length ≤ 10 ∧
      ∀ b ∈ ascii "2147483647", isdigit b = true) ∧
    IntConvertor.parse (ascii "2147483647") = some (toInt32 (decimalValue (ascii "2147483647"))) :=
  ⟨⟨by decide, by decide, by decide⟩,
    (C29_int_parse_value (ascii "2147483647") (by decide) (by decide) (by decide)).1⟩

set_option maxRecDepth 10000 in
/-- C30 (as stated, refuted): `IntConvertor::validate` accepts the empty string,
`-` and a string of eleven digits, none of which `IntConvertor::parse`
accepts. -/
theorem C30_int_validate_accepts_unparsable :
    IntConvertor.validate (ascii "") = true ∧ IntConvertor.parse (ascii "") = none ∧
    IntConvertor.validate (ascii "-") = true ∧ IntConvertor.parse (ascii "-") = none ∧
    IntConvertor.validate (ascii "12345678901") = true ∧
    IntConvertor.parse (ascii "12345678901") = none := by
  refine ⟨?_, ?_, ?_, ?_, ?_, ?_⟩ <;> decide

/-- C30 (amended): `IntConvertor::validate(s)` is true if and only if every byte
of `s` after an optional leading `-` is a decimal digit; the number of digits is
not bounded, neither below nor above, so validate does not imply that
`IntConvertor::parse` succeeds; whenever parse succeeds, validate is true. -/
theorem C30_int_validate_digits_only (s : List Byte) :
    (IntConvertor.validate s = true ↔
      ∃ ds : List Byte, (s = ds ∨ s = 45 :: ds) ∧ ∀ b ∈ ds, isdigit b = true) ∧
    ((IntConvertor.parse s).isSome = true → IntConvertor.validate s = true) := by
  refine ⟨IntConvertor.int_validate_iff s, ?_⟩
  intro h
  obtain ⟨ds, hs, _, _, hd⟩ := (IntConvertor.parse_isSome_iff s).1 h
  exact (IntConvertor.int_validate_iff s).2 ⟨ds, hs, hd⟩

/-! ## Decimal validation and the two parse overloads -/

theorem double_parse_isSome_iff (s : List Byte) (hnul : ∀ b ∈ s, b ≠ 0) :
    (DoubleConvertor.parse s).isSome = true ↔
      DoubleConvertor.isUnsignedDecimal s ∨
        ∃ t, s = 45 :: t ∧ DoubleConvertor.isUnsignedDecimal t := by
  rw [DoubleConvertor.parse_eq_body]
  cases s with
  | nil =>
    simp only [cAt, List.getD, List.getElem?_nil, Option.getD_none, ne_eq, not_true_eq_false,
      if_false]
    constructor
    · intro h; simp at h
    · rintro (h | ⟨t, ht, _⟩)
      · exact absurd h not_isUnsignedDecimal_nil
      · simp at ht
  | cons c t =>
    have hc0 : c ≠ 0 := hnul c (List.mem_cons_self _ _)
    rw [IntConvertor.cAt_zero_cons, if_pos hc0]
    by_cases hc : c = 45
    · subst hc
      rw [if_neg (by simp)]
      have hcat1 : cAt (45 :: t) 1 = cAt t 0 := by simp [cAt]
      rw [hcat1]
      have hb := DoubleConvertor.body_isSome_iff (45 :: t) false 1
        (by simpa using fun b hb => hnul b (List.mem_cons_of_mem _ hb))
      simp only [List.drop_succ_cons, List.drop_zero] at hb
      cases t with
      | nil =>
        simp only [cAt, List.getD, List.getElem?_nil, Option.getD_none, ne_eq,
          not_true_eq_false, if_false]
        constructor
        · intro h; simp at h
        · rintro (h | ⟨u, hu, h⟩)
          · exact absurd h (not_isUnsignedDecimal_minus [])
          · simp only [List.cons.injEq, true_and] at hu
            subst hu
            exact absurd h not_isUnsignedDecimal_nil
      | cons d u =>
        have hd0 : d ≠ 0 := hnul d (by simp)
        rw [IntConvertor.cAt_zero_cons, if_pos hd0, hb]
        constructor
        · intro h; exact Or.inr ⟨d :: u, rfl, h⟩
        · rintro (h | ⟨v, hv, h⟩)
          · exact absurd h (not_isUnsignedDecimal_minus _)
          · simp only [List.cons.injEq, true_and] at hv
            rw [hv]; exact h
    · rw [if_pos hc]
      have h := DoubleConvertor.body_isSome_iff (c :: t) true 0 (by simpa using hnul)
      rw [h, List.drop_zero]
      constructor
      · intro h; exact Or.inl h
      · rintro (h | ⟨v, hv, _⟩)
        · exact h
        · simp only [List.cons.injEq] at hv
          exact absurd hv.1 hc

set_option maxRecDepth 100000 in
theorem mem_digit_dot_set : ∀ b : Byte,
    (b ≠ 0 ∧ b ∈ ascii "0123456789.") ↔ (isdigit b = true ∨ b = 46) := by
  decide

theorem strspn_digit_dot_le (l : List Byte) : strspn l (ascii "0123456789.") ≤ l.length := by
  induction l with
  | nil => simp [strspn]
  | cons b t ih =>
    simp only [strspn, List.length_cons]
    split <;> omega

theorem strspn_digit_dot_eq_length (l : List Byte) :
    strspn l (ascii "0123456789.") = l.length ↔ ∀ b ∈ l, isdigit b = true ∨ b = 46 := by
  induction l with
  | nil => simp [strspn]
  | cons b t ih =>
    have hle := strspn_digit_dot_le t
    simp only [strspn, List.length_cons, List.mem_cons, forall_eq_or_imp, mem_digit_dot_set b]
    by_cases hb : isdigit b = true ∨ b = 46
    · rw [if_pos hb, ← ih]
      constructor
      · intro h; exact ⟨hb, by omega⟩
      · intro h; omega
    · rw [if_neg hb]
      constructor
      · intro h; omega
      · intro h; exact absurd h.1 hb

theorem double_validate_iff (s : List Byte) :
    DoubleConvertor.validate s = true ↔
      ∃ r : List Byte, (s = r ∨ s = 45 :: r) ∧ ∀ b ∈ r, isdigit b = true ∨ b = 46 := by
  unfold DoubleConvertor.validate
  simp only [decide_eq_true_eq]
  by_cases hneg : cAt s 0 = 45
  · obtain ⟨t, rfl⟩ := (IntConvertor.cAt_zero_eq_minus s).1 hneg
    simp only [IntConvertor.cAt_zero_cons, if_true, List.drop_succ_cons, List.drop_zero,
      List.length_cons, Nat.add_sub_cancel, strspn_digit_dot_eq_length]
    constructor
    · intro h; exact ⟨t, Or.inr rfl, h⟩
    · rintro ⟨ds, h | h, hd⟩
      · rcases hd 45 (by rw [← h]; simp) with h45 | h45
        · exact absurd h45 (by decide)
        · exact absurd h45 (by decide)
      · simp only [List.cons.injEq, true_and] at h
        rw [h]; exact hd
  · simp only [if_neg hneg, List.drop_zero, Nat.sub_zero, strspn_digit_dot_eq_length]
    constructor
    · intro h; exact ⟨s, Or.inl rfl, h⟩
    · rintro ⟨ds, h | h, hd⟩
      · rw [h]; exact hd
      · exact absurd ((IntConvertor.cAt_zero_eq_minus s).2 ⟨ds, h⟩) hneg

theorem isUnsignedDecimal_bytes (r : List Byte) (h : DoubleConvertor.isUnsignedDecimal r) :
    ∀ b ∈ r, isdigit b = true ∨ b = 46 := by
  obtain ⟨ip, dt, fp, hr, hip, hdot, hfp, _⟩ := h
  intro b hb
  rw [hr] at hb
  simp only [List.mem_append] at hb
  rcases hb with (hb | hb) | hb
  · exact Or.inl (hip b hb)
  · rcases hdot with ⟨rfl, _⟩ | rfl
    · simp at hb
    · right; simpa using hb
  · exact Or.inl (hfp b hb)

set_option maxRecDepth 10000 in
/-- C31 (as stated, refuted): `DoubleConvertor::validate` accepts the empty
string, `-`, `.`, `..` and `1.2.3`, none of which `DoubleConvertor::parse`
accepts. -/
theorem C31_double_validate_accepts_unparsable :
    DoubleConvertor.validate (ascii "") = true ∧ DoubleConvertor.parse (ascii "") = none ∧
    DoubleConvertor.validate (ascii "-") = true ∧ DoubleConvertor.parse (ascii "-") = none ∧
    DoubleConvertor.validate (ascii ".") = true ∧ DoubleConvertor.parse (ascii ".") = none ∧
    DoubleConvertor.validate (ascii "..") = true ∧ DoubleConvertor.parse (ascii "..") = none ∧
    DoubleConvertor.validate (ascii "1.2.3") = true ∧
    DoubleConvertor.parse (ascii "1.2.3") = none := by
  refine ⟨?_, ?_, ?_, ?_, ?_, ?_, ?_, ?_, ?_, ?_⟩ <;> decide

/-- C31 (amended): `DoubleConvertor::validate(s)` is true if and only if every
byte of `s` after an optional leading `-` is a decimal digit or `.`; neither the
number of dots nor the number of digits is bounded, so validate does not imply
that `DoubleConvertor::parse` succeeds; for a NUL-free string, whenever parse
succeeds, validate is true. -/
theorem C31_double_validate_digits_and_dots (s : List Byte) :
    (DoubleConvertor.validate s = true ↔
      ∃ r : List Byte, (s = r ∨ s = 45 :: r) ∧ ∀ b ∈ r, isdigit b = true ∨ b = 46) ∧
    ((∀ b ∈ s, b ≠ 0) → (DoubleConvertor.parse s).isSome = true →
      DoubleConvertor.validate s = true) := by
  refine ⟨double_validate_iff s, ?_⟩
  intro hnul h
  rcases (double_parse_isSome_iff s hnul).1 h with hs | ⟨t, hs, ht⟩
  · exact (double_validate_iff s).2 ⟨s, Or.inl rfl, isUnsignedDecimal_bytes s hs⟩
  · exact (double_validate_iff s).2 ⟨t, Or.inr hs, isUnsignedDecimal_bytes t ht⟩

namespace DoubleConvertor

theorem scanDigits_add (l : List Byte) (p : Nat) : scanDigits l p = p + scanDigits l 0 := by
  induction l generalizing p with
  | nil => simp [scanDigits]
  | cons b t ih =>
    simp only [scanDigits]
    split
    · rw [ih (p + 1), ih (0 + 1)]; omega
    · omega

theorem scanDigits_stop (ip : List Byte) (c : Byte) (t : List Byte)
    (hip : ∀ b ∈ ip, isdigit b = true) (hc : isdigit c = false) :
    scanDigits (ip ++ c :: t) 0 = ip.length + 1 := by
  induction ip with
  | nil => simp [scanDigits, hc]
  | cons d u ih =>
    have hd := hip d (List.mem_cons_self _ _)
    have ih' := ih (fun b hb => hip b (List.mem_cons_of_mem _ hb))
    show scanDigits (d :: (u ++ c :: t)) 0 = (d :: u).length + 1
    simp only [scanDigits, hd, if_true]
    rw [scanDigits_add, ih']
    simp only [List.length_cons]
    omega

theorem isdigit_ne (b : Byte) (h : isdigit b = true) : b ≠ 0 ∧ b ≠ 45 ∧ b ≠ 46 := by
  refine ⟨?_, ?_, ?_⟩ <;> (intro hb; subst hb; exact absurd h (by decide))

theorem parseRange_fraction (ip fp : List Byte) (hip : ip ≠ []) (hfp : fp ≠ [])
    (hipd : ∀ b ∈ ip, isdigit b = true) (hfpd : ∀ b ∈ fp, isdigit b = true) :
    parseRange (ip ++ 46 :: fp) = none := by
  obtain ⟨d, u, rfl⟩ := List.exists_cons_of_ne_nil hip
  obtain ⟨f, v, rfl⟩ := List.exists_cons_of_ne_nil hfp
  have hd := isdigit_ne d (hipd d (List.mem_cons_self _ _))
  have hf := isdigit_ne f (hfpd f (List.mem_cons_self _ _))
  have h0 : cAt (d :: u ++ 46 :: f :: v) 0 = d := rfl
  have hscan : scanDigits (d :: u ++ 46 :: f :: v) 0 = (d :: u).length + 1 :=
    scanDigits_stop (d :: u) 46 (f :: v) hipd (by decide)
  have hat : cAt (d :: u ++ 46 :: f :: v) ((d :: u).length + 1) = f := by
    have h := cAt_append_cons ((d :: u) ++ [46]) f v
    simpa using h
  unfold parseRange
  simp only [h0, ne_eq, hd.1, not_false_eq_true, if_true, hd.2.1, decide_True, Bool.true_or,
    List.drop_zero, hscan, hat, hf.2.2, decide_False, Bool.and_false, Bool.false_eq_true,
    if_false]
  rw [if_neg]
  simp only [List.length_append, List.length_cons]
  omega

theorem parse_fraction (ip fp : List Byte) (hfp : fp ≠ [])
    (hipd : ∀ b ∈ ip, isdigit b = true) (hfpd : ∀ b ∈ fp, isdigit b = true) :
    (parse (ip ++ 46 :: fp)).isSome = true := by
  have hnul : ∀ b ∈ ip ++ 46 :: fp, b ≠ 0 := by
    intro b hb
    rcases List.mem_append.1 hb with hb | hb
    · exact (isdigit_ne b (hipd b hb)).1
    · rcases List.mem_cons.1 hb with rfl | hb
      · decide
      · exact (isdigit_ne b (hfpd b hb)).1
  refine (double_parse_isSome_iff _ hnul).2 (Or.inl ⟨ip, [46], fp, by simp, hipd, Or.inr rfl, hfpd, ?_⟩)
  have : 0 < fp.length := List.length_pos.2 hfp
  omega

end DoubleConvertor

set_option maxRecDepth 10000 in
/-- C32 (refuted by the code): the two `DoubleConvertor::parse` overloads do not
agree.  In the pointer-range overload the loop
`while( p < end && isdigit(*p++) )` steps over the byte that ends the digits, so
it rejects every decimal `digits.digits` that the string overload accepts (such
as `12.5`), it accepts `1x`, which the string overload rejects, and on `12.`,
which both accept, it passes `end` as the decimal-point position where the
string overload passes the offset of the dot. -/
theorem C32_double_parse_range_diverges (ip fp : List Byte) (hip : ip ≠ []) (hfp : fp ≠ [])
    (hipd : ∀ b ∈ ip, isdigit b = true) (hfpd : ∀ b ∈ fp, isdigit b = true) :
    DoubleConvertor.parseRange (ip ++ 46 :: fp) = none ∧
    (DoubleConvertor.parse (ip ++ 46 :: fp)).isSome = true ∧
    DoubleConvertor.parseRange (ascii "12.5") = none ∧
    DoubleConvertor.parse (ascii "12.5") = some ⟨true, 0, 4, 2⟩ ∧
    DoubleConvertor.parseRange (ascii "1x") = some ⟨true, 0, 2, 2⟩ ∧
    DoubleConvertor.parse (ascii "1x") = none ∧
    DoubleConvertor.parseRange (ascii "12.") = some ⟨true, 0, 3, 3⟩ ∧
    DoubleConvertor.parse (ascii "12.") = some ⟨true, 0, 3, 2⟩ :=
  ⟨DoubleConvertor.parseRange_fraction ip fp hip hfp hipd hfpd,
    DoubleConvertor.parse_fraction ip fp hfp hipd hfpd,
    by decide, by decide, by decide, by decide, by decide, by decide⟩

set_option maxRecDepth 10000 in
/-- C32 at `12.5`: the pointer-range overload rejects it, the string overload
accepts it. -/
theorem C32_double_parse_range_diverges_witness :
    (ascii "12" ≠ [] ∧ ascii "5" ≠ [] ∧ (∀ b ∈ ascii "12", isdigit b = true) ∧
      (∀ b ∈ ascii "5", isdigit b = true)) ∧
    DoubleConvertor.parseRange (ascii "12" ++ 46 :: ascii "5") = none ∧
    (DoubleConvertor.parse (ascii "12" ++ 46 :: ascii "5")).isSome = true :=
  ⟨⟨by decide, by decide, by decide, by decide⟩,
    (C32_double_parse_range_diverges (ascii "12") (ascii "5") (by decide) (by decide)
      (by decide) (by decide)).1,
    (C32_double_parse_range_diverges (ascii "12") (ascii "5") (by decide) (by decide)
      (by decide) (by decide)).2.1⟩

namespace DoubleConvertor

set_option maxRecDepth 1000000 in
theorem scaleFactors_ok : ∀ exp, exp < 309 → 1 ≤ exp →
    (scaleFactors exp).map (fun fs => decide ((fs.map Factor.exponent).sum = exp) &&
      fs.all Factor.inTable) = some true := by
  decide

theorem scaleFactors_spec (exp : Nat) (h1 : 1 ≤ exp) (h308 : exp ≤ 308) :
    ∃ fs, scaleFactors exp = some fs ∧ (fs.map Factor.exponent).sum = exp ∧
      ∀ f ∈ fs, f.inTable = true := by
  have h := scaleFactors_ok exp (by omega) h1
  cases hs : scaleFactors exp with
  | none => rw [hs] at h; simp at h
  | some fs =>
    rw [hs] at h
    simp only [Option.map_some', Option.some.injEq, Bool.and_eq_true, decide_eq_true_eq,
      List.all_eq_true] at h
    exact ⟨fs, rfl, h.1, h.2⟩

end DoubleConvertor

theorem parse_verified_scale_bounded (b e pdot : Nat) (hb : b ≤ pdot)
    (hn : 1 ≤ e - (pdot + 1)) (hsz : e - (pdot + 1) < 4294967296) :
    ∃ t, DoubleConvertor.parse_verified b e pdot = some t ∧
      t.intDigits = pdot - b ∧
      t.fracDigits = min (e - (pdot + 1)) 308 ∧
      (t.factors.map DoubleConvertor.Factor.exponent).sum = min (e - (pdot + 1)) 308 ∧
      ∀ f ∈ t.factors, f.inTable = true := by
  have hb' : (if b < pdot then pdot else b) = pdot := by
    split <;> omega
  unfold DoubleConvertor.parse_verified
  simp only [hb']
  rw [if_pos (by omega), Nat.mod_eq_of_lt hsz]
  by_cases hc : e - (pdot + 1) > 308
  · obtain ⟨fs, hfs, hsum, htab⟩ := DoubleConvertor.scaleFactors_spec 308 (by omega) (by omega)
    simp only [hc, decide_True, if_true, hfs, Option.map_some']
    refine ⟨_, rfl, rfl, ?_, ?_, htab⟩
    · simp only []; omega
    · simp only []; rw [hsum]; omega
  · obtain ⟨fs, hfs, hsum, htab⟩ :=
      DoubleConvertor.scaleFactors_spec (e - (pdot + 1)) hn (by omega)
    simp only [hc, decide_False, Bool.false_eq_true, if_false, hfs, Option.map_some']
    refine ⟨_, rfl, rfl, ?_, ?_, htab⟩
    · simp only []; omega
    · simp only []; rw [hsum]; omega

set_option maxRecDepth 10000 in
/-- C33 (refuted by the code): `parse_verified` keeps the number of fractional
digits in `unsigned exp = e - b`, which drops the bits above `2^32`.  For a
verified input with `n` fractional digits, `1 <= n < 2^32`, the digits consumed
and the exponents of the factors of `scale` are both `min(n, 308)` and every
table index lies in 0..7.  With `n = 2^32` fractional digits `exp` is 0: the
clamp to 308 is not taken, all `2^32` digits are consumed and `m_mul1` is read
at index `exp - 1 = 4294967295`, outside its 8 entries.  With `n = 2^32 + 5`
all `n` digits are consumed and the divisor is `m_mul1[4]`, exponent 5. -/
theorem C33_parse_verified_truncates :
    (∀ b e pdot : Nat, b ≤ pdot → 1 ≤ e - (pdot + 1) → e - (pdot + 1) < 4294967296 →
      ∃ t, DoubleConvertor.parse_verified b e pdot = some t ∧
        t.intDigits = pdot - b ∧
        t.fracDigits = min (e - (pdot + 1)) 308 ∧
        (t.factors.map DoubleConvertor.Factor.exponent).sum = min (e - (pdot + 1)) 308 ∧
        ∀ f ∈ t.factors, f.inTable = true) ∧
    4294967298 - (1 + 1) = 4294967296 ∧
    DoubleConvertor.parse_verified 0 4294967298 1 =
      some ⟨1, 4294967296, [DoubleConvertor.Factor.mul1 4294967295]⟩ ∧
    (DoubleConvertor.Factor.mul1 4294967295).inTable = false ∧
    DoubleConvertor.parse_verified 0 4294967303 1 =
      some ⟨1, 4294967301, [DoubleConvertor.Factor.mul1 4]⟩ ∧
    (DoubleConvertor.Factor.mul1 4).exponent = 5 :=
  ⟨parse_verified_scale_bounded, by decide, by decide, by decide, by decide, by decide⟩

/-! ## UTC parsing against validation -/

theorem utc_timestamp_parse_flag (s : List Byte) :
    (UtcTimeStampConvertor.parse s).fst = UtcTimeStampConvertor.validate s := by
  unfold UtcTimeStampConvertor.parse UtcTimeStampConvertor.validate
  by_cases h21 : s.length = 21
  · simp only [h21, decide_True, Bool.true_or, if_true, Bool.true_and, Bool.not_true,
      Bool.false_or]
    generalize (UtcConvertorBase.parse_date s 0).valid = dv
    generalize (UtcConvertorBase.parse_date s 0).p = dp
    cases dv
    · simp
    · simp only [Bool.true_and, if_true]
      cases hc : decide (cAt s dp = 45)
      · simp
      · simp only [if_true, Bool.true_and]
        cases ht : (UtcConvertorBase.parse_time s (dp + 1)).valid <;> simp
  · by_cases h17 : s.length = 17
    · simp only [h17, decide_True, Bool.or_true, if_true]
      simp
    · simp [h21, h17]

theorem utc_time_only_parse_flag (s : List Byte) :
    (UtcTimeOnlyConvertor.parse s).fst = UtcTimeOnlyConvertor.validate s := by
  unfold UtcTimeOnlyConvertor.parse UtcTimeOnlyConvertor.validate
  by_cases h12 : s.length = 12
  · simp only [h12, decide_True, Bool.true_or, if_true, Bool.true_and, Bool.not_true,
      Bool.false_or]
    cases ht : (UtcConvertorBase.parse_time s 0).valid <;> simp
  · by_cases h8 : s.length = 8
    · simp [h8]
    · simp [h12, h8]

theorem utc_date_parse_flag (s : List Byte) :
    (UtcDateConvertor.parse s).fst = UtcDateConvertor.validate s := by
  unfold UtcDateConvertor.parse UtcDateConvertor.validate
  by_cases h8 : s.length = 8
  · simp [h8]
  · simp [h8]

/-- C34: for each of `UtcTimeStampConvertor`, `UtcTimeOnlyConvertor` and
`UtcDateConvertor` and every byte string `s`, `parse(s, out)` returns true if
and only if `validate(s)` returns true; on a string of a wrong length `parse`
returns false and leaves `out` unmodified. -/
theorem C34_utc_parse_iff_validate (s : List Byte) :
    ((UtcTimeStampConvertor.parse s).fst = true ↔ UtcTimeStampConvertor.validate s = true) ∧
    ((UtcTimeOnlyConvertor.parse s).fst = true ↔ UtcTimeOnlyConvertor.validate s = true) ∧
    ((UtcDateConvertor.parse s).fst = true ↔ UtcDateConvertor.validate s = true) ∧
    (s.length ≠ 17 ∧ s.length ≠ 21 → UtcTimeStampConvertor.parse s = (false, none)) ∧
    (s.length ≠ 8 ∧ s.length ≠ 12 → UtcTimeOnlyConvertor.parse s = (false, none)) ∧
    (s.length ≠ 8 → UtcDateConvertor.parse s = (false, none)) := by
  refine ⟨by rw [utc_timestamp_parse_flag], by rw [utc_time_only_parse_flag],
    by rw [utc_date_parse_flag], ?_, ?_, ?_⟩
  · rintro ⟨h17, h21⟩
    simp [UtcTimeStampConvertor.parse, h17, h21]
  · rintro ⟨h8, h12⟩
    simp [UtcTimeOnlyConvertor.parse, h8, h12]
  · intro h8
    simp [UtcDateConvertor.parse, h8]

/-! ## Message classification and versions -/

namespace Message

theorem memAt_append_cons (pre : List Byte) (c : Byte) (rest : List Byte) (beyond : Nat → Byte) :
    memAt (pre ++ c :: rest) beyond pre.length = c := by
  unfold memAt
  rw [List.getD_eq_getElem?_getD, List.getElem?_append_right (le_refl _)]
  simp

theorem memmem_first (pre t : List Byte) (pat : List Byte) (hpat : pat ≠ [])
    (hmin : ∀ j < pre.length, ¬ pat <+: (pre ++ pat ++ t).drop j) :
    CharBuffer.memmem (pre ++ pat ++ t) pat = some pre.length := by
  refine (CharBuffer.memmem_some pat hpat _ _).2 ⟨?_, hmin⟩
  rw [List.append_assoc, List.drop_left]
  exact List.prefix_append _ _

set_option maxRecDepth 10000 in
theorem find_soh : ¬ CharBuffer.find 1 adminTable < 7 := by decide

theorem isAdminMsg_of_identifyType (msg : List Byte) (beyond : Nat → Byte) (t : List Byte)
    (hsize : 5 < msg.length) (hnul : ∀ b ∈ msg, b ≠ 0)
    (hid : identifyType msg = Result.value t) :
    isAdminMsg msg beyond = Result.value (isAdminMsgTypeValue t) := by
  obtain ⟨pre, post, hm, hsoh, hmin⟩ := (identifyType_value_iff msg t).1 hid
  have hpat : ([1, 51, 53, 61] : List Byte) ≠ [] := by simp
  have hfind : CharBuffer.findIn [1, 51, 53, 61] msg = some pre.length := by
    unfold CharBuffer.findIn
    have h := memmem_first pre (t ++ 1 :: post) [1, 51, 53, 61] hpat (by
      intro j hj
      have := hmin j hj
      rw [hm] at this
      simpa [List.append_assoc] using this)
    rw [hm]
    simpa [List.append_assoc] using h
  unfold isAdminMsg
  rw [if_pos hsize]
  simp only [hfind]
  have hlen4 : (pre ++ [1, 51, 53, 61]).length = pre.length + 4 := by simp
  cases t with
  | nil =>
    have h4 : memAt msg beyond (pre.length + 4) = 1 := by
      have h := memAt_append_cons (pre ++ [1, 51, 53, 61]) 1 post beyond
      rw [hlen4] at h
      rw [hm]
      simpa [List.append_assoc] using h
    rw [h4]
    have hf : decide (CharBuffer.find 1 adminTable < 7) = false := decide_eq_false find_soh
    rw [hf, Bool.and_false]
    rfl
  | cons c u =>
    have hc0 : c ≠ 0 := hnul c (by rw [hm]; simp)
    have h4 : memAt msg beyond (pre.length + 4) = c := by
      have h := memAt_append_cons (pre ++ [1, 51, 53, 61]) c (u ++ 1 :: post) beyond
      rw [hlen4] at h
      rw [hm]
      simpa [List.append_assoc] using h
    rw [h4]
    cases u with
    | nil =>
      have h5 : memAt msg beyond (pre.length + 5) = 1 := by
        have h := memAt_append_cons (pre ++ [1, 51, 53, 61, c]) 1 post beyond
        have hl : (pre ++ [1, 51, 53, 61, c]).length = pre.length + 5 := by simp
        rw [hl] at h
        rw [hm]
        simpa [List.append_assoc] using h
      rw [h5]
      simp [isAdminMsgTypeValue, cAt, hc0]
    | cons d w =>
      have hd0 : d ≠ 0 := hnul d (by rw [hm]; simp)
      have hd1 : d ≠ 1 := by
        intro h
        apply hsoh
        rw [h]
        simp
      have h5 : memAt msg beyond (pre.length + 5) = d := by
        have h := memAt_append_cons (pre ++ [1, 51, 53, 61, c]) d (w ++ 1 :: post) beyond
        have hl : (pre ++ [1, 51, 53, 61, c]).length = pre.length + 5 := by simp
        rw [hl] at h
        rw [hm]
        simpa [List.append_assoc] using h
      rw [h5]
      simp [isAdminMsgTypeValue, cAt, hd0, hd1]

theorem isAdminMsg_of_no_tag (msg : List Byte) (beyond : Nat → Byte) (hsize : 5 < msg.length)
    (hno : ¬ [1, 51, 53, 61] <:+: msg) : isAdminMsg msg beyond = Result.value false := by
  have hpat : ([1, 51, 53, 61] : List Byte) ≠ [] := by simp
  have hnone : CharBuffer.findIn [1, 51, 53, 61] msg = none := by
    unfold CharBuffer.findIn
    refine (CharBuffer.memmem_none _ hpat msg).2 ?_
    intro j hj
    apply hno
    obtain ⟨r, hr⟩ := hj
    refine ⟨msg.take j, r, ?_⟩
    rw [List.append_assoc, hr, List.take_append_drop]
  unfold isAdminMsg
  rw [if_pos hsize]
  simp only [hnone]

end Message

/-- C35: the raw byte scan and the field-based classification agree.  For a
raw message of more than 5 bytes: if it is NUL-free and `identifyType` succeeds
on it, `Message::isAdminMsg(msg)` returns `Message::isAdminMsgTypeValue` of the
MsgType `identifyType` returns; and if it contains no SOH `35=` sequence,
`isAdminMsg` returns false. -/
theorem C35_admin_scan_agrees (msg : List Byte) (beyond : Nat → Byte)
    (hsize : 5 < msg.length) :
    (∀ t : List Byte, (∀ b ∈ msg, b ≠ 0) → identifyType msg = Message.Result.value t →
      Message.isAdminMsg msg beyond = Message.Result.value (Message.isAdminMsgTypeValue t)) ∧
    (¬ [1, 51, 53, 61] <:+: msg →
      Message.isAdminMsg msg beyond = Message.Result.value false) :=
  ⟨fun t hnul hid => Message.isAdminMsg_of_identifyType msg beyond t hsize hnul hid,
    Message.isAdminMsg_of_no_tag msg beyond hsize⟩

set_option maxRecDepth 10000 in
/-- C35 at the heartbeat `8=FIX.4.2|9=5|35=0|10=000|`: the scan and the MsgType
`0` both say admin. -/
theorem C35_admin_scan_agrees_witness :
    5 < (ascii "8=FIX.4.2\x019=5\x0135=0\x0110=000\x01").length ∧
    identifyType (ascii "8=FIX.4.2\x019=5\x0135=0\x0110=000\x01") =
      Message.Result.value (ascii "0") ∧
    Message.isAdminMsg (ascii "8=FIX.4.2\x019=5\x0135=0\x0110=000\x01") (fun _ => 0) =
      Message.Result.value (Message.isAdminMsgTypeValue (ascii "0")) :=
  ⟨by decide, by decide,
    (C35_admin_scan_agrees (ascii "8=FIX.4.2\x019=5\x0135=0\x0110=000\x01") (fun _ => 0)
      (by decide)).1 (ascii "0") (by decide) (by decide)⟩

/-- C36: `isAdmin()` and `isApp()` are never both true; when the header contains
MsgType, `isApp()` is the negation of `isAdmin()`, so exactly one of them is
true; when the header has no MsgType field both are false, so `isApp()` is not
the negation of `isAdmin()` in general. -/
theorem C36_admin_or_app (msg : Message) :
    ¬ (msg.isAdmin = true ∧ msg.isApp = true) ∧
    (∀ f : FieldBase, msg.m_header.find FIELD.MsgType = some f →
      msg.isApp = !msg.isAdmin ∧ (msg.isAdmin = true ∨ msg.isApp = true)) ∧
    (msg.m_header.find FIELD.MsgType = none → msg.isAdmin = false ∧ msg.isApp = false) ∧
    (∃ m : Message, m.isApp ≠ !m.isAdmin) := by
  refine ⟨?_, ?_, ?_, ?_⟩
  · unfold Message.isAdmin Message.isApp
    cases msg.m_header.find FIELD.MsgType with
    | none => simp
    | some f => cases Message.isAdminMsgTypeValue f.value <;> simp
  · intro f hf
    unfold Message.isAdmin Message.isApp
    rw [hf]
    cases Message.isAdminMsgTypeValue f.value <;> simp
  · intro hf
    unfold Message.isAdmin Message.isApp
    rw [hf]
    exact ⟨rfl, rfl⟩
  · refine ⟨⟨⟨[], [], message_order.header⟩, ⟨[], [], message_order.normal⟩,
      ⟨[], [], message_order.trailer⟩, 0, 0⟩, ?_⟩
    decide

namespace Message

theorem toBeginString_consts (k : Values) (hdistinct : (applVerIDs k).Nodup) :
    toBeginString k k.ApplVerID_FIX40 = k.BeginString_FIX40 ∧
    toBeginString k k.ApplVerID_FIX41 = k.BeginString_FIX41 ∧
    toBeginString k k.ApplVerID_FIX42 = k.BeginString_FIX42 ∧
    toBeginString k k.ApplVerID_FIX43 = k.BeginString_FIX43 ∧
    toBeginString k k.ApplVerID_FIX44 = k.BeginString_FIX44 ∧
    toBeginString k k.ApplVerID_FIX50 = k.BeginString_FIX50 := by
  simp only [applVerIDs, List.nodup_cons, List.mem_cons, List.mem_singleton,
    List.not_mem_nil, or_false, not_or, List.nodup_nil, and_true] at hdistinct
  obtain ⟨⟨h01, h02, h03, h04, h05, _, _⟩, ⟨h12, h13, h14, h15, _, _⟩,
    ⟨h23, h24, h25, _, _⟩, ⟨h34, h35, _, _⟩, ⟨h45, _, _⟩, _⟩ := hdistinct
  refine ⟨?_, ?_, ?_, ?_, ?_, ?_⟩
  · simp [toBeginString]
  · simp [toBeginString, Ne.symm h01]
  · simp [toBeginString, Ne.symm h02, Ne.symm h12]
  · simp [toBeginString, Ne.symm h03, Ne.symm h13, Ne.symm h23]
  · simp [toBeginString, Ne.symm h04, Ne.symm h14, Ne.symm h24, Ne.symm h34]
  · simp [toBeginString, Ne.symm h05, Ne.symm h15, Ne.symm h25, Ne.symm h35, Ne.symm h45]

theorem round_trip_of_mem (k : Values) (hdistinct : (applVerIDs k).Nodup) (b : List Byte)
    (hb : b ∈ [k.BeginString_FIX40, k.BeginString_FIX41, k.BeginString_FIX42,
      k.BeginString_FIX43, k.BeginString_FIX44, k.BeginString_FIX50]) :
    toBeginString k (toApplVerID k b) = b := by
  obtain ⟨c0, c1, c2, c3, c4, c5⟩ := toBeginString_consts k hdistinct
  simp only [List.mem_cons, List.mem_singleton, List.not_mem_nil, or_false] at hb
  unfold toApplVerID
  by_cases h0 : b = k.BeginString_FIX40
  · rw [if_pos h0, c0, h0]
  rw [if_neg h0]
  by_cases h1 : b = k.BeginString_FIX41
  · rw [if_pos h1, c1, h1]
  rw [if_neg h1]
  by_cases h2 : b = k.BeginString_FIX42
  · rw [if_pos h2, c2, h2]
  rw [if_neg h2]
  by_cases h3 : b = k.BeginString_FIX43
  · rw [if_pos h3, c3, h3]
  rw [if_neg h3]
  by_cases h4 : b = k.BeginString_FIX44
  · rw [if_pos h4, c4, h4]
  rw [if_neg h4]
  by_cases h5 : b = k.BeginString_FIX50
  · rw [if_pos h5, c5, h5]
  exfalso
  rcases hb with h | h | h | h | h | h
  · exact h0 h
  · exact h1 h
  · exact h2 h
  · exact h3 h
  · exact h4 h
  · exact h5 h

end Message

/-- C37: with the eight ApplVerID constants pairwise distinct, for every
BeginString `b` among the constants FIX.4.0, FIX.4.1, FIX.4.2, FIX.4.3, FIX.4.4
and FIX.5.0, `Message::toBeginString(Message::toApplVerID(b)) = b`; and for
every BeginString outside the eight recognised values (those six, `FIX.5.0SP1`
and `FIX.5.0SP2`) `toApplVerID(b)` is the ApplVerID carrying the text of `b`
unchanged. -/
theorem C37_appl_ver_round_trip (k : Message.Values)
    (hdistinct : (Message.applVerIDs k).Nodup) :
    (∀ b ∈ [k.BeginString_FIX40, k.BeginString_FIX41, k.BeginString_FIX42,
        k.BeginString_FIX43, k.BeginString_FIX44, k.BeginString_FIX50],
      Message.toBeginString k (Message.toApplVerID k b) = b) ∧
    (∀ b : List Byte, b ∉ [k.BeginString_FIX40, k.BeginString_FIX41, k.BeginString_FIX42,
        k.BeginString_FIX43, k.BeginString_FIX44, k.BeginString_FIX50, ascii "FIX.5.0SP1",
        ascii "FIX.5.0SP2"] →
      Message.toApplVerID k b = b) := by
  refine ⟨fun b hb => Message.round_trip_of_mem k hdistinct b hb, ?_⟩
  intro b hb
  simp only [List.mem_cons, List.mem_singleton, List.not_mem_nil, or_false, not_or] at hb
  obtain ⟨g0, g1, g2, g3, g4, g5, g6, g7⟩ := hb
  simp [Message.toApplVerID, g0, g1, g2, g3, g4, g5, g6, g7]

set_option maxRecDepth 10000 in
/-- C37 at the constants of the FIX standard: `FIX.4.2` maps to ApplVerID `4`
and back. -/
theorem C37_appl_ver_round_trip_witness :
    (Message.applVerIDs Message.standardValues).Nodup ∧
    Message.toBeginString Message.standardValues
      (Message.toApplVerID Message.standardValues (ascii "FIX.4.2")) = ascii "FIX.4.2" :=
  ⟨by decide, (C37_appl_ver_round_trip Message.standardValues (by decide)).1 (ascii "FIX.4.2")
    (by decide)⟩

/-! ## The two field counters -/

namespace Message

theorem countHeaderTagged_fold (bs bl : Int) (l : List FieldBase) (a p : Int) :
    l.foldl (fun (c : FieldCounter) f =>
        if f.tag ≠ bl then
          if f.tag ≠ bs then { c with m_length := addInt32 c.m_length f.getLength }
          else { c with m_prefix := addInt32 c.m_prefix f.getLength }
        else c) ⟨wrap32 a, wrap32 p⟩ =
      ⟨wrap32 (a + lengthSum (l.filter (fun f => decide (f.tag ≠ bs) && decide (f.tag ≠ bl)))),
        wrap32 (p + lengthSum (l.filter (fun f => decide (f.tag = bs) && decide (f.tag ≠ bl))))⟩ := by
  induction l generalizing a p with
  | nil => simp [lengthSum]
  | cons g r ih =>
    simp only [List.foldl_cons]
    by_cases hbl : g.tag = bl
    · rw [if_neg (by simpa using hbl), ih, List.filter_cons_of_neg (by simp [hbl]),
        List.filter_cons_of_neg (by simp [hbl])]
    · rw [if_pos hbl]
      by_cases hbs : g.tag = bs
      · rw [if_neg (by simpa using hbs)]
        have e : addInt32 (wrap32 p) g.getLength = wrap32 (p + g.getLength) := by
          rw [addInt32_eq_wrap32, wrap32_add_left]
        show List.foldl _ (FieldCounter.mk (wrap32 a) (addInt32 (wrap32 p) g.getLength)) r = _
        have hne : bs ≠ bl := hbs ▸ hbl
        rw [e, ih, List.filter_cons_of_neg (by simp [hbs]),
          List.filter_cons_of_pos (by simp [hbs, hne])]
        simp only [lengthSum, List.map_cons, List.sum_cons, Int.add_assoc]
      · rw [if_pos hbs]
        have e : addInt32 (wrap32 a) g.getLength = wrap32 (a + g.getLength) := by
          rw [addInt32_eq_wrap32, wrap32_add_left]
        show List.foldl _ (FieldCounter.mk (addInt32 (wrap32 a) g.getLength) (wrap32 p)) r = _
        rw [e, ih, List.filter_cons_of_pos (by simp [hbs, hbl]),
          List.filter_cons_of_neg (by simp [hbs])]
        simp only [lengthSum, List.map_cons, List.sum_cons, Int.add_assoc]

theorem countHeaderTagged_eq (bs bl : Int) (m : FieldMap) :
    FieldCounter.countHeaderTagged bs bl ⟨0, 0⟩ m =
      ⟨wrap32 (lengthSum (m.fields.filter
          (fun f => decide (f.tag ≠ bs) && decide (f.tag ≠ bl))) + lengthSum m.groupFields),
        wrap32 (lengthSum (m.fields.filter
          (fun f => decide (f.tag = bs) && decide (f.tag ≠ bl))))⟩ := by
  unfold FieldCounter.countHeaderTagged
  have h := countHeaderTagged_fold bs bl m.fields 0 0
  rw [wrap32_zero, Int.zero_add, Int.zero_add] at h
  rw [h, countGroups_eq]
  simp only [addInt32_eq_wrap32, wrap32_add_left, wrap32_add_right]

theorem countTrailerTagged_eq :
    FieldCounter.countTrailerTagged FIELD.CheckSum = FieldCounter.countTrailer := rfl

theorem ofMessageTagged_eq (msg : Message) (bs bl : Int) :
    FieldCounter.ofMessageTagged msg bs bl FIELD.CheckSum =
      ⟨wrap32 (lengthSum (msg.m_header.fields.filter
            (fun f => decide (f.tag ≠ bs) && decide (f.tag ≠ bl))) +
          lengthSum msg.m_header.groupFields +
          (lengthSum msg.body.fields + lengthSum msg.body.groupFields) +
          lengthSum (msg.m_trailer.fields.filter (fun f => decide (f.tag ≠ FIELD.CheckSum))) +
          lengthSum msg.m_trailer.groupFields),
        wrap32 (lengthSum (msg.m_header.fields.filter
          (fun f => decide (f.tag = bs) && decide (f.tag ≠ bl))))⟩ := by
  unfold FieldCounter.ofMessageTagged
  show FieldCounter.countTrailer _ _ = _
  simp only [countHeaderTagged_eq, countBody_eq, addInt32_eq_wrap32, wrap32_add_left,
    wrap32_add_right, countTrailer_eq]

theorem canonical_begin_string (m : FieldMap) (h : canonicalHeader m = true) :
    m.fields.filter (fun f => decide (f.tag = FIELD.BeginString) &&
        decide (f.tag ≠ FIELD.BodyLength)) =
      (match m.fields with
        | [] => []
        | f :: _ => if f.tag = FIELD.BeginString then [f] else []) := by
  unfold canonicalHeader at h
  have h89 : FIELD.BeginString ≠ FIELD.BodyLength := by decide
  have hnone : ∀ l : List FieldBase,
      l.all (fun f => decide (f.tag ≠ FIELD.BeginString) &&
        decide (f.tag ≠ FIELD.BodyLength)) = true →
      l.filter (fun f => decide (f.tag = FIELD.BeginString) &&
        decide (f.tag ≠ FIELD.BodyLength)) = [] := by
    intro l hl
    rw [List.filter_eq_nil_iff]
    intro x hx
    have := List.all_eq_true.1 hl x hx
    simp only [Bool.and_eq_true, decide_eq_true_eq] at this
    simp [this.1]
  have hdrop : ∀ l : List FieldBase,
      (dropLeading FIELD.BodyLength l).all (fun f => decide (f.tag ≠ FIELD.BeginString) &&
        decide (f.tag ≠ FIELD.BodyLength)) = true →
      l.filter (fun f => decide (f.tag = FIELD.BeginString) &&
        decide (f.tag ≠ FIELD.BodyLength)) = [] := by
    intro l hl
    cases l with
    | nil => rfl
    | cons g r =>
      by_cases h9 : g.tag = FIELD.BodyLength
      · simp only [dropLeading, h9, if_true] at hl
        rw [List.filter_cons_of_neg (by simp [h9])]
        exact hnone r hl
      · simp only [dropLeading, h9, if_false] at hl
        exact hnone _ hl
  cases hm : m.fields with
  | nil => rfl
  | cons first rest =>
    rw [hm] at h
    by_cases h8 : first.tag = FIELD.BeginString
    · simp only [dropLeading, h8, if_true] at h ⊢
      rw [List.filter_cons_of_pos (by simp [h8, h89]), hdrop rest h]
    · simp only [dropLeading, h8, if_false] at h ⊢
      exact hdrop _ h

end Message

/-- C38: for a message whose header iterates in canonical order (BeginString
first, then BodyLength, each at most once), the default `FieldCounter(msg)` and
the explicit-tag `FieldCounter(msg, BeginString, BodyLength, CheckSum)` that
`Message::bodyLength()` uses yield the same `getBodyLength()` and the same
`getBeginStringLength()`; the length of the BeginString field is taken to fit
an `int`, as the return type of `getLength()` says. -/
theorem C38_field_counters_agree (msg : Message)
    (hcanon : Message.canonicalHeader msg.m_header = true)
    (hlen : ∀ f ∈ msg.m_header.fields, f.tag = FIELD.BeginString → isInt32 f.getLength) :
    (Message.FieldCounter.ofMessageTagged msg FIELD.BeginString FIELD.BodyLength
        FIELD.CheckSum).getBodyLength = (Message.FieldCounter.ofMessage msg).getBodyLength ∧
    (Message.FieldCounter.ofMessageTagged msg FIELD.BeginString FIELD.BodyLength
        FIELD.CheckSum).getBeginStringLength =
      (Message.FieldCounter.ofMessage msg).getBeginStringLength ∧
    Message.bodyLength msg FIELD.BeginString FIELD.BodyLength FIELD.CheckSum =
      (Message.FieldCounter.ofMessage msg).getBodyLength := by
  have hb : (Message.FieldCounter.ofMessageTagged msg FIELD.BeginString FIELD.BodyLength
        FIELD.CheckSum).getBodyLength = (Message.FieldCounter.ofMessage msg).getBodyLength := by
    rw [Message.ofMessageTagged_eq, Message.ofMessage_eq, Message.canonical_rest _ hcanon]
    rfl
  refine ⟨hb, ?_, hb⟩
  rw [Message.ofMessageTagged_eq, Message.ofMessage_eq]
  simp only [Message.FieldCounter.getBeginStringLength]
  rw [Message.canonical_begin_string _ hcanon]
  cases hm : msg.m_header.fields with
  | nil => exact wrap32_zero
  | cons first rest =>
    simp only []
    by_cases h8 : first.tag = FIELD.BeginString
    · rw [if_pos h8, if_pos h8]
      have := hlen first (by rw [hm]; exact List.mem_cons_self _ _) h8
      simp only [Message.lengthSum, List.map_cons, List.map_nil, List.sum_cons, List.sum_nil,
        Int.add_zero]
      exact wrap32_of_isInt32 _ this
    · rw [if_neg h8, if_neg h8]
      exact wrap32_zero

theorem getLength_isInt32 (f : FieldBase) (ht : isInt32 f.tag) (hv : f.value.length ≤ 1000000) :
    isInt32 f.getLength := by
  have hlen := canonicalDecimal_length 9 f.tag.natAbs (by unfold isInt32 at ht; omega)
  unfold FieldBase.getLength FieldBase.serialized
  rw [IntConvertor.convert_eq f.tag ht]
  simp only [List.length_append, List.length_singleton]
  unfold isInt32
  split <;> simp only [List.length_cons, List.length_nil] <;> omega

set_option maxRecDepth 10000 in
/-- C38 at the heartbeat example. -/
theorem C38_field_counters_agree_witness :
    (Message.canonicalHeader Message.heartbeat.m_header = true ∧
      ∀ f ∈ Message.heartbeat.m_header.fields, f.tag = FIELD.BeginString → isInt32 f.getLength) ∧
    Message.bodyLength Message.heartbeat FIELD.BeginString FIELD.BodyLength FIELD.CheckSum =
      (Message.FieldCounter.ofMessage Message.heartbeat).getBodyLength :=
  have hlen : ∀ f ∈ Message.heartbeat.m_header.fields, f.tag = FIELD.BeginString →
      isInt32 f.getLength := fun f hf _ =>
    getLength_isInt32 f
      ((by decide : ∀ g ∈ Message.heartbeat.m_header.fields,
        isInt32 g.tag ∧ g.value.length ≤ 1000000) f hf).1
      ((by decide : ∀ g ∈ Message.heartbeat.m_header.fields,
        isInt32 g.tag ∧ g.value.length ≤ 1000000) f hf).2
  ⟨⟨by decide, hlen⟩, (C38_field_counters_agree Message.heartbeat (by decide) hlen).2.2⟩

/-! ## Status bits and admin traits -/

namespace Message

theorem getStatusBit_eq_testBit (st bit : Nat) : getStatusBit st bit = st.testBit bit := by
  unfold getStatusBit
  rw [Nat.one_shiftLeft, Nat.and_two_pow]
  have hp : 2 ^ bit ≠ 0 := by positivity
  cases st.testBit bit <;> simp [hp]

theorem status_error_mask_eq : status_error_mask = 2 ^ 3 - 1 := by decide

theorem error_mask_zero_iff (st : Nat) :
    st &&& status_error_mask = 0 ↔
      getStatusBit st tag_out_of_order = false ∧ getStatusBit st invalid_tag_format = false ∧
        getStatusBit st incorrect_data_format = false := by
  rw [status_error_mask_eq, Nat.and_pow_two_sub_one_eq_mod]
  simp only [getStatusBit_eq_testBit, tag_out_of_order, invalid_tag_format,
    incorrect_data_format, Nat.testBit_to_div_mod, decide_eq_false_iff_not]
  norm_num
  omega

theorem setErrorStatusBits_stuck (msg : Message) (h : msg.m_status &&& status_error_mask ≠ 0)
    (calls : List (Nat × Int)) : setErrorStatusBits msg calls = msg := by
  unfold setErrorStatusBits
  induction calls with
  | nil => rfl
  | cons c r ih =>
    rw [List.foldl_cons]
    have : setErrorStatusBit msg c.fst c.snd = msg := by
      unfold setErrorStatusBit
      rw [if_neg h]
    rw [this, ih]

theorem error_bit_mask (b : Nat) (hb : b ≤ 2) : (0 ||| 1 <<< b) &&& status_error_mask ≠ 0 := by
  interval_cases b <;> decide

end Message

/-- C39: first parse error wins.  When one of the error bits
(`tag_out_of_order`, `invalid_tag_format`, `incorrect_data_format`) is already
set, `setErrorStatusBit(bit, data)` leaves the message, and so `m_status` and
`m_status_data`, unchanged; when none is set it stores `data` in
`m_status_data`, sets the requested bit and changes no other bit.  Hence after
`clear()` and any sequence of `setErrorStatusBit` calls with error bits, the
status is that of the first call alone: at most one error bit is set, and the
status data is the data of that call. -/
theorem C39_first_error_wins (msg : Message) (bit : Nat) (data : Int) :
    ((Message.getStatusBit msg.m_status Message.tag_out_of_order = true ∨
        Message.getStatusBit msg.m_status Message.invalid_tag_format = true ∨
        Message.getStatusBit msg.m_status Message.incorrect_data_format = true) →
      msg.setErrorStatusBit bit data = msg) ∧
    ((Message.getStatusBit msg.m_status Message.tag_out_of_order = false ∧
        Message.getStatusBit msg.m_status Message.invalid_tag_format = false ∧
        Message.getStatusBit msg.m_status Message.incorrect_data_format = false) →
      (msg.setErrorStatusBit bit data).m_status_data = data ∧
      Message.getStatusBit (msg.setErrorStatusBit bit data).m_status bit = true ∧
      (∀ j, j ≠ bit → Message.getStatusBit (msg.setErrorStatusBit bit data).m_status j =
        Message.getStatusBit msg.m_status j) ∧
      (msg.setErrorStatusBit bit data).m_header = msg.m_header ∧
      (msg.setErrorStatusBit bit data).body = msg.body ∧
      (msg.setErrorStatusBit bit data).m_trailer = msg.m_trailer) ∧
    (msg.clear.m_status = 0 ∧ msg.clear.m_status_data = 0) ∧
    (∀ (b : Nat) (d : Int) (calls : List (Nat × Int)), b ≤ 2 →
      (msg.clear.setErrorStatusBits ((b, d) :: calls)).m_status = 1 <<< b ∧
      (msg.clear.setErrorStatusBits ((b, d) :: calls)).m_status_data = d ∧
      (∀ j, Message.getStatusBit (msg.clear.setErrorStatusBits ((b, d) :: calls)).m_status j =
        decide (j = b))) := by
  refine ⟨?_, ?_, ⟨rfl, rfl⟩, ?_⟩
  · intro h
    have hne : msg.m_status &&& Message.status_error_mask ≠ 0 := by
      intro h0
      obtain ⟨h1, h2, h3⟩ := (Message.error_mask_zero_iff _).1 h0
      rcases h with h | h | h
      · rw [h1] at h; exact absurd h (by decide)
      · rw [h2] at h; exact absurd h (by decide)
      · rw [h3] at h; exact absurd h (by decide)
    unfold Message.setErrorStatusBit
    rw [if_neg hne]
  · intro h
    have h0 := (Message.error_mask_zero_iff _).2 h
    unfold Message.setErrorStatusBit
    rw [if_pos h0]
    refine ⟨rfl, ?_, ?_, rfl, rfl, rfl⟩
    · simp only [Message.getStatusBit_eq_testBit, Nat.testBit_or, Nat.one_shiftLeft,
        Nat.testBit_two_pow_self, Bool.or_true]
    · intro j hj
      simp only [Message.getStatusBit_eq_testBit, Nat.testBit_or, Nat.one_shiftLeft,
        Nat.testBit_two_pow, decide_eq_false (Ne.symm hj), Bool.or_false]
  · intro b d calls hb
    have hfirst : msg.clear.setErrorStatusBit b d =
        { msg.clear with m_status_data := d, m_status := 0 ||| 1 <<< b } := by
      unfold Message.setErrorStatusBit
      rw [if_pos (by simp [Message.clear])]
      rfl
    have hrun : msg.clear.setErrorStatusBits ((b, d) :: calls) =
        { msg.clear with m_status_data := d, m_status := 0 ||| 1 <<< b } := by
      show Message.setErrorStatusBits (msg.clear.setErrorStatusBit b d) calls = _
      rw [hfirst]
      exact Message.setErrorStatusBits_stuck _ (Message.error_bit_mask b hb) calls
    rw [hrun]
    refine ⟨by simp, rfl, ?_⟩
    intro j
    simp only [Message.getStatusBit_eq_testBit, Nat.zero_or, Nat.one_shiftLeft,
      Nat.testBit_two_pow]
    exact decide_eq_decide.2 eq_comm

set_option maxRecDepth 1000000 in
/-- C40: `Message::getAdminTrait(c)` is `admin_session` (1) for `0`, `1` and
`3`, `admin_status` (2) for `2`, `4` and `5`, `admin_logon` (4) for `A`, and
`admin_none` (0) for every other char, NUL included; it is non-zero exactly when
`isAdminMsgTypeValue` of the one-character string `c` is true. -/
theorem C40_admin_trait :
    (∀ c : Byte, Message.getAdminTrait c =
      if c = 48 ∨ c = 49 ∨ c = 51 then Message.admin_session
      else if c = 50 ∨ c = 52 ∨ c = 53 then Message.admin_status
      else if c = 65 then Message.admin_logon
      else Message.admin_none) ∧
    Message.getAdminTrait 0 = Message.admin_none ∧
    (Message.admin_none = 0 ∧ Message.admin_session = 1 ∧ Message.admin_status = 2 ∧
      Message.admin_logon = 4) ∧
    (∀ c : Byte, Message.getAdminTrait c ≠ 0 ↔ Message.isAdminMsgTypeValue [c] = true) := by
  refine ⟨by decide, by decide, by decide, by decide⟩

end FIX
